import Mathlib

/-! pg_pathman: shared-memory block arena and runtime-append candidate pool.

A shallow embedding of `src/dsm_array.c`, of the candidate-pool code of
`src/nodes_common.c` and of the enable switch of `src/hooks.c`, followed by
theorems about the embedded functions.

Conventions of the embedding

* `size_t` values are natural numbers, without wrap-around: sizes and counts
  are taken to stay below `2^64`.  The product `entry_size * elem_count` of
  `alloc_dsm_array` is the code's only for requests below `2^64`; the
  theorems on one arbitrary request state that bound.  The development fixes
  the 64-bit platform: `sizeof(BlockHeader) = sizeof(uintptr_t) = 8`, little
  endian.
* The mapped segment is a byte map `Mem`, address 0 being
  `dsm_segment_address(segment)`.  A block header is the 8-byte word stored at
  `i * block_size`; payload bytes of a multi-block run overlay the header
  positions of the run's later blocks, exactly as in the C code.  The map is
  total: `dsm_resize` only moves the end of the table, and an access beyond
  `blocks_count * block_size` is not a fault of the model.
* Loops are structural recursions.  A `for` loop with a known trip count
  recurses on that count; the two scanning loops of `alloc_dsm_array`, whose
  step is read from memory, carry `blocks_count` as fuel and return `none`
  when the fuel runs out (the C loop would not terminate there).  The retry
  recursion of `alloc_dsm_array` takes its fuel as an argument.
* The hash table of the candidate pool is the list of its entries in the
  order `hash_seq_search` enumerates them; a `ChildScanCommon` pointer is a
  position in that list.  Executor objects live in a heap with a log of the
  host calls.  Functions of the host (`ExecInitNode`, `ExecProject`, `qsort`,
  the advance callback) are parameters or are modelled next to their use.
* `Assert` is compiled out of builds without assertion checking.  The
  assertion of `unpack_runtimeappend_private` is modelled with a flag for the
  kind of build; the other assertions are not part of the embedded functions.
-/

namespace Pathman

/-! ## Segment memory -/

/-- Contents of the mapped segment: one byte per address. -/
abbrev Mem := Nat → Nat

/-- Read of a `uintptr_t` at address `a` (little endian, 8 bytes). -/
def load64 (m : Mem) (a : Nat) : Nat :=
  m a % 256 + (m (a + 1) % 256) * 2 ^ 8 + (m (a + 2) % 256) * 2 ^ 16
    + (m (a + 3) % 256) * 2 ^ 24 + (m (a + 4) % 256) * 2 ^ 32
    + (m (a + 5) % 256) * 2 ^ 40 + (m (a + 6) % 256) * 2 ^ 48
    + (m (a + 7) % 256) * 2 ^ 56

/-- Write of a `uintptr_t` at address `a` (little endian, 8 bytes). -/
def store64 (m : Mem) (a w : Nat) : Mem :=
  fun x => if a ≤ x ∧ x < a + 8 then (w / 2 ^ (8 * (x - a))) % 256 else m x

/-- Bytes `src .. src + n - 1` of the segment, as `memcpy` reads them. -/
def read_bytes (m : Mem) (src n : Nat) : List Nat :=
  (List.range n).map (fun j => m (src + j))

/-- Result of `memcpy(dst, buf, buf.length)` into the segment. -/
def memcpy (m : Mem) (dst : Nat) (buf : List Nat) : Mem :=
  fun x => if dst ≤ x ∧ x < dst + buf.length then buf.getD (x - dst) 0 else m x

/-! ## Block headers (`dsm_array.c`, lines 31-50) -/

/-- Value of `sizeof(BlockHeader)`, a `uintptr_t`. -/
def sizeofBlockHeader : Nat := 8

/-- Macro `FREE_BIT`. -/
def FREE_BIT : Nat := 0x80000000

/-- Macro `is_free(header)`: `(*header) & FREE_BIT`, as a truth value. -/
def is_free (header : Nat) : Bool := (header &&& FREE_BIT) != 0

/-- Macro `set_free(header)`: `(*header) | FREE_BIT`. -/
def set_free (header : Nat) : Nat := header ||| FREE_BIT

/-- Macro `set_used(header)`: `(*header) & ~FREE_BIT`; `~FREE_BIT` is the
`unsigned int` `0x7FFFFFFF`, zero-extended to the width of the header. -/
def set_used (header : Nat) : Nat := header &&& 0x7FFFFFFF

/-- Macro `get_length(header)`: `(*header) & ~FREE_BIT`. -/
def get_length (header : Nat) : Nat := header &&& 0x7FFFFFFF

/-- Macro `set_length(header, length)`: `(length) | ((*header) & FREE_BIT)`. -/
def set_length (header length : Nat) : Nat := length ||| (header &&& FREE_BIT)

/-! ## Arena state -/

/-- Struct `DsmConfig`. -/
structure DsmConfig where
  segment_handle : Nat
  block_size : Nat
  blocks_count : Nat
  first_free : Nat
deriving DecidableEq, Repr

/-- Modelled from the spec: struct `DsmArray` of `dsm_array.h` (not under
`src/`), the handle of an allocated run: an (offset, element count, element
size) descriptor.  The field names are those `dsm_array.c` uses. -/
structure DsmArray where
  offset : Nat
  elem_count : Nat
  entry_size : Nat
deriving DecidableEq, Repr

/-- An attached arena: the shared `dsm_cfg` record and the bytes of the
mapped `segment`. -/
structure Arena where
  cfg : DsmConfig
  mem : Mem

/-- Header word of block `i`: `*(BlockHeaderPtr) &ptr[i * block_size]`. -/
def Arena.header (st : Arena) (i : Nat) : Nat :=
  load64 st.mem (i * st.cfg.block_size)

/-- The two statements `*header = set_free(header); *header = set_length(header, 1);`
applied to the header stored at address `a`. -/
def write_free_header (m : Mem) (a : Nat) : Mem :=
  let m1 := store64 m a (set_free (load64 m a))
  store64 m1 a (set_length (load64 m1 a) 1)

/-- Loop of `init_dsm_table`: `n` iterations starting at block `i`. -/
def init_dsm_table_loop (block_size : Nat) : Nat → Nat → Mem → Mem
  | 0, _, m => m
  | n + 1, i, m =>
    init_dsm_table_loop block_size n (i + 1) (write_free_header m (i * block_size))

/-- Function `init_dsm_table(block_size, start, end)`:
`for (i = start; i < end; i++)` runs `end - start` times. -/
def init_dsm_table (block_size start stop : Nat) (m : Mem) : Mem :=
  init_dsm_table_loop block_size (stop - start) start m

/-! ## `alloc_dsm_array` -/

/-- Local variables of `alloc_dsm_array` that the scan loop reads and writes. -/
structure ScanVars where
  i : Nat
  min_pos : Nat
  max_pos : Nat
  found : Bool
  collecting_blocks : Bool
  offset : Nat
  total_length : Nat
deriving DecidableEq, Repr

/-- Values of the locals at loop entry; `size_t offset = -1` is `2^64 - 1`. -/
def scan_init (cfg : DsmConfig) : ScanVars :=
  { i := cfg.first_free, min_pos := 0, max_pos := 0, found := false,
    collecting_blocks := false, offset := 2 ^ 64 - 1, total_length := 0 }

/-- Body of the scan loop up to (not including) the test
`total_length >= size_requested` (lines 172-194). -/
def scan_body (cfg : DsmConfig) (m : Mem) (v : ScanVars) : ScanVars :=
  let header := load64 m (v.i * cfg.block_size)
  if is_free header then
    if !v.collecting_blocks then
      { v with offset := v.i * cfg.block_size,
               total_length := cfg.block_size - sizeofBlockHeader,
               min_pos := v.i,
               collecting_blocks := true,
               i := v.i + 1 }
    else
      { v with total_length := v.total_length + cfg.block_size, i := v.i + 1 }
  else
    { v with collecting_blocks := false, offset := 0, total_length := 0,
             i := v.i + get_length header }

/-- Scan loop of `alloc_dsm_array` (lines 170-202).  `none`: the fuel is used
up while `i < blocks_count` still holds. -/
def alloc_scan (cfg : DsmConfig) (m : Mem) (size_requested : Nat) :
    Nat → ScanVars → Option ScanVars
  | 0, v => if v.i < cfg.blocks_count then none else some v
  | fuel + 1, v =>
    if v.i < cfg.blocks_count then
      let v1 := scan_body cfg m v
      if v1.total_length ≥ size_requested then
        some { v1 with max_pos := v1.i - 1, found := true }
      else
        alloc_scan cfg m size_requested fuel v1
    else some v

/-- Loop "look up for first free block" (lines 223-235): the value of
`first_free` after it, started at block `i`. -/
def hint_loop (cfg : DsmConfig) (m : Mem) : Nat → Nat → Option Nat
  | 0, i => if i < cfg.blocks_count then none else some cfg.first_free
  | fuel + 1, i =>
    if i < cfg.blocks_count then
      let header := load64 m (i * cfg.block_size)
      if is_free header then some i
      else hint_loop cfg m fuel (i + get_length header)
    else some cfg.first_free

/-- Growth step of `alloc_dsm_array` (lines 210-214): `dsm_resize` keeps the
bytes already mapped, `init_dsm_table` initialises the added blocks. -/
def grow (st : Arena) : Arena :=
  let new_blocks_count := st.cfg.blocks_count * 2
  { cfg := { st.cfg with blocks_count := new_blocks_count },
    mem := init_dsm_table st.cfg.block_size st.cfg.blocks_count new_blocks_count st.mem }

/-- Lines 220-247 of `alloc_dsm_array`, entered with `found` true: the hint
update, then the marking of the run and the filling of the handle. -/
def alloc_finish (st : Arena) (arr : DsmArray) (size_requested elem_count : Nat)
    (v : ScanVars) : Option (Arena × DsmArray) :=
  let first_free :=
    if st.cfg.first_free = v.min_pos then
      hint_loop st.cfg st.mem st.cfg.blocks_count v.i
    else some st.cfg.first_free
  match first_free with
  | none => none
  | some ff =>
    let cfg := { st.cfg with first_free := ff }
    if v.total_length ≥ size_requested then
      let a := v.min_pos * cfg.block_size
      let m1 := store64 st.mem a (set_used (load64 st.mem a))
      let m2 := store64 m1 a (set_length (load64 m1 a) (v.max_pos - v.min_pos + 1))
      some ({ cfg := cfg, mem := m2 },
            { arr with offset := v.offset, elem_count := elem_count })
    else
      some ({ cfg := cfg, mem := st.mem }, arr)

/-- Function `alloc_dsm_array(arr, entry_size, elem_count)`.  `fuel` bounds the
number of "try again" recursions; `none` stands for a call that does not
return within that bound.  `size_requested` is the product of the two sizes
as a natural number: it is the value the C code computes for requests with
`entry_size * elem_count < 2^64`; beyond that the `size_t` product wraps and
the embedding does not describe the call. -/
def alloc_dsm_array : Nat → Arena → DsmArray → Nat → Nat → Option (Arena × DsmArray)
  | fuel, st, arr, entry_size, elem_count =>
    let size_requested := entry_size * elem_count
    let arr1 := { arr with entry_size := entry_size }
    match alloc_scan st.cfg st.mem size_requested st.cfg.blocks_count (scan_init st.cfg) with
    | none => none
    | some v =>
      if v.found then alloc_finish st arr1 size_requested elem_count v
      else
        match fuel with
        | 0 => none
        | fuel1 + 1 => alloc_dsm_array fuel1 (grow st) arr1 entry_size elem_count

/-! ## `free_dsm_array`, `resize_dsm_array`, `dsm_array_get_pointer` -/

/-- Loop "set blocks free" of `free_dsm_array`: `n` iterations from `i`. -/
def free_dsm_array_loop (block_size start : Nat) : Nat → Nat → Mem → Mem
  | 0, _, m => m
  | n + 1, i, m =>
    free_dsm_array_loop block_size start n (i + 1)
      (write_free_header m ((start + i) * block_size))

/-- Function `free_dsm_array(arr)`. -/
def free_dsm_array (st : Arena) (arr : DsmArray) : Arena × DsmArray :=
  let start := arr.offset / st.cfg.block_size
  let blocks_count := get_length (load64 st.mem (start * st.cfg.block_size))
  let m := free_dsm_array_loop st.cfg.block_size start blocks_count 0 st.mem
  let first_free := if start < st.cfg.first_free then start else st.cfg.first_free
  ({ cfg := { st.cfg with first_free := first_free }, mem := m },
   { arr with offset := 0, elem_count := 0 })

/-- Result of `dsm_array_get_pointer`: an address inside the segment, or a
private copy of the payload. -/
inductive DsmPointer where
  | ref (addr : Nat)
  | copy (bytes : List Nat)
deriving DecidableEq, Repr

/-- Function `dsm_array_get_pointer(arr, copy)`. -/
def dsm_array_get_pointer (m : Mem) (arr : DsmArray) (copy : Bool) : DsmPointer :=
  let dsm_array := arr.offset + sizeofBlockHeader
  if copy then
    let size := arr.elem_count * arr.entry_size
    DsmPointer.copy (read_bytes m dsm_array size)
  else
    DsmPointer.ref dsm_array

/-- Address returned by `dsm_array_get_pointer(arr, false)`. -/
def array_data (arr : DsmArray) : Nat := arr.offset + sizeofBlockHeader

/-- Function `resize_dsm_array(arr, entry_size, elem_count)`; `fuel` is passed
to `alloc_dsm_array`. -/
def resize_dsm_array (fuel : Nat) (st : Arena) (arr : DsmArray)
    (entry_size elem_count : Nat) : Option (Arena × DsmArray) :=
  let array_data_size := arr.elem_count * entry_size
  let buffer := read_bytes st.mem (array_data arr) array_data_size
  let r := free_dsm_array st arr
  match alloc_dsm_array fuel r.1 r.2 entry_size elem_count with
  | none => none
  | some (st2, arr2) =>
    some ({ st2 with mem := memcpy st2.mem (array_data arr2) buffer }, arr2)

/-- A write of `bytes` through a handle: `memcpy` to the address that
`dsm_array_get_pointer(arr, false)` returns. -/
def write_array (st : Arena) (arr : DsmArray) (bytes : List Nat) : Arena :=
  { st with mem := memcpy st.mem (array_data arr) bytes }

/-- The bytes a handle denotes: those `dsm_array_get_pointer(arr, true)` copies. -/
def view (st : Arena) (arr : DsmArray) : List Nat :=
  read_bytes st.mem (array_data arr) (arr.elem_count * arr.entry_size)

/-! ## `init_dsm_segment` -/

/-- Process-local and shared state around `init_dsm_segment`: the shared
`dsm_cfg` and the static `segment` pointer (`none` is `NULL`). -/
structure DsmState where
  cfg : DsmConfig
  segment : Option Mem

/-- Host operations used by `init_dsm_segment`: `dsm_attach` returns the
mapped segment or nothing, `dsm_create` a fresh mapping, `dsm_segment_handle`
the handle of the created segment. -/
structure DsmHost where
  dsm_attach : Nat → Option Mem
  dsm_create : Nat → Mem
  dsm_segment_handle : Nat

/-- Function `init_dsm_segment(blocks_count, block_size)`.  `ret0` is the
indeterminate initial value of the local `ret`. -/
def init_dsm_segment (host : DsmHost) (ret0 : Bool) (st : DsmState)
    (blocks_count block_size : Nat) : Bool × DsmState :=
  let s1 : Bool × Option Mem :=
    if st.cfg.segment_handle ≠ 0 then (false, host.dsm_attach st.cfg.segment_handle)
    else (ret0, st.segment)
  if st.cfg.segment_handle = 0 ∨ s1.2.isNone = true then
    let seg := host.dsm_create (block_size * blocks_count)
    let cfg : DsmConfig :=
      { segment_handle := host.dsm_segment_handle, first_free := 0,
        block_size := block_size, blocks_count := blocks_count }
    (true, { cfg := cfg, segment := some (init_dsm_table block_size 0 cfg.blocks_count seg) })
  else
    (s1.1, { cfg := st.cfg, segment := s1.2 })

/-! ## Candidate pool (`nodes_common.c`) -/

/-- Macro `INITIAL_ALLOC_NUM`. -/
def INITIAL_ALLOC_NUM : Nat := 10

/-- Macro `ALLOC_EXP`. -/
def ALLOC_EXP : Nat := 2

/-- Modelled from the spec: the content tag of `ChildScanCommonData` in
`nodes_common.h` (not under `src/`).  `nodes_common.c` names `CHILD_PLAN` and
`CHILD_PLAN_STATE`; `CHILD_PATH` is the plan-time variant ("no paths allowed"). -/
inductive ChildContentType where
  | CHILD_PATH
  | CHILD_PLAN
  | CHILD_PLAN_STATE
deriving DecidableEq, Repr

/-- Modelled from the spec: struct `ChildScanCommonData` of `nodes_common.h`
(not under `src/`), one candidate of the pool.  `relid` is the hash key;
`content` is the union `{path, plan, plan_state}`, a pointer whose meaning is
given by `content_type`; `original_order` is the position in the plan-time
list. -/
structure ChildScanCommonData where
  relid : Nat
  content_type : ChildContentType
  content : Nat
  original_order : Nat
deriving DecidableEq, Repr

/-- The host's `HTAB *children_table`: its entries, in the order
`hash_seq_search` enumerates them.  A `ChildScanCommon` pointer is the
position of the entry in this list. -/
abbrev ChildrenTable := List ChildScanCommonData

/-- Host call `hash_search(children_table, &key, HASH_FIND, NULL)`: the entry
with that key, or `NULL`. -/
def hash_search_find : ChildrenTable → Nat → Option Nat
  | [], _ => none
  | c :: cs, key =>
    if c.relid = key then some 0 else (hash_search_find cs key).map (fun i => i + 1)

/-- Locals of `select_required_plans`: the capacity and fill of `result` and
the `ChildScanCommon` pointers stored so far. -/
structure SelectVars where
  allocated : Nat
  used : Nat
  result : List Nat
deriving DecidableEq, Repr

/-- Loop of `select_required_plans` over `parts[0 .. nparts - 1]`. -/
def select_required_plans_loop (children_table : ChildrenTable) :
    List Nat → SelectVars → SelectVars
  | [], v => v
  | part :: parts, v =>
    match hash_search_find children_table part with
    | none => select_required_plans_loop children_table parts v
    | some child =>
      let v1 := if v.allocated ≤ v.used then { v with allocated := v.allocated * ALLOC_EXP }
                else v
      select_required_plans_loop children_table parts
        { v1 with result := v1.result ++ [child], used := v1.used + 1 }

/-- Function `select_required_plans(children_table, parts, nparts, &nres)`:
the result array and `*nres`. -/
def select_required_plans (children_table : ChildrenTable) (parts : List Nat) :
    List Nat × Nat :=
  let v := select_required_plans_loop children_table parts
    { allocated := INITIAL_ALLOC_NUM, used := 0, result := [] }
  (v.result, v.used)

/-- A `Bitmapset *`: `none` is `NULL`, `some l` a set with the members `l`. -/
abbrev Bitmapset := Option (List Nat)

/-- Host function `bms_is_empty`. -/
def bms_is_empty (a : Bitmapset) : Bool :=
  match a with
  | none => true
  | some l => l.isEmpty

/-- A `PlanState` object of the host executor, as far as this code reads it:
the plan it was built from and its `chgParam`. -/
structure PlanState where
  plan : Nat
  chgParam : Bitmapset
deriving DecidableEq, Repr

/-- Host executor functions called by `transform_plans_into_states`: the
object `ExecInitNode` builds for a plan, and the effect of
`UpdateChangedParamSet` and of `ExecReScan` on a `PlanState`. -/
structure Executor where
  ExecInitNode : Nat → PlanState
  UpdateChangedParamSet : PlanState → Bitmapset → PlanState
  ExecReScan : PlanState → PlanState

/-- Calls made to the host executor; `ps` is a `PlanState` pointer. -/
inductive ExecEvent where
  | init (plan : Nat) (ps : Nat)
  | update (ps : Nat) (chg : Bitmapset)
  | rescan (ps : Nat)
deriving DecidableEq, Repr

/-- The executor's objects: `heap[ps]` is the `PlanState` at pointer `ps`;
`log` records the host calls in order. -/
structure ExecWorld where
  heap : List PlanState
  log : List ExecEvent
deriving DecidableEq, Repr

/-- The fields of `RuntimeAppendState` this code uses; `chgParam` is
`css.ss.ps.chgParam`, `custom_ps` is `css.custom_ps`. -/
structure RuntimeAppendState where
  relid : Nat
  children_table : ChildrenTable
  custom_ps : List Nat
  chgParam : Bitmapset
  cur_plans : List Nat
  ncur_plans : Nat
  running_idx : Nat
deriving DecidableEq, Repr

/-- The object at pointer `ps` (a pointer outside the heap does not occur). -/
def ExecWorld.deref (w : ExecWorld) (ps : Nat) : PlanState :=
  w.heap.getD ps { plan := 0, chgParam := none }

/-- Lines 52-65 of `transform_plans_into_states`: the `PlanState` of the
child, built by `ExecInitNode` when the child still holds a plan. -/
def child_plan_state (host : Executor) (scan_state : RuntimeAppendState) (w : ExecWorld)
    (childptr : Nat) (child : ChildScanCommonData) : Nat × RuntimeAppendState × ExecWorld :=
  if child.content_type ≠ ChildContentType.CHILD_PLAN_STATE then
    let ps := w.heap.length
    (ps,
     { scan_state with
         children_table := scan_state.children_table.set childptr
           { child with content := ps, content_type := ChildContentType.CHILD_PLAN_STATE },
         custom_ps := scan_state.custom_ps ++ [ps] },
     { heap := w.heap ++ [host.ExecInitNode child.content],
       log := w.log ++ [ExecEvent.init child.content ps] })
  else
    (child.content, scan_state, w)

/-- Lines 67-69: `if (scan_state->css.ss.ps.chgParam) UpdateChangedParamSet(ps, ...)`. -/
def propagate_params (host : Executor) (chgParam : Bitmapset) (w : ExecWorld) (ps : Nat) :
    ExecWorld :=
  if chgParam.isSome then
    { heap := w.heap.set ps (host.UpdateChangedParamSet (w.deref ps) chgParam),
      log := w.log ++ [ExecEvent.update ps chgParam] }
  else w

/-- Lines 71-76: `if (bms_is_empty(ps->chgParam)) ExecReScan(ps)`. -/
def rescan_child (host : Executor) (w : ExecWorld) (ps : Nat) : ExecWorld :=
  if bms_is_empty (w.deref ps).chgParam then
    { heap := w.heap.set ps (host.ExecReScan (w.deref ps)),
      log := w.log ++ [ExecEvent.rescan ps] }
  else w

/-- Body of the loop of `transform_plans_into_states` for
`child = selected_plans[i]`. -/
def transform_step (host : Executor) (st : RuntimeAppendState × ExecWorld) (childptr : Nat) :
    RuntimeAppendState × ExecWorld :=
  match st.1.children_table[childptr]? with
  | none => st
  | some child =>
    let r := child_plan_state host st.1 st.2 childptr child
    let ps := r.1
    let w2 := propagate_params host r.2.1.chgParam r.2.2 ps
    let w3 := rescan_child host w2 ps
    let tbl := r.2.1.children_table
    let tbl1 := match tbl[childptr]? with
      | none => tbl
      | some c => tbl.set childptr { c with content := ps }
    ({ r.2.1 with children_table := tbl1 }, w3)

/-- Function `transform_plans_into_states(scan_state, selected_plans, n, estate)`. -/
def transform_plans_into_states (host : Executor) (scan_state : RuntimeAppendState)
    (selected_plans : List Nat) (n : Nat) (w : ExecWorld) : RuntimeAppendState × ExecWorld :=
  (selected_plans.take n).foldl (transform_step host) (scan_state, w)

/-- Lines 518-536 of `rescan_append_common`: `parts` are the partition
identifiers the pruner returned (`get_partition_oids`). -/
def rescan_append_common (host : Executor) (scan_state : RuntimeAppendState)
    (parts : List Nat) (w : ExecWorld) : RuntimeAppendState × ExecWorld :=
  let sel := select_required_plans scan_state.children_table parts
  let s1 := { scan_state with cur_plans := sel.1, ncur_plans := sel.2 }
  let r := transform_plans_into_states host s1 s1.cur_plans s1.ncur_plans w
  ({ r.1 with running_idx := 0 }, r.2)

/-- The keys of a pool. -/
def pool_keys (children_table : ChildrenTable) : List Nat :=
  children_table.map (fun c => c.relid)

/-- The pool of the end-to-end scenario: the identifiers 10, 11, 12 prepared in
that order, holding the plans 100, 101, 102. -/
def pool_10_11_12 : ChildrenTable :=
  [ { relid := 10, content_type := ChildContentType.CHILD_PLAN, content := 100,
      original_order := 0 },
    { relid := 11, content_type := ChildContentType.CHILD_PLAN, content := 101,
      original_order := 1 },
    { relid := 12, content_type := ChildContentType.CHILD_PLAN, content := 102,
      original_order := 2 } ]

/-- Position of the first occurrence of `key` in a list of keys. -/
def find_key : List Nat → Nat → Option Nat
  | [], _ => none
  | k :: ks, key => if k = key then some 0 else (find_key ks key).map (fun i => i + 1)

/-- No event of the list is a call of `ExecInitNode`. -/
def NoInit (evs : List ExecEvent) : Prop :=
  ∀ e ∈ evs, ∀ plan ps, e ≠ ExecEvent.init plan ps

/-- A host executor for the examples: a fresh `PlanState` has no changed
parameters, `UpdateChangedParamSet` adds the signalled parameters,
`ExecReScan` clears them. -/
def host_plain : Executor :=
  { ExecInitNode := fun plan => { plan := plan, chgParam := none },
    UpdateChangedParamSet := fun ps chg =>
      { ps with chgParam := some (ps.chgParam.getD [] ++ chg.getD []) },
    ExecReScan := fun ps => { ps with chgParam := none } }

/-- A host executor whose plans depend on no parameter: `UpdateChangedParamSet`
leaves `chgParam` as it is. -/
def host_no_params : Executor :=
  { ExecInitNode := fun plan => { plan := plan, chgParam := none },
    UpdateChangedParamSet := fun ps _ => ps,
    ExecReScan := fun ps => { ps with chgParam := none } }

/-- A scan node with one candidate that already holds the executor state at
pointer 0; the node carries no changed parameters. -/
def scan_state_one_active : RuntimeAppendState :=
  { relid := 1,
    children_table := [ { relid := 10, content_type := ChildContentType.CHILD_PLAN_STATE,
                          content := 0, original_order := 0 } ],
    custom_ps := [0], chgParam := none, cur_plans := [], ncur_plans := 0, running_idx := 0 }

/-- An executor whose only `PlanState` has the changed parameter 1 pending. -/
def world_child_pending : ExecWorld :=
  { heap := [ { plan := 100, chgParam := some [1] } ], log := [] }

/-- A scan node over `pool_10_11_12` that carries the changed parameter 2. -/
def scan_state_with_params : RuntimeAppendState :=
  { relid := 1, children_table := pool_10_11_12, custom_ps := [], chgParam := some [2],
    cur_plans := [], ncur_plans := 0, running_idx := 0 }

/-- An executor with no `PlanState` yet. -/
def world_empty : ExecWorld := { heap := [], log := [] }

/-! ## Specification vocabulary for the arena -/

/-- Header word written by `init_dsm_table` and `free_dsm_array`: free, length 1. -/
def FREE_HEADER : Nat := 0x80000001

/-- Header word of block `i` for block size `bs`. -/
def hdr (bs : Nat) (m : Mem) (i : Nat) : Nat := load64 m (i * bs)

/-- Blocks `i .. j - 1` are tiled by free blocks and by used runs: walking
from `i`, a free header steps by one block, a used header by its
`run_length >= 1`, and the walk arrives exactly at `j`. -/
inductive Tiles (h : Nat → Nat) : Nat → Nat → Prop where
  | refl (i : Nat) : Tiles h i i
  | free {i j : Nat} : is_free (h i) = true → Tiles h (i + 1) j → Tiles h i j
  | used {i j : Nat} : is_free (h i) = false → 1 ≤ get_length (h i) →
      Tiles h (i + get_length (h i)) j → Tiles h i j

/-- Well-formed arena: a block holds its header, the table is not empty, and
the headers tile the table with `first_free` on a run boundary (every used
run has `run_length >= 1` and lies inside the table). -/
structure WF (st : Arena) : Prop where
  hdr_le : sizeofBlockHeader ≤ st.cfg.block_size
  bc_pos : 0 < st.cfg.blocks_count
  lo : Tiles (hdr st.cfg.block_size st.mem) 0 st.cfg.first_free
  hi : Tiles (hdr st.cfg.block_size st.mem) st.cfg.first_free st.cfg.blocks_count

/-- Block `j` is a free block of the table as the scan from `first_free` sees it. -/
def FreeBlock (cfg : DsmConfig) (m : Mem) (j : Nat) : Prop :=
  Tiles (hdr cfg.block_size m) cfg.first_free j ∧ j < cfg.blocks_count ∧
    is_free (hdr cfg.block_size m j) = true

/-- The `k >= 1` blocks from `s` are free blocks at or after `first_free` whose
capacity `k * block_size - sizeof(BlockHeader)` reaches `size`. -/
def Fit (cfg : DsmConfig) (m : Mem) (size s k : Nat) : Prop :=
  1 ≤ k ∧ (∀ j, s ≤ j → j < s + k → FreeBlock cfg m j) ∧
    size + sizeofBlockHeader ≤ k * cfg.block_size

/-- Handle `arr` is live: it denotes a used run on a run boundary of the
table, and its elements fit the capacity of the run. -/
structure Live (st : Arena) (arr : DsmArray) (s : Nat) : Prop where
  off : arr.offset = s * st.cfg.block_size
  lo : Tiles (hdr st.cfg.block_size st.mem) 0 s
  hi : Tiles (hdr st.cfg.block_size st.mem) s st.cfg.blocks_count
  lt : s < st.cfg.blocks_count
  used : is_free (hdr st.cfg.block_size st.mem s) = false
  cap : arr.elem_count * arr.entry_size + sizeofBlockHeader
          ≤ get_length (hdr st.cfg.block_size st.mem s) * st.cfg.block_size

/-- Loop invariant of the scan of `alloc_dsm_array` for a request of positive
size, at the loop head. -/
structure ScanInv (cfg : DsmConfig) (m : Mem) (size : Nat) (v : ScanVars) : Prop where
  tl : Tiles (hdr cfg.block_size m) cfg.first_free v.i
  tr : Tiles (hdr cfg.block_size m) v.i cfg.blocks_count
  nf : v.found = false
  lt : v.total_length < size
  coll : v.collecting_blocks = true →
    v.min_pos < v.i ∧ v.offset = v.min_pos * cfg.block_size ∧
    v.total_length + sizeofBlockHeader = (v.i - v.min_pos) * cfg.block_size ∧
    (∀ j, v.min_pos ≤ j → j < v.i → FreeBlock cfg m j)
  nofit : ∀ s k, s < v.i → Fit cfg m size s k →
    v.collecting_blocks = true ∧ v.min_pos ≤ s ∧ v.i < s + k

/-- What the scan has established when it leaves the loop through `break`
on a stretch of free blocks: the run `min_pos .. max_pos`. -/
structure ScanFound (cfg : DsmConfig) (m : Mem) (size : Nat) (r : ScanVars) : Prop where
  found : r.found = true
  le : r.min_pos ≤ r.max_pos
  i_eq : r.i = r.max_pos + 1
  off : r.offset = r.min_pos * cfg.block_size
  tot : r.total_length + sizeofBlockHeader = (r.max_pos + 1 - r.min_pos) * cfg.block_size
  enough : size ≤ r.total_length
  free : ∀ j, r.min_pos ≤ j → j ≤ r.max_pos → FreeBlock cfg m j
  tr : Tiles (hdr cfg.block_size m) r.i cfg.blocks_count
  least : (r.max_pos - r.min_pos) * cfg.block_size < size + sizeofBlockHeader
  first : ∀ s k, s < r.min_pos → ¬ Fit cfg m size s k

/-- The arena after `n` growth steps of `alloc_dsm_array`. -/
def grow_iter : Nat → Arena → Arena
  | 0, st => st
  | n + 1, st => grow_iter n (grow st)

/-- The scan of `alloc_dsm_array` on arena `st` for `size` bytes. -/
def scan_of (st : Arena) (size : Nat) : Option ScanVars :=
  alloc_scan st.cfg st.mem size st.cfg.blocks_count (scan_init st.cfg)

/-- What the hint update of `alloc_dsm_array` leaves in `first_free` when the
run found by the scan is `r.min_pos .. r.i - 1`: `ff`. -/
def HintPost (st : Arena) (r : ScanVars) (ff : Nat) : Prop :=
  (st.cfg.first_free ≠ r.min_pos ∧ ff = st.cfg.first_free) ∨
  (st.cfg.first_free = r.min_pos ∧
    ((ff = st.cfg.first_free ∧
        ∀ j, Tiles (hdr st.cfg.block_size st.mem) r.i j → j < st.cfg.blocks_count →
          is_free (hdr st.cfg.block_size st.mem j) = false) ∨
     (Tiles (hdr st.cfg.block_size st.mem) r.i ff ∧ ff < st.cfg.blocks_count ∧
        is_free (hdr st.cfg.block_size st.mem ff) = true ∧
        ∀ j, Tiles (hdr st.cfg.block_size st.mem) r.i j → j < ff →
          is_free (hdr st.cfg.block_size st.mem j) = false)))

/-- Result of `alloc_dsm_array` when the scan on arena `g` ends in `r` and the
hint update leaves `ff`: the header of block `r.min_pos` holds the number of
blocks of the run, the handle holds the offset and the requested sizes. -/
def alloc_outcome (g : Arena) (r : ScanVars) (ff es ec : Nat) : Arena × DsmArray :=
  ({ cfg := { g.cfg with first_free := ff },
     mem := store64 g.mem (r.min_pos * g.cfg.block_size) (r.max_pos - r.min_pos + 1) },
   { offset := r.offset, elem_count := ec, entry_size := es })

/-- Summary of a returned allocation: the handle `arr'` denotes block `p`,
whose header in `st'` is the word `k`, the run length written by the marking
step; `k` blocks hold the request. -/
structure AllocOk (st : Arena) (es ec : Nat) (st' : Arena) (arr' : DsmArray)
    (p k : Nat) : Prop where
  bs_eq : st'.cfg.block_size = st.cfg.block_size
  off : arr'.offset = p * st.cfg.block_size
  cnt : arr'.elem_count = ec
  esz : arr'.entry_size = es
  hdr_eq : hdr st.cfg.block_size st'.mem p = k % 2 ^ 64
  k_pos : 1 ≤ k
  cap : es * ec + sizeofBlockHeader ≤ k * st.cfg.block_size
  k_bound : (k - 1) * st.cfg.block_size < es * ec + sizeofBlockHeader ∨
    k ≤ st.cfg.blocks_count
  in_table : p + k ≤ st'.cfg.blocks_count
  bc_le : st.cfg.blocks_count ≤ st'.cfg.blocks_count
  lowest : ∀ s k1, Fit st.cfg st.mem (es * ec) s k1 → p ≤ s

/-! ## Example arenas -/

/-- A table of four blocks of 64 bytes: a used run of three blocks at block 0
and a used run of one block at block 3. -/
def arena_3_1 : Arena :=
  { cfg := { segment_handle := 1, block_size := 64, blocks_count := 4, first_free := 0 },
    mem := store64 (store64 (fun _ => 0) 0 3) (3 * 64) 1 }

/-- Handle of the three-block run of `arena_3_1`. -/
def handle_3 : DsmArray := { offset := 0, elem_count := 100, entry_size := 1 }

/-- Handle of the one-block run of `arena_3_1`. -/
def handle_1 : DsmArray := { offset := 192, elem_count := 10, entry_size := 1 }

/-- A host with no segment to attach to; `dsm_create` maps zeroed memory. -/
def host_fresh : DsmHost :=
  { dsm_attach := fun _ => none, dsm_create := fun _ => fun _ => 0, dsm_segment_handle := 1 }

/-- The configuration left by `init_dsm_config` before any segment exists
(`blocks_count` is overwritten by `init_dsm_segment`). -/
def cfg_initial : DsmConfig :=
  { segment_handle := 0, block_size := 0, blocks_count := 0, first_free := 0 }

/-- The attached arena of a `DsmState`, when a segment is mapped. -/
def arena_of (s : DsmState) : Option Arena :=
  s.segment.map (fun m => { cfg := s.cfg, mem := m })

/-- The arena created by `init_dsm_segment(blocks_count, block_size)` on a
host without a segment. -/
def fresh_arena (blocks_count block_size : Nat) : Option Arena :=
  arena_of (init_dsm_segment host_fresh false ⟨cfg_initial, none⟩ blocks_count block_size).2

/-- A handle not yet allocated. -/
def null_array : DsmArray := { offset := 0, elem_count := 0, entry_size := 0 }

/-- Scenario for the round trip: in a fresh arena of four 64-byte blocks,
allocate `x` (10 bytes), `a` (10 bytes) and `h` (100 bytes), free `x`, write
ten bytes 7 through `a` and a hundred bytes 9 through `h`, then resize `h` to
10 elements.  Result: the view of `a` before and after the resize, and the
handles `a` and `h` at the end. -/
def round_trip_trace : Option (List Nat × List Nat × DsmArray × DsmArray) := do
  let st0 ← fresh_arena 4 64
  let (st1, x) ← alloc_dsm_array 0 st0 null_array 1 10
  let (st2, a) ← alloc_dsm_array 0 st1 null_array 1 10
  let (st3, h) ← alloc_dsm_array 0 st2 null_array 1 100
  let (st4, _) := free_dsm_array st3 x
  let st5 := write_array st4 a (List.replicate 10 7)
  let st6 := write_array st5 h (List.replicate 100 9)
  let (st7, h1) ← resize_dsm_array 0 st6 h 1 10
  pure (view st6 a, view st7 a, a, h1)

/-- Scenario for a request of size zero: in a fresh arena of one 64-byte
block, allocate `a` (10 elements of 4 bytes), then `b` (0 elements).  Result:
handle `a`, whether block 0 is free before the second call, handle `b`, and
the header of block 0 after the second call. -/
def zero_size_trace : Option (DsmArray × Bool × DsmArray × Nat) := do
  let st0 ← fresh_arena 1 64
  let (st1, a) ← alloc_dsm_array 1 st0 null_array 4 10
  let (st2, b) ← alloc_dsm_array 1 st1 null_array 4 0
  pure (a, is_free (st1.header 0), b, st2.header 0)

/-- Scenario for first fit with a request of size zero: in a fresh arena of
one 64-byte block, allocate `a` and `b` (the second grows the table), free
`b`, then allocate `z` with 0 elements.  Result: the handles `a` and `z`;
`first_free` and `blocks_count` before the last call; whether block 0 and
block 1 are free before the last call and whether block 1 is free after it. -/
def zero_size_first_fit_trace : Option (DsmArray × DsmArray × List Nat × List Bool) := do
  let st0 ← fresh_arena 1 64
  let (st1, a) ← alloc_dsm_array 1 st0 null_array 4 10
  let (st2, b) ← alloc_dsm_array 1 st1 null_array 4 10
  let (st3, _) := free_dsm_array st2 b
  let (st4, z) ← alloc_dsm_array 1 st3 null_array 4 0
  pure (a, z, [st3.cfg.first_free, st3.cfg.blocks_count],
        [is_free (st3.header 0), is_free (st3.header 1), is_free (st4.header 1)])

/-- The arena of the first-fit example of the specification: block size 64,
a used run of two blocks (blocks 0-1), three free blocks (2, 3, 4) and a used
run of one block (block 5); the hint is on block 0. -/
def arena_first_fit : Arena :=
  { cfg := { segment_handle := 1, block_size := 64, blocks_count := 6, first_free := 0 },
    mem := store64 (store64 (store64 (store64 (store64 (fun _ => 0) 0 2)
             (2 * 64) FREE_HEADER) (3 * 64) FREE_HEADER) (4 * 64) FREE_HEADER) (5 * 64) 1 }

/-! ## Serialising and rehydrating the pool (`nodes_common.c`, lines 176-239) -/

/-- The fields of `CustomScan` this code uses.  `custom_private` is a list of
lists: its first element is `[[relid], custom_oids]`. -/
structure CustomScan where
  custom_plans : List Nat
  custom_private : List (List (List Nat))
deriving DecidableEq, Repr

/-- The fields of `RuntimeAppendPath` this code uses. -/
structure RuntimeAppendPath where
  relid : Nat
  children : List ChildScanCommonData
  nchildren : Nat
deriving DecidableEq, Repr

/-- Function `pack_runtimeappend_private(cscan, path)`: the loop collects
`children[i]->relid` for `i < nchildren`. -/
def pack_runtimeappend_private (cscan : CustomScan) (path : RuntimeAppendPath) : CustomScan :=
  let custom_oids := (path.children.take path.nchildren).map (fun c => c.relid)
  let custom_private := [] ++ [[[path.relid], custom_oids]]
  { cscan with custom_private := custom_private }

/-- Host call `hash_search(children_table, &key, HASH_ENTER, &found)`: the
entry with that key and `found = true`, or a new entry with the key set and
the other fields not initialised, and `found = false`. -/
def hash_search_enter (tbl : ChildrenTable) (key : Nat) : Nat × Bool × ChildrenTable :=
  match hash_search_find tbl key with
  | some i => (i, true, tbl)
  | none =>
    (tbl.length, false,
     tbl ++ [{ relid := key, content_type := ChildContentType.CHILD_PATH, content := 0,
               original_order := 0 }])

/-- How `unpack_runtimeappend_private` ends: with the scan state filled, on a
failed `Assert` (builds with assertion checking only), or on a
`custom_private` that lacks the lists `linitial` and `lsecond` read. -/
inductive UnpackResult where
  | ok (scan_state : RuntimeAppendState)
  | assert_failed
  | malformed
deriving DecidableEq, Repr

/-- Lines 226-234: the three assignments through `child`. -/
def fill_child (tbl : ChildrenTable) (child plan i : Nat) : ChildrenTable :=
  match tbl[child]? with
  | none => tbl
  | some c =>
    tbl.set child { c with content_type := ChildContentType.CHILD_PLAN, content := plan,
                           original_order := i }

/-- Loop `forboth (oid_cell, custom_oids, plan_cell, cscan->custom_plans)` of
`unpack_runtimeappend_private`, entered with counter `i`.  `none`: the
`Assert(!child_found)` failed; it is checked when `assert_checking` is set. -/
def unpack_loop (assert_checking : Bool) :
    List Nat → List Nat → Nat → ChildrenTable → Option ChildrenTable
  | cur_oid :: oids, plan :: plans, i, tbl =>
    let r := hash_search_enter tbl cur_oid
    if assert_checking && r.2.1 then none
    else unpack_loop assert_checking oids plans (i + 1) (fill_child r.2.2 r.1 plan i)
  | _, _, _, tbl => some tbl

/-- Function `unpack_runtimeappend_private(scan_state, cscan)`.
`assert_checking` tells whether the build checks `Assert` (it is compiled
out otherwise). -/
def unpack_runtimeappend_private (assert_checking : Bool) (scan_state : RuntimeAppendState)
    (cscan : CustomScan) : UnpackResult :=
  match cscan.custom_private with
  | [] => UnpackResult.malformed
  | runtimeappend_private :: _ =>
    match runtimeappend_private with
    | (relid :: _) :: custom_oids :: _ =>
      match unpack_loop assert_checking custom_oids cscan.custom_plans 0 [] with
      | none => UnpackResult.assert_failed
      | some children_table =>
        UnpackResult.ok { scan_state with children_table := children_table, relid := relid }
    | _ => UnpackResult.malformed

/-- The pool that rehydration builds from the identifiers `oids` and the plans
`plans`, counting from `i`: one `CHILD_PLAN` entry per pair. -/
def prepared_pool : List Nat → List Nat → Nat → ChildrenTable
  | oid :: oids, plan :: plans, i =>
    { relid := oid, content_type := ChildContentType.CHILD_PLAN, content := plan,
      original_order := i } :: prepared_pool oids plans (i + 1)
  | _, _, _ => []

/-- A scan state before rehydration (`palloc0`). -/
def scan_state_zero : RuntimeAppendState :=
  { relid := 0, children_table := [], custom_ps := [], chgParam := none, cur_plans := [],
    ncur_plans := 0, running_idx := 0 }

/-- A serialized plan whose identifier list names partition 10 twice. -/
def cscan_duplicate : CustomScan :=
  { custom_plans := [100, 101], custom_private := [[[1], [10, 10]]] }

/-- A plan node with the sub-plans 100, 101, 102, before serialisation. -/
def cscan_100_101_102 : CustomScan :=
  { custom_plans := [100, 101, 102], custom_private := [] }

/-- The plan-time path over the partitions 10, 11, 12 of table 1. -/
def path_10_11_12 : RuntimeAppendPath :=
  { relid := 1,
    children := [ { relid := 10, content_type := ChildContentType.CHILD_PATH, content := 0,
                    original_order := 0 },
                  { relid := 11, content_type := ChildContentType.CHILD_PATH, content := 0,
                    original_order := 0 },
                  { relid := 12, content_type := ChildContentType.CHILD_PATH, content := 0,
                    original_order := 0 } ],
    nchildren := 3 }

/-! ## Explain (`nodes_common.c`, lines 24-38 and 539-588) -/

/-- Function `cmp_child_scan_common_by_orig_order(ap, bp)` on the two entries
the arguments point to. -/
def cmp_child_scan_common_by_orig_order (a b : ChildScanCommonData) : Int :=
  if a.original_order > b.original_order then 1
  else if a.original_order < b.original_order then -1
  else 0

/-- The entry a `ChildScanCommon` pointer refers to. -/
def child_deref (children_table : ChildrenTable) (child : Nat) : ChildScanCommonData :=
  children_table.getD child
    { relid := 0, content_type := ChildContentType.CHILD_PATH, content := 0, original_order := 0 }

/-- The comparator as `qsort` applies it to two elements of the pointer array. -/
def cmp_child_ptr (children_table : ChildrenTable) (a b : Nat) : Int :=
  cmp_child_scan_common_by_orig_order (child_deref children_table a)
    (child_deref children_table b)

/-- Locals of `explain_append_common`: the capacity and fill of the array
`custom_ps` and the `ChildScanCommon` pointers stored so far. -/
structure ExplainVars where
  allocated : Nat
  used : Nat
  custom_ps : List Nat
deriving DecidableEq, Repr

/-- Body of `while ((child = hash_seq_search(&seqstat)))`. -/
def explain_collect (v : ExplainVars) (child : Nat) : ExplainVars :=
  let v1 := if v.allocated ≤ v.used then { v with allocated := v.allocated * ALLOC_EXP }
            else v
  { v1 with custom_ps := v1.custom_ps ++ [child], used := v1.used + 1 }

/-- Body of the last loop of `explain_append_common`:
`lappend(node->custom_ps, ExecInitNode(custom_ps[i]->content.plan, ...))`. -/
def explain_init (host : Executor) (children_table : ChildrenTable)
    (st : RuntimeAppendState × ExecWorld) (child : Nat) : RuntimeAppendState × ExecWorld :=
  let plan := (child_deref children_table child).content
  let ps := st.2.heap.length
  ({ st.1 with custom_ps := st.1.custom_ps ++ [ps] },
   { heap := st.2.heap ++ [host.ExecInitNode plan],
     log := st.2.log ++ [ExecEvent.init plan ps] })

/-- Function `explain_append_common(node, children_table, es)`; `analyze` is
`es->analyze`.  `qsort` is the C library function, applied to the first
`used` slots of the array with the comparator on pointers.  The pointers
`hash_seq_search` returns are the positions of the table in its enumeration
order.  `Assert(!node->custom_ps)` is a debugging check and is not part of
the function's effect. -/
def explain_append_common (host : Executor)
    (qsort : (Nat → Nat → Int) → List Nat → List Nat)
    (node : RuntimeAppendState) (children_table : ChildrenTable) (analyze : Bool)
    (w : ExecWorld) : RuntimeAppendState × ExecWorld :=
  if !analyze then
    let v := (List.range children_table.length).foldl explain_collect
      { allocated := INITIAL_ALLOC_NUM, used := 0, custom_ps := [] }
    let sorted := qsort (cmp_child_ptr children_table) (v.custom_ps.take v.used)
    sorted.foldl (explain_init host children_table) (node, w)
  else (node, w)

/-- What the C library promises of `qsort` with comparator `cmp`: the array
afterwards is a rearrangement of the array before, and no element is
followed by one that compares below it. -/
def QsortSorts (qsort : (Nat → Nat → Int) → List Nat → List Nat) (cmp : Nat → Nat → Int) :
    Prop :=
  ∀ l, (qsort cmp l).Perm l ∧ (qsort cmp l).Pairwise (fun a b => cmp a b ≤ 0)

/-- A sorting function for the examples: insertion sort by the comparator. -/
def qsort_insertion (cmp : Nat → Nat → Int) (l : List Nat) : List Nat :=
  l.insertionSort (fun a b => cmp a b ≤ 0)

/-- The pool of the end-to-end scenario as a hash table that enumerates it in
the order 12, 10, 11. -/
def pool_12_10_11 : ChildrenTable :=
  [ { relid := 12, content_type := ChildContentType.CHILD_PLAN, content := 102,
      original_order := 2 },
    { relid := 10, content_type := ChildContentType.CHILD_PLAN, content := 100,
      original_order := 0 },
    { relid := 11, content_type := ChildContentType.CHILD_PLAN, content := 101,
      original_order := 1 } ]

/-! ## Specification vocabulary for the pool across rescans -/

/-- A sequence of rescans: each element gives the identifier list the pruner
returns and the changed-parameter set the executor has put on the node. -/
def rescans (host : Executor) (steps : List (List Nat × Bitmapset))
    (st : RuntimeAppendState × ExecWorld) : RuntimeAppendState × ExecWorld :=
  steps.foldl
    (fun st step => rescan_append_common host { st.1 with chgParam := step.2 } step.1 st.2) st

/-- How a pool entry may differ after rescans from the entry `c` before, when
the executor holds `h` states afterwards: it is `c`, or `c` held no state and
the entry is `c` made Active with the pointer of one of those states. -/
def Evolves (h : Nat) (c c1 : ChildScanCommonData) : Prop :=
  c1 = c ∨
  (c.content_type ≠ ChildContentType.CHILD_PLAN_STATE ∧
   c1.relid = c.relid ∧ c1.original_order = c.original_order ∧
   c1.content_type = ChildContentType.CHILD_PLAN_STATE ∧ c1.content < h)

/-- Entry by entry, the pool `tbl1` is the pool `tbl` evolved. -/
def PoolEvolves (h : Nat) (tbl tbl1 : ChildrenTable) : Prop :=
  tbl1.length = tbl.length ∧
  ∀ (q : Nat) (c : ChildScanCommonData), tbl[q]? = some c →
    ∃ c1, tbl1[q]? = some c1 ∧ Evolves h c c1

/-- The `original_order` of the candidates of `cur_plans`, in list order. -/
def cur_plans_orders (scan_state : RuntimeAppendState) : List Nat :=
  (scan_state.cur_plans.take scan_state.ncur_plans).map
    (fun p => (child_deref scan_state.children_table p).original_order)

/-- The `original_order` of the pool entry keyed `relid`, if there is one. -/
def order_of (children_table : ChildrenTable) (relid : Nat) : Option Nat :=
  (hash_search_find children_table relid).map
    (fun p => (child_deref children_table p).original_order)

/-- A scan node over `pool_10_11_12` before its first rescan. -/
def scan_state_10_11_12 : RuntimeAppendState :=
  { relid := 1, children_table := pool_10_11_12, custom_ps := [], chgParam := none,
    cur_plans := [], ncur_plans := 0, running_idx := 0 }

/-! ## Tuple production (`nodes_common.c`, lines 438-481) -/

/-- The executor's `ExprDoneCond`. -/
inductive ExprDoneCond where
  | ExprSingleResult
  | ExprMultipleResult
  | ExprEndResult
deriving DecidableEq, Repr

/-- What the projection of the node computes from one scan tuple: one row, or
(a target list with set-returning functions) a finite sequence of rows. -/
inductive ProjOut where
  | single (row : Nat)
  | multiple (rows : List Nat)
deriving DecidableEq, Repr

/-- The output rows of a projection result. -/
def ProjOut.outputs : ProjOut → List Nat
  | ProjOut.single row => [row]
  | ProjOut.multiple rows => rows

/-- Calls made by `exec_append_common`: the advance callback with the slot it
left, and `ExecProject` with its scan tuple, its result and `isDone`. -/
inductive ExecTrace where
  | fetch (slot : Option Nat)
  | project (scantuple : Option Nat) (result : Option Nat) (isDone : ExprDoneCond)
deriving DecidableEq, Repr

/-- The fields of the node `exec_append_common` uses, and the state of the
host behind it.  A `TupleTableSlot` is `none` when empty (`TupIsNull`).
`input` are the rows the children will still deliver; `srf_pending` are the
rows of a set-returning evaluation in progress that `ExecProject` has not
returned yet; `node_rescans` counts the calls of `ExecReScan` on the node;
`log` records the other host calls in order. -/
structure AppendExecState where
  ncur_plans : Nat
  slot : Option Nat
  ps_TupFromTlist : Bool
  ps_ProjInfo : Option (Option Nat → ProjOut)
  input : List Nat
  srf_pending : Option (List Nat)
  node_rescans : Nat
  log : List ExecTrace

/-- Host function `ExecProject(projInfo, &isDone)` with `ecxt_scantuple` the
given slot: the result slot, `isDone` and the rows still pending.  A
set-returning projection returns its rows one per call with
`ExprMultipleResult` and then `ExprEndResult`. -/
def ExecProject (proj : Option Nat → ProjOut) (srf_pending : Option (List Nat))
    (scantuple : Option Nat) : Option Nat × ExprDoneCond × Option (List Nat) :=
  match srf_pending with
  | some (row :: rest) => (some row, ExprDoneCond.ExprMultipleResult, some rest)
  | some [] => (none, ExprDoneCond.ExprEndResult, none)
  | none =>
    match proj scantuple with
    | ProjOut.single row => (some row, ExprDoneCond.ExprSingleResult, none)
    | ProjOut.multiple (row :: rest) => (some row, ExprDoneCond.ExprMultipleResult, some rest)
    | ProjOut.multiple [] => (none, ExprDoneCond.ExprEndResult, none)

/-- An advance callback over a finite sequence of rows: it puts the next row
of `input` into `scan_state->slot`, or empties the slot when none is left. -/
def fetch_from_input (st : AppendExecState) : AppendExecState :=
  match st.input with
  | [] => { st with slot := none, log := st.log ++ [ExecTrace.fetch none] }
  | row :: rest =>
    { st with slot := some row, input := rest, log := st.log ++ [ExecTrace.fetch (some row)] }

/-- Lines 460-478: the projection step of one iteration.  `none`: the loop
goes on with the state given. -/
def exec_project_step (st : AppendExecState) :
    Option (Option Nat) × AppendExecState :=
  match st.ps_ProjInfo with
  | some proj =>
    let r := ExecProject proj st.srf_pending st.slot
    let st1 := { st with srf_pending := r.2.2,
                         log := st.log ++ [ExecTrace.project st.slot r.1 r.2.1] }
    if r.2.1 ≠ ExprDoneCond.ExprEndResult then
      (some r.1,
       { st1 with ps_TupFromTlist := decide (r.2.1 = ExprDoneCond.ExprMultipleResult) })
    else
      (none, { st1 with ps_TupFromTlist := false })
  | none => (some st.slot, st)

/-- The loop `for (;;)` of `exec_append_common`; `fuel` bounds the number of
iterations, `none` means the bound was reached. -/
def exec_loop (fetch_next_tuple : AppendExecState → AppendExecState) :
    Nat → AppendExecState → Option (Option Nat × AppendExecState)
  | 0, _ => none
  | fuel + 1, st =>
    if !st.ps_TupFromTlist then
      let st1 := fetch_next_tuple st
      if st1.slot.isNone then some (none, st1)
      else
        match exec_project_step st1 with
        | (some result, st2) => some (result, st2)
        | (none, st2) => exec_loop fetch_next_tuple fuel st2
    else
      match exec_project_step st with
      | (some result, st2) => some (result, st2)
      | (none, st2) => exec_loop fetch_next_tuple fuel st2

/-- Function `exec_append_common(node, fetch_next_tuple)`: the slot returned
(`none` for `NULL`) and the node afterwards. -/
def exec_append_common (fetch_next_tuple : AppendExecState → AppendExecState) (fuel : Nat)
    (st : AppendExecState) : Option (Option Nat × AppendExecState) :=
  let st0 := if st.ncur_plans = 0 then { st with node_rescans := st.node_rescans + 1 } else st
  exec_loop fetch_next_tuple fuel st0

/-- Successive calls of `exec_append_common` up to the first `NULL`: the rows
returned and the node afterwards.  `calls` bounds the number of calls. -/
def exec_until_end (fetch_next_tuple : AppendExecState → AppendExecState) (fuel : Nat) :
    Nat → AppendExecState → Option (List Nat × AppendExecState)
  | 0, _ => none
  | calls + 1, st =>
    match exec_append_common fetch_next_tuple fuel st with
    | none => none
    | some (none, st1) => some ([], st1)
    | some (some row, st1) =>
      match exec_until_end fetch_next_tuple fuel calls st1 with
      | none => none
      | some (rows, st2) => some (row :: rows, st2)

/-- The node after `begin_append_common`, over the input rows `input`. -/
def exec_begin (ncur_plans : Nat) (ps_ProjInfo : Option (Option Nat → ProjOut))
    (input : List Nat) : AppendExecState :=
  { ncur_plans := ncur_plans, slot := none, ps_TupFromTlist := false,
    ps_ProjInfo := ps_ProjInfo, input := input, srf_pending := none, node_rescans := 0,
    log := [] }

/-- The host calls for one input row under the projection `proj`. -/
def row_trace (proj : Option Nat → ProjOut) (row : Nat) : List ExecTrace :=
  ExecTrace.fetch (some row) ::
    (match proj (some row) with
     | ProjOut.single out =>
       [ExecTrace.project (some row) (some out) ExprDoneCond.ExprSingleResult]
     | ProjOut.multiple outs =>
       outs.map (fun out =>
           ExecTrace.project (some row) (some out) ExprDoneCond.ExprMultipleResult) ++
         [ExecTrace.project (some row) none ExprDoneCond.ExprEndResult])

/-- A projection for the examples: row 1 gives no row, row 2 the rows 20, 21,
any other row `r` the single row `r + 100`. -/
def proj_example : Option Nat → ProjOut
  | some 1 => ProjOut.multiple []
  | some 2 => ProjOut.multiple [20, 21]
  | some r => ProjOut.single (r + 100)
  | none => ProjOut.multiple []

/-- The rows a node with projection `proj` has still to return. -/
def rows_ahead (proj : Option Nat → ProjOut) (st : AppendExecState) : List Nat :=
  (if st.ps_TupFromTlist then st.srf_pending.getD [] else []) ++
    (st.input.map (fun row => (proj (some row)).outputs)).flatten

/-- The host calls still to come until the first `NULL` is returned. -/
def trace_ahead (proj : Option Nat → ProjOut) (st : AppendExecState) : List ExecTrace :=
  (if st.ps_TupFromTlist then
      (st.srf_pending.getD []).map (fun out =>
          ExecTrace.project st.slot (some out) ExprDoneCond.ExprMultipleResult) ++
        [ExecTrace.project st.slot none ExprDoneCond.ExprEndResult]
    else []) ++
    (st.input.map (row_trace proj)).flatten ++ [ExecTrace.fetch none]

/-- Between calls: the projection is `proj`, and rows are pending in
`ExecProject` exactly when `ps_TupFromTlist` is set. -/
def ExecInv (proj : Option Nat → ProjOut) (st : AppendExecState) : Prop :=
  st.ps_ProjInfo = some proj ∧
  (st.ps_TupFromTlist = true → st.srf_pending.isSome = true) ∧
  (st.ps_TupFromTlist = false → st.srf_pending = none)

/-- Scenario for the writes of a shrinking resize: in a fresh arena of four
64-byte blocks, allocate `x` (10 bytes, block 0), `a` (10 bytes, block 1) and
`h` (100 bytes, blocks 2-3), free `x`, write a hundred bytes 9 through `h`,
then resize `h` to 10 elements.  Result: the handles `a` and `h` at the end,
the run length of the new run of `h`, the header of block 1 (the run of `a`)
before and after the resize, and whether the segment byte at address 64 (the
first byte of block 1) was changed by the resize. -/
def resize_overrun_trace : Option (DsmArray × DsmArray × List Nat × Bool) := do
  let st0 ← fresh_arena 4 64
  let (st1, x) ← alloc_dsm_array 0 st0 null_array 1 10
  let (st2, a) ← alloc_dsm_array 0 st1 null_array 1 10
  let (st3, h) ← alloc_dsm_array 0 st2 null_array 1 100
  let (st4, _) := free_dsm_array st3 x
  let st5 := write_array st4 h (List.replicate 100 9)
  let (st6, h1) ← resize_dsm_array 0 st5 h 1 10
  pure (a, h1, [get_length (st6.header 0), st5.header 1, st6.header 1],
        decide (st6.mem 64 ≠ st5.mem 64))

/-- Block indexes the scanning loops of `alloc_dsm_array` can stand at when
started at block `a`: a free header steps by one block, a used header by its
`run_length` (whatever it is). -/
inductive Reached (h : Nat → Nat) (a : Nat) : Nat → Prop where
  | start : Reached h a a
  | free {i : Nat} : Reached h a i → is_free (h i) = true → Reached h a (i + 1)
  | used {i : Nat} : Reached h a i → is_free (h i) = false →
      Reached h a (i + get_length (h i))

/-- The four boolean settings `pg_pathman_enable_assign_hook` reads, and the
notices it has sent (`true` for "enabled", `false` for "disabled").  The hook
is called before the new value is stored, so `pg_pathman_enable` is the value
the switch had before the assignment. -/
structure EnableFlags where
  pg_pathman_enable : Bool
  pg_pathman_enable_runtimeappend : Bool
  pg_pathman_enable_runtime_merge_append : Bool
  pg_pathman_enable_partition_filter : Bool
  notices : List Bool
deriving DecidableEq, Repr

/-- The test of the early return, line 358:
`newval == (pg_pathman_enable && ... && pg_pathman_enable_partition_filter)`. -/
def enable_hook_returns_early (newval : Bool) (s : EnableFlags) : Bool :=
  newval == (s.pg_pathman_enable && s.pg_pathman_enable_runtimeappend &&
    s.pg_pathman_enable_runtime_merge_append && s.pg_pathman_enable_partition_filter)

/-- Function `pg_pathman_enable_assign_hook(newval, extra)`. -/
def pg_pathman_enable_assign_hook (newval : Bool) (s : EnableFlags) : EnableFlags :=
  if enable_hook_returns_early newval s then s
  else
    { s with pg_pathman_enable_runtime_merge_append := newval,
             pg_pathman_enable_runtimeappend := newval,
             pg_pathman_enable_partition_filter := newval,
             notices := s.notices ++ [newval] }

/-- The settings after `SET pg_pathman.enable_runtime_merge_append = off` in a
session that had everything enabled. -/
def flags_merge_append_off : EnableFlags :=
  { pg_pathman_enable := true, pg_pathman_enable_runtimeappend := true,
    pg_pathman_enable_runtime_merge_append := false,
    pg_pathman_enable_partition_filter := true, notices := [] }

/-! # Properties of the embedded functions -/

/-! ## Header words -/

theorem and_free_bit_of_lt (k : Nat) (hk : k < 2 ^ 31) : k &&& FREE_BIT = 0 := by
  apply Nat.eq_of_testBit_eq
  intro i
  have h31 : FREE_BIT = 2 ^ 31 := by decide
  rw [h31]
  simp only [Nat.testBit_and, Nat.testBit_two_pow, Nat.zero_testBit]
  by_cases h : 31 = i
  · subst h; simp [Nat.testBit_lt_two_pow hk]
  · simp [h]

theorem and_mask_eq_mod (h : Nat) : h &&& 0x7FFFFFFF = h % 2 ^ 31 := by
  have := Nat.and_pow_two_sub_one_eq_mod h 31
  simpa using this

theorem is_free_of_lt (k : Nat) (hk : k < 2 ^ 31) : is_free k = false := by
  unfold is_free
  rw [and_free_bit_of_lt k hk]
  rfl

theorem get_length_of_lt (k : Nat) (hk : k < 2 ^ 31) : get_length k = k := by
  unfold get_length
  rw [and_mask_eq_mod]
  exact Nat.mod_eq_of_lt hk

theorem is_free_FREE_HEADER : is_free FREE_HEADER = true := by decide

theorem get_length_FREE_HEADER : get_length FREE_HEADER = 1 := by decide

theorem or_free_bit_mod_and (h : Nat) : ((h ||| FREE_BIT) % 2 ^ 64) &&& FREE_BIT = FREE_BIT := by
  apply Nat.eq_of_testBit_eq
  intro i
  have h31 : FREE_BIT = 2 ^ 31 := by decide
  rw [h31]
  simp only [Nat.testBit_and, Nat.testBit_or, Nat.testBit_two_pow, Nat.testBit_mod_two_pow]
  by_cases h : 31 = i <;> simp [h]
  omega

theorem set_length_after_set_free (h : Nat) :
    set_length (set_free h % 2 ^ 64) 1 = FREE_HEADER := by
  unfold set_length set_free
  rw [or_free_bit_mod_and]
  decide

theorem set_length_after_set_used (h k : Nat) :
    set_length (set_used h % 2 ^ 64) k = k := by
  unfold set_length set_used
  rw [and_mask_eq_mod]
  have h1 : h % 2 ^ 31 % 2 ^ 64 = h % 2 ^ 31 :=
    Nat.mod_eq_of_lt (lt_trans (Nat.mod_lt _ (by decide)) (by decide))
  rw [h1, and_free_bit_of_lt _ (Nat.mod_lt _ (by decide))]
  simp

/-! ## Loads and stores -/

theorem load64_congr (m m1 : Mem) (a : Nat)
    (h : ∀ x, a ≤ x → x < a + 8 → m x = m1 x) : load64 m a = load64 m1 a := by
  unfold load64
  rw [h a (by omega) (by omega), h (a + 1) (by omega) (by omega),
    h (a + 2) (by omega) (by omega), h (a + 3) (by omega) (by omega),
    h (a + 4) (by omega) (by omega), h (a + 5) (by omega) (by omega),
    h (a + 6) (by omega) (by omega), h (a + 7) (by omega) (by omega)]

theorem store64_outside (m : Mem) (a w x : Nat) (h : x < a ∨ a + 8 ≤ x) :
    store64 m a w x = m x := by
  unfold store64
  rw [if_neg]
  omega

theorem load64_store64_same (m : Mem) (a w : Nat) :
    load64 (store64 m a w) a = w % 2 ^ 64 := by
  unfold load64 store64
  simp only [le_refl, Nat.le_add_right, true_and, Nat.lt_add_right_iff_pos,
    Nat.add_lt_add_iff_left, Nat.add_sub_cancel_left, Nat.sub_self]
  norm_num
  omega

theorem store64_store64 (m : Mem) (a w1 w2 : Nat) :
    store64 (store64 m a w1) a w2 = store64 m a w2 := by
  funext x
  unfold store64
  by_cases h : a ≤ x ∧ x < a + 8 <;> simp [h]

theorem write_free_header_eq (m : Mem) (a : Nat) :
    write_free_header m a = store64 m a FREE_HEADER := by
  unfold write_free_header
  simp only
  rw [load64_store64_same, set_length_after_set_free, store64_store64]

/-! ## Block addresses -/

theorem block_addr_disjoint (bs i j : Nat) (hbs : 8 ≤ bs) (h : i ≠ j) :
    j * bs + 8 ≤ i * bs ∨ i * bs + 8 ≤ j * bs := by
  rcases Nat.lt_or_gt_of_ne h with h1 | h1
  · right
    have := Nat.mul_le_mul_right bs (Nat.succ_le_of_lt h1)
    rw [Nat.succ_mul] at this
    omega
  · left
    have := Nat.mul_le_mul_right bs (Nat.succ_le_of_lt h1)
    rw [Nat.succ_mul] at this
    omega

theorem block_addr_mono (bs i j : Nat) (h : i ≤ j) : i * bs ≤ j * bs :=
  Nat.mul_le_mul_right bs h

theorem init_loop_outside (bs : Nat) :
    ∀ (n i : Nat) (m : Mem) (x : Nat),
      (∀ j, i ≤ j → j < i + n → x < j * bs ∨ j * bs + 8 ≤ x) →
      init_dsm_table_loop bs n i m x = m x := by
  intro n
  induction n with
  | zero => intro i m x _; rfl
  | succ n ih =>
    intro i m x h
    unfold init_dsm_table_loop
    rw [ih (i + 1) _ x (fun j h1 h2 => h j (by omega) (by omega)), write_free_header_eq]
    exact store64_outside m _ _ x (h i (le_refl _) (by omega))

theorem init_loop_header_out (bs : Nat) (hbs : 8 ≤ bs) (n i : Nat) (m : Mem) (j : Nat)
    (h : j < i ∨ i + n ≤ j) :
    hdr bs (init_dsm_table_loop bs n i m) j = hdr bs m j := by
  unfold hdr
  apply load64_congr
  intro x h1 h2
  apply init_loop_outside
  intro j1 h3 h4
  have hne : j1 ≠ j := by omega
  rcases block_addr_disjoint bs j1 j hbs hne with h5 | h5 <;> omega

theorem init_loop_header_in (bs : Nat) (hbs : 8 ≤ bs) :
    ∀ (n i : Nat) (m : Mem) (j : Nat), i ≤ j → j < i + n →
      hdr bs (init_dsm_table_loop bs n i m) j = FREE_HEADER := by
  intro n
  induction n with
  | zero => intro i m j h1 h2; omega
  | succ n ih =>
    intro i m j h1 h2
    unfold init_dsm_table_loop
    by_cases hj : j = i
    · subst hj
      rw [init_loop_header_out bs hbs n (j + 1) _ j (by omega), write_free_header_eq]
      unfold hdr
      rw [load64_store64_same]
      decide
    · exact ih (i + 1) _ j (by omega) (by omega)

theorem free_loop_eq_init_loop (bs start : Nat) :
    ∀ (n i : Nat) (m : Mem),
      free_dsm_array_loop bs start n i m = init_dsm_table_loop bs n (start + i) m := by
  intro n
  induction n with
  | zero => intro i m; rfl
  | succ n ih =>
    intro i m
    unfold free_dsm_array_loop init_dsm_table_loop
    rw [ih]
    rfl

/-! ## Tilings -/

theorem Tiles.le {h : Nat → Nat} {i j : Nat} (t : Tiles h i j) : i ≤ j := by
  induction t with
  | refl i => exact le_refl i
  | free _ _ ih => omega
  | used _ _ _ ih => omega

theorem Tiles.trans {h : Nat → Nat} {i j k : Nat} (t1 : Tiles h i j) (t2 : Tiles h j k) :
    Tiles h i k := by
  induction t1 with
  | refl i => exact t2
  | free hf _ ih => exact Tiles.free hf (ih t2)
  | used hu hl _ ih => exact Tiles.used hu hl (ih t2)

theorem Tiles.congr {h h1 : Nat → Nat} {i j : Nat} (t : Tiles h i j)
    (he : ∀ x, i ≤ x → x < j → h1 x = h x) : Tiles h1 i j := by
  induction t with
  | refl i => exact Tiles.refl i
  | @free i j hf t ih =>
    have hij := t.le
    refine Tiles.free ?_ (ih (fun x h1 h2 => he x (by omega) h2))
    rw [he i (le_refl _) (by omega)]; exact hf
  | @used i j hu hl t ih =>
    have hij := t.le
    have e := he i (le_refl _) (by omega)
    refine Tiles.used (by rw [e]; exact hu) (by rw [e]; exact hl) ?_
    rw [e]
    exact ih (fun x h1 h2 => he x (by omega) h2)

theorem Tiles.step {h : Nat → Nat} {i k : Nat} (t : Tiles h i k) (hik : i < k) :
    (is_free (h i) = true ∧ Tiles h (i + 1) k) ∨
    (is_free (h i) = false ∧ 1 ≤ get_length (h i) ∧ Tiles h (i + get_length (h i)) k) := by
  cases t with
  | refl => omega
  | free hf t => exact Or.inl ⟨hf, t⟩
  | used hu hl t => exact Or.inr ⟨hu, hl, t⟩

theorem Tiles.split {h : Nat → Nat} {i j k : Nat} (t1 : Tiles h i j) (t2 : Tiles h i k)
    (hjk : j ≤ k) : Tiles h j k := by
  induction t1 with
  | refl i => exact t2
  | @free i j hf t ih =>
    have := t.le
    rcases t2.step (by omega) with ⟨_, t3⟩ | ⟨hu, _, _⟩
    · exact ih t3 hjk
    · rw [hf] at hu; cases hu
  | @used i j hu hl t ih =>
    have := t.le
    rcases t2.step (by omega) with ⟨hf, _⟩ | ⟨_, _, t3⟩
    · rw [hu] at hf; cases hf
    · exact ih t3 hjk

theorem Tiles.of_free {h : Nat → Nat} (n i : Nat)
    (hf : ∀ x, i ≤ x → x < i + n → is_free (h x) = true) : Tiles h i (i + n) := by
  induction n generalizing i with
  | zero => exact Tiles.refl i
  | succ n ih =>
    refine Tiles.free (hf i (le_refl _) (by omega)) ?_
    have := ih (i + 1) (fun x h1 h2 => hf x (by omega) (by omega))
    rw [show i + 1 + n = i + (n + 1) by omega] at this
    exact this

/-- A run boundary after a used header lies at or beyond the end of that run. -/
theorem Tiles.used_skip {h : Nat → Nat} {a i s : Nat} (t1 : Tiles h a i) (t2 : Tiles h a s)
    (hu : is_free (h i) = false) (his : i < s) : i + get_length (h i) ≤ s := by
  have t3 := t1.split t2 (le_of_lt his)
  rcases t3.step his with ⟨hf, _⟩ | ⟨_, _, t4⟩
  · rw [hu] at hf; cases hf
  · exact t4.le

/-! ## The scan loop of `alloc_dsm_array` -/

theorem scan_body_free_start (cfg : DsmConfig) (m : Mem) (v : ScanVars)
    (hf : is_free (hdr cfg.block_size m v.i) = true) (hc : v.collecting_blocks = false) :
    scan_body cfg m v =
      { v with offset := v.i * cfg.block_size,
               total_length := cfg.block_size - sizeofBlockHeader,
               min_pos := v.i, collecting_blocks := true, i := v.i + 1 } := by
  unfold hdr at hf
  simp [scan_body, hf, hc]

theorem scan_body_free_more (cfg : DsmConfig) (m : Mem) (v : ScanVars)
    (hf : is_free (hdr cfg.block_size m v.i) = true) (hc : v.collecting_blocks = true) :
    scan_body cfg m v =
      { v with total_length := v.total_length + cfg.block_size, i := v.i + 1 } := by
  unfold hdr at hf
  simp [scan_body, hf, hc]

theorem scan_body_used (cfg : DsmConfig) (m : Mem) (v : ScanVars)
    (hu : is_free (hdr cfg.block_size m v.i) = false) :
    scan_body cfg m v =
      { v with collecting_blocks := false, offset := 0, total_length := 0,
               i := v.i + get_length (hdr cfg.block_size m v.i) } := by
  unfold hdr at hu
  simp [scan_body, hu, hdr]

theorem scan_step (cfg : DsmConfig) (m : Mem) (size : Nat) (v : ScanVars)
    (hbs : sizeofBlockHeader ≤ cfg.block_size) (hsz : 0 < size)
    (hinv : ScanInv cfg m size v) (hi : v.i < cfg.blocks_count) :
    (size ≤ (scan_body cfg m v).total_length →
      ScanFound cfg m size
        { scan_body cfg m v with max_pos := (scan_body cfg m v).i - 1, found := true }) ∧
    ((scan_body cfg m v).total_length < size →
      ScanInv cfg m size (scan_body cfg m v) ∧ v.i < (scan_body cfg m v).i) := by
  obtain ⟨tl, tr, nf, lt, coll, nofit⟩ := hinv
  have hfit8 : ∀ s k, Fit cfg m size s k → size + 8 ≤ k * cfg.block_size :=
    fun s k h => h.2.2
  simp only [sizeofBlockHeader] at hbs coll
  rcases tr.step hi with ⟨hf, t1⟩ | ⟨hu, hl, t1⟩
  · -- a free block
    have hfb : FreeBlock cfg m v.i := ⟨tl, hi, hf⟩
    have htl : Tiles (hdr cfg.block_size m) cfg.first_free (v.i + 1) :=
      tl.trans (Tiles.free hf (Tiles.refl _))
    cases hc : v.collecting_blocks with
    | false =>
      rw [scan_body_free_start cfg m v hf hc]
      dsimp only [sizeofBlockHeader]
      constructor
      · intro hge
        refine ⟨rfl, ?_, ?_, rfl, ?_, hge, ?_, t1, ?_, ?_⟩
        all_goals try dsimp only [sizeofBlockHeader]
        · omega
        · omega
        · rw [show v.i + 1 - 1 + 1 - v.i = 1 by omega, Nat.one_mul]; omega
        · intro j h1 h2
          have : j = v.i := by omega
          rw [this]; exact hfb
        · rw [show v.i + 1 - 1 - v.i = 0 by omega, Nat.zero_mul]; omega
        · intro s k hs hfit
          have := (nofit s k hs hfit).1
          rw [hc] at this; cases this
      · intro hlt
        refine ⟨⟨htl, t1, nf, hlt, ?_, ?_⟩, by omega⟩
        all_goals try dsimp only [sizeofBlockHeader]
        · intro _
          refine ⟨by omega, rfl, ?_, ?_⟩
          · rw [show v.i + 1 - v.i = 1 by omega, Nat.one_mul]; omega
          · intro j h1 h2
            have : j = v.i := by omega
            rw [this]; exact hfb
        · intro s k hs hfit
          by_cases hsi : s < v.i
          · have := (nofit s k hsi hfit).1
            rw [hc] at this; cases this
          · have hsi2 : s = v.i := by omega
            refine ⟨rfl, by omega, ?_⟩
            by_contra hk
            have hk1 : k = 1 := by have := hfit.1; omega
            have h3 := hfit8 s k hfit
            rw [hk1, Nat.one_mul] at h3
            omega
    | true =>
      obtain ⟨c1, c2, c3, c4⟩ := coll hc
      have hmul : (v.i + 1 - v.min_pos) * cfg.block_size
          = (v.i - v.min_pos) * cfg.block_size + cfg.block_size := by
        rw [show v.i + 1 - v.min_pos = (v.i - v.min_pos) + 1 by omega, Nat.add_mul,
          Nat.one_mul]
      rw [scan_body_free_more cfg m v hf hc]
      dsimp only [sizeofBlockHeader]
      constructor
      · intro hge
        refine ⟨rfl, ?_, ?_, c2, ?_, hge, ?_, t1, ?_, ?_⟩
        all_goals try dsimp only [sizeofBlockHeader]
        · omega
        · omega
        · rw [show v.i + 1 - 1 + 1 - v.min_pos = v.i + 1 - v.min_pos by omega, hmul]; omega
        · intro j h1 h2
          by_cases hj : j < v.i
          · exact c4 j h1 hj
          · have : j = v.i := by omega
            rw [this]; exact hfb
        · rw [show v.i + 1 - 1 - v.min_pos = v.i - v.min_pos by omega]
          omega
        · intro s k hs hfit
          have := (nofit s k (by omega) hfit).2.1
          omega
      · intro hlt
        refine ⟨⟨htl, t1, nf, hlt, ?_, ?_⟩, by omega⟩
        all_goals try dsimp only [sizeofBlockHeader]
        · intro _
          refine ⟨by omega, c2, ?_, ?_⟩
          · rw [hmul]; omega
          · intro j h1 h2
            by_cases hj : j < v.i
            · exact c4 j h1 hj
            · have : j = v.i := by omega
              rw [this]; exact hfb
        · intro s k hs hfit
          have h3 := hfit8 s k hfit
          have hk := hfit.1
          by_cases hsi : s < v.i
          · obtain ⟨_, n2, n3⟩ := nofit s k hsi hfit
            refine ⟨hc, n2, ?_⟩
            by_contra hk2
            have hle : k ≤ v.i + 1 - v.min_pos := by omega
            have := Nat.mul_le_mul_right cfg.block_size hle
            omega
          · have hsi2 : s = v.i := by omega
            refine ⟨hc, by omega, ?_⟩
            by_contra hk2
            have hle : k ≤ v.i + 1 - v.min_pos := by omega
            have := Nat.mul_le_mul_right cfg.block_size hle
            omega
  · -- the first block of a used run
    rw [scan_body_used cfg m v hu]
    dsimp only
    constructor
    · intro hge; omega
    · intro _
      refine ⟨⟨tl.trans (Tiles.used hu hl (Tiles.refl _)), t1, nf, hsz, ?_, ?_⟩,
        by omega⟩
      all_goals try dsimp only
      · intro h; cases h
      · intro s k hs hfit
        exfalso
        have hk := hfit.1
        by_cases hsi : s < v.i
        · obtain ⟨_, _, n3⟩ := nofit s k hsi hfit
          have := (hfit.2.1 v.i (by omega) n3).2.2
          rw [hu] at this; cases this
        · by_cases hsi2 : s = v.i
          · have := (hfit.2.1 v.i (by omega) (by omega)).2.2
            rw [hu] at this; cases this
          · have h1 := (hfit.2.1 s (le_refl _) (by omega)).1
            have := Tiles.used_skip tl h1 hu (by omega)
            omega

theorem scan_init_inv (cfg : DsmConfig) (m : Mem) (size : Nat) (hsz : 0 < size)
    (ht : Tiles (hdr cfg.block_size m) cfg.first_free cfg.blocks_count) :
    ScanInv cfg m size (scan_init cfg) := by
  refine ⟨Tiles.refl _, ht, rfl, hsz, ?_, ?_⟩
  · intro h; cases h
  · intro s k hs hfit
    have := (hfit.2.1 s (le_refl _) (by have := hfit.1; omega)).1.le
    simp only [scan_init] at hs
    omega

/-- The scan loop returns for a positive request on a tiled table; it either
reports the first fitting stretch or finds that no stretch fits. -/
theorem alloc_scan_spec (cfg : DsmConfig) (m : Mem) (size : Nat)
    (hbs : sizeofBlockHeader ≤ cfg.block_size) (hsz : 0 < size) :
    ∀ (fuel : Nat) (v : ScanVars), ScanInv cfg m size v → cfg.blocks_count ≤ v.i + fuel →
      ∃ r, alloc_scan cfg m size fuel v = some r ∧
        (ScanFound cfg m size r ∨
          (r.found = false ∧ r.i = cfg.blocks_count ∧ ∀ s k, ¬ Fit cfg m size s k)) := by
  have hdone : ∀ v : ScanVars, ScanInv cfg m size v → ¬ v.i < cfg.blocks_count →
      (v.found = false ∧ v.i = cfg.blocks_count ∧ ∀ s k, ¬ Fit cfg m size s k) := by
    intro v hinv hi
    have hle := hinv.tr.le
    refine ⟨hinv.nf, by omega, ?_⟩
    intro s k hfit
    have hk := hfit.1
    have h1 := (hfit.2.1 s (le_refl _) (by omega)).2.1
    obtain ⟨_, _, n3⟩ := hinv.nofit s k (by omega) hfit
    have h2 := (hfit.2.1 (s + k - 1) (by omega) (by omega)).2.1
    omega
  intro fuel
  induction fuel with
  | zero =>
    intro v hinv hfuel
    have hi : ¬ v.i < cfg.blocks_count := by omega
    refine ⟨v, ?_, Or.inr (hdone v hinv hi)⟩
    simp [alloc_scan, hi]
  | succ fuel ih =>
    intro v hinv hfuel
    by_cases hi : v.i < cfg.blocks_count
    · obtain ⟨s1, s2⟩ := scan_step cfg m size v hbs hsz hinv hi
      by_cases hge : size ≤ (scan_body cfg m v).total_length
      · refine ⟨_, ?_, Or.inl (s1 hge)⟩
        simp [alloc_scan, hi, hge]
      · obtain ⟨hinv1, hlt⟩ := s2 (by omega)
        obtain ⟨r, hr, hpost⟩ := ih (scan_body cfg m v) hinv1 (by omega)
        refine ⟨r, ?_, hpost⟩
        simp only [alloc_scan, hi, if_true, ge_iff_le, hge, if_false]
        exact hr
    · refine ⟨v, ?_, Or.inr (hdone v hinv hi)⟩
      simp [alloc_scan, hi]

/-! ## Growth -/

theorem grow_cfg (st : Arena) :
    (grow st).cfg = { st.cfg with blocks_count := st.cfg.blocks_count * 2 } := rfl

theorem grow_hdr_old (st : Arena) (hbs : sizeofBlockHeader ≤ st.cfg.block_size) (j : Nat)
    (h : j < st.cfg.blocks_count) :
    hdr st.cfg.block_size (grow st).mem j = hdr st.cfg.block_size st.mem j := by
  unfold grow init_dsm_table
  dsimp only
  exact init_loop_header_out _ hbs _ _ _ j (Or.inl h)

theorem grow_hdr_new (st : Arena) (hbs : sizeofBlockHeader ≤ st.cfg.block_size) (j : Nat)
    (h1 : st.cfg.blocks_count ≤ j) (h2 : j < st.cfg.blocks_count * 2) :
    hdr st.cfg.block_size (grow st).mem j = FREE_HEADER := by
  unfold grow init_dsm_table
  dsimp only
  exact init_loop_header_in _ hbs _ _ _ j h1 (by omega)

theorem grow_tiles_old (st : Arena) (hbs : sizeofBlockHeader ≤ st.cfg.block_size) {i j : Nat}
    (t : Tiles (hdr st.cfg.block_size st.mem) i j) (hj : j ≤ st.cfg.blocks_count) :
    Tiles (hdr st.cfg.block_size (grow st).mem) i j :=
  t.congr (fun x _ h2 => grow_hdr_old st hbs x (by omega))

theorem grow_tiles_new (st : Arena) (hbs : sizeofBlockHeader ≤ st.cfg.block_size) :
    Tiles (hdr st.cfg.block_size (grow st).mem) st.cfg.blocks_count
      (st.cfg.blocks_count * 2) := by
  have := Tiles.of_free (h := hdr st.cfg.block_size (grow st).mem) st.cfg.blocks_count
    st.cfg.blocks_count (fun x h1 h2 => by
      rw [grow_hdr_new st hbs x h1 (by omega)]; exact is_free_FREE_HEADER)
  rw [show st.cfg.blocks_count + st.cfg.blocks_count = st.cfg.blocks_count * 2 by omega] at this
  exact this

theorem grow_WF (st : Arena) (h : WF st) : WF (grow st) := by
  refine ⟨h.hdr_le, ?_, ?_, ?_⟩
  · rw [grow_cfg]; have := h.bc_pos; dsimp only; omega
  · exact grow_tiles_old st h.hdr_le h.lo h.hi.le
  · exact (grow_tiles_old st h.hdr_le h.hi (le_refl _)).trans (grow_tiles_new st h.hdr_le)

theorem grow_iter_cfg (n : Nat) (st : Arena) :
    (grow_iter n st).cfg = { st.cfg with blocks_count := st.cfg.blocks_count * 2 ^ n } := by
  induction n generalizing st with
  | zero => simp [grow_iter]
  | succ n ih =>
    show (grow_iter n (grow st)).cfg = _
    rw [ih (grow st), grow_cfg]
    have e : st.cfg.blocks_count * 2 * 2 ^ n = st.cfg.blocks_count * 2 ^ (n + 1) := by
      rw [pow_succ]; ring
    simp only [e]

/-! ## Unfolding `alloc_dsm_array` -/

theorem alloc_of_found (fuel : Nat) (st : Arena) (arr : DsmArray) (es ec : Nat) (r : ScanVars)
    (hs : scan_of st (es * ec) = some r) (hf : r.found = true) :
    alloc_dsm_array fuel st arr es ec =
      alloc_finish st { arr with entry_size := es } (es * ec) ec r := by
  unfold scan_of at hs
  cases fuel <;> simp [alloc_dsm_array, hs, hf]

theorem alloc_of_not_found (fuel : Nat) (st : Arena) (arr : DsmArray) (es ec : Nat)
    (r : ScanVars) (hs : scan_of st (es * ec) = some r) (hf : r.found = false) :
    alloc_dsm_array (fuel + 1) st arr es ec =
      alloc_dsm_array fuel (grow st) { arr with entry_size := es } es ec := by
  unfold scan_of at hs
  simp [alloc_dsm_array, hs, hf]

theorem alloc_zero_not_found (st : Arena) (arr : DsmArray) (es ec : Nat)
    (r : ScanVars) (hs : scan_of st (es * ec) = some r) (hf : r.found = false) :
    alloc_dsm_array 0 st arr es ec = none := by
  unfold scan_of at hs
  simp [alloc_dsm_array, hs, hf]

/-! ## The hint update and the marking step -/

theorem hint_loop_spec (cfg : DsmConfig) (m : Mem) :
    ∀ (fuel i : Nat), Tiles (hdr cfg.block_size m) i cfg.blocks_count →
      cfg.blocks_count ≤ i + fuel →
      ∃ ff, hint_loop cfg m fuel i = some ff ∧
        ((ff = cfg.first_free ∧
            ∀ j, Tiles (hdr cfg.block_size m) i j → j < cfg.blocks_count →
              is_free (hdr cfg.block_size m j) = false) ∨
         (Tiles (hdr cfg.block_size m) i ff ∧ ff < cfg.blocks_count ∧
            is_free (hdr cfg.block_size m ff) = true ∧
            ∀ j, Tiles (hdr cfg.block_size m) i j → j < ff →
              is_free (hdr cfg.block_size m j) = false)) := by
  have hend : ∀ i, Tiles (hdr cfg.block_size m) i cfg.blocks_count →
      ¬ i < cfg.blocks_count →
      ∀ j, Tiles (hdr cfg.block_size m) i j → j < cfg.blocks_count →
        is_free (hdr cfg.block_size m j) = false := by
    intro i _ hi j tj hj
    have := tj.le
    omega
  intro fuel
  induction fuel with
  | zero =>
    intro i t hfuel
    have hi : ¬ i < cfg.blocks_count := by omega
    exact ⟨cfg.first_free, by simp [hint_loop, hi], Or.inl ⟨rfl, hend i t hi⟩⟩
  | succ fuel ih =>
    intro i t hfuel
    by_cases hi : i < cfg.blocks_count
    · rcases t.step hi with ⟨hf, _⟩ | ⟨hu, hl, t1⟩
      · refine ⟨i, ?_, Or.inr ⟨Tiles.refl i, hi, hf, ?_⟩⟩
        · unfold hdr at hf
          simp [hint_loop, hi, hf]
        · intro j tj hj
          have := tj.le
          omega
      · obtain ⟨ff, hff, hpost⟩ := ih (i + get_length (hdr cfg.block_size m i)) t1 (by omega)
        have hext : ∀ j bound, Tiles (hdr cfg.block_size m) i j →
            (∀ j, Tiles (hdr cfg.block_size m) (i + get_length (hdr cfg.block_size m i)) j →
              j < bound → is_free (hdr cfg.block_size m j) = false) →
            j < bound → is_free (hdr cfg.block_size m j) = false := by
          intro j bound tj hall hj
          by_cases hji : j = i
          · rw [hji]; exact hu
          · have hlt : i < j := by have := tj.le; omega
            rcases tj.step hlt with ⟨hf, _⟩ | ⟨_, _, t2⟩
            · rw [hu] at hf; cases hf
            · exact hall j t2 hj
        refine ⟨ff, ?_, ?_⟩
        · have hu1 := hu
          unfold hdr at hu1
          simp only [hint_loop, hi, if_true, hu1]
          exact hff
        · rcases hpost with ⟨h1, h2⟩ | ⟨h1, h2, h3, h4⟩
          · exact Or.inl ⟨h1, fun j tj hj => hext j _ tj h2 hj⟩
          · exact Or.inr ⟨Tiles.used hu hl h1, h2, h3, fun j tj hj => hext j _ tj h4 hj⟩
    · exact ⟨cfg.first_free, by simp [hint_loop, hi], Or.inl ⟨rfl, hend i t hi⟩⟩

theorem mark_used_eq (m : Mem) (a k : Nat) :
    store64 (store64 m a (set_used (load64 m a))) a
      (set_length (load64 (store64 m a (set_used (load64 m a))) a) k) = store64 m a k := by
  rw [load64_store64_same, set_length_after_set_used, store64_store64]

/-- The part of `alloc_dsm_array` after a successful scan returns, and its
result is `alloc_outcome`. -/
theorem alloc_finish_spec (st : Arena) (arr : DsmArray) (size ec : Nat) (r : ScanVars)
    (ht : Tiles (hdr st.cfg.block_size st.mem) r.i st.cfg.blocks_count)
    (hge : size ≤ r.total_length) :
    ∃ ff, alloc_finish st arr size ec r = some (alloc_outcome st r ff arr.entry_size ec) ∧
      HintPost st r ff := by
  by_cases hm : st.cfg.first_free = r.min_pos
  · obtain ⟨ff, hff, hpost⟩ := hint_loop_spec st.cfg st.mem st.cfg.blocks_count r.i ht (by omega)
    refine ⟨ff, ?_, Or.inr ⟨hm, hpost⟩⟩
    unfold alloc_finish alloc_outcome
    simp only [hm, if_true, ge_iff_le, hge]
    rw [← hm, hff]
    simp only
    rw [mark_used_eq]
  · refine ⟨st.cfg.first_free, ?_, Or.inl ⟨hm, rfl⟩⟩
    unfold alloc_finish alloc_outcome
    simp only [hm, if_false, ge_iff_le, hge, if_true]
    rw [mark_used_eq]

/-! ## Functional description of `alloc_dsm_array` (positive request) -/

theorem scan_of_spec (st : Arena) (h : WF st) (size : Nat) (hsz : 0 < size) :
    ∃ r, scan_of st size = some r ∧
      (ScanFound st.cfg st.mem size r ∨
        (r.found = false ∧ r.i = st.cfg.blocks_count ∧ ∀ s k, ¬ Fit st.cfg st.mem size s k)) :=
  alloc_scan_spec st.cfg st.mem size h.hdr_le hsz st.cfg.blocks_count (scan_init st.cfg)
    (scan_init_inv st.cfg st.mem size hsz h.hi) (by omega)

/-- Every result of `alloc_dsm_array` for a positive request on a well-formed
arena is the outcome of a successful scan on the arena grown `n` times, each
earlier scan having failed. -/
theorem alloc_result_pos (es ec : Nat) (hsz : 0 < es * ec) :
    ∀ (fuel : Nat) (st : Arena) (arr : DsmArray) (res : Arena × DsmArray), WF st →
      alloc_dsm_array fuel st arr es ec = some res →
      ∃ n r ff, n ≤ fuel ∧
        (∀ j, j < n →
          (∃ v, scan_of (grow_iter j st) (es * ec) = some v ∧ v.found = false) ∧
          ∀ s k, ¬ Fit (grow_iter j st).cfg (grow_iter j st).mem (es * ec) s k) ∧
        scan_of (grow_iter n st) (es * ec) = some r ∧
        ScanFound (grow_iter n st).cfg (grow_iter n st).mem (es * ec) r ∧
        HintPost (grow_iter n st) r ff ∧
        res = alloc_outcome (grow_iter n st) r ff es ec := by
  intro fuel
  induction fuel with
  | zero =>
    intro st arr res hwf hres
    obtain ⟨r, hr, hpost⟩ := scan_of_spec st hwf (es * ec) hsz
    rcases hpost with hfound | ⟨hnf, _, _⟩
    · rw [alloc_of_found 0 st arr es ec r hr hfound.found] at hres
      obtain ⟨ff, hff, hhint⟩ := alloc_finish_spec st { arr with entry_size := es } (es * ec) ec r
        hfound.tr hfound.enough
      rw [hff] at hres
      refine ⟨0, r, ff, le_refl _, ?_, hr, hfound, hhint, ?_⟩
      · intro j hj; omega
      · exact (Option.some.inj hres).symm
    · rw [alloc_zero_not_found st arr es ec r hr hnf] at hres
      cases hres
  | succ fuel ih =>
    intro st arr res hwf hres
    obtain ⟨r, hr, hpost⟩ := scan_of_spec st hwf (es * ec) hsz
    rcases hpost with hfound | ⟨hnf, _, hno⟩
    · rw [alloc_of_found _ st arr es ec r hr hfound.found] at hres
      obtain ⟨ff, hff, hhint⟩ := alloc_finish_spec st { arr with entry_size := es } (es * ec) ec r
        hfound.tr hfound.enough
      rw [hff] at hres
      refine ⟨0, r, ff, by omega, ?_, hr, hfound, hhint, ?_⟩
      · intro j hj; omega
      · exact (Option.some.inj hres).symm
    · rw [alloc_of_not_found fuel st arr es ec r hr hnf] at hres
      obtain ⟨n, r1, ff, hn, hno1, hr1, hfound, hhint, hres1⟩ :=
        ih (grow st) _ res (grow_WF st hwf) hres
      refine ⟨n + 1, r1, ff, by omega, ?_, hr1, hfound, hhint, hres1⟩
      intro j hj
      cases j with
      | zero => exact ⟨⟨r, hr, hnf⟩, hno⟩
      | succ j => exact hno1 j (by omega)

/-! ## Termination of `alloc_dsm_array` -/

theorem grow_free_tail (st : Arena) (h : WF st) (t : Nat)
    (htail : ∀ j, t ≤ j → j < st.cfg.blocks_count → FreeBlock st.cfg st.mem j) :
    ∀ j, t ≤ j → j < (grow st).cfg.blocks_count → FreeBlock (grow st).cfg (grow st).mem j := by
  intro j h1 h2
  rw [grow_cfg] at h2 ⊢
  dsimp only at h2 ⊢
  by_cases hj : j < st.cfg.blocks_count
  · obtain ⟨f1, _, f3⟩ := htail j h1 hj
    refine ⟨grow_tiles_old st h.hdr_le f1 (by omega), h2, ?_⟩
    show is_free (hdr st.cfg.block_size (grow st).mem j) = true
    rw [grow_hdr_old st h.hdr_le j hj]; exact f3
  · have hnew : ∀ x, st.cfg.blocks_count ≤ x → x < st.cfg.blocks_count * 2 →
        is_free (hdr st.cfg.block_size (grow st).mem x) = true := by
      intro x x1 x2
      rw [grow_hdr_new st h.hdr_le x x1 x2]; exact is_free_FREE_HEADER
    refine ⟨?_, h2, hnew j (by omega) h2⟩
    refine (grow_tiles_old st h.hdr_le h.hi (le_refl _)).trans ?_
    have := Tiles.of_free (h := hdr st.cfg.block_size (grow st).mem)
      (j - st.cfg.blocks_count) st.cfg.blocks_count
      (fun x x1 x2 => hnew x x1 (by omega))
    rw [show st.cfg.blocks_count + (j - st.cfg.blocks_count) = j by omega] at this
    exact this

theorem alloc_terminates_pos (es ec : Nat) (hsz : 0 < es * ec) :
    ∀ (fuel : Nat) (st : Arena) (arr : DsmArray) (t : Nat), WF st →
      (∀ j, t ≤ j → j < st.cfg.blocks_count → FreeBlock st.cfg st.mem j) →
      es * ec + 8 + t * st.cfg.block_size
        ≤ 2 ^ fuel * (st.cfg.blocks_count * st.cfg.block_size) →
      ∃ res, alloc_dsm_array fuel st arr es ec = some res := by
  have hbase : ∀ (st : Arena) (t : Nat),
      (∀ j, t ≤ j → j < st.cfg.blocks_count → FreeBlock st.cfg st.mem j) →
      es * ec + 8 + t * st.cfg.block_size ≤ st.cfg.blocks_count * st.cfg.block_size →
      Fit st.cfg st.mem (es * ec) t (st.cfg.blocks_count - t) := by
    intro st t htail hb
    have ht : t < st.cfg.blocks_count := by
      by_contra hc
      have := block_addr_mono st.cfg.block_size _ _ (Nat.le_of_not_lt hc)
      omega
    refine ⟨by omega, fun j h1 h2 => htail j h1 (by omega), ?_⟩
    rw [Nat.sub_mul]
    show es * ec + 8 ≤ _
    omega
  have hfin : ∀ (fuel : Nat) (st : Arena) (arr : DsmArray) (r : ScanVars),
      scan_of st (es * ec) = some r → ScanFound st.cfg st.mem (es * ec) r →
      ∃ res, alloc_dsm_array fuel st arr es ec = some res := by
    intro fuel st arr r hr hfound
    rw [alloc_of_found fuel st arr es ec r hr hfound.found]
    obtain ⟨ff, hff, _⟩ := alloc_finish_spec st { arr with entry_size := es } (es * ec) ec r
      hfound.tr hfound.enough
    exact ⟨_, hff⟩
  intro fuel
  induction fuel with
  | zero =>
    intro st arr t hwf htail hb
    obtain ⟨r, hr, hpost⟩ := scan_of_spec st hwf (es * ec) hsz
    rcases hpost with hfound | ⟨_, _, hno⟩
    · exact hfin 0 st arr r hr hfound
    · exact absurd (hbase st t htail (by simpa using hb)) (hno _ _)
  | succ fuel ih =>
    intro st arr t hwf htail hb
    obtain ⟨r, hr, hpost⟩ := scan_of_spec st hwf (es * ec) hsz
    rcases hpost with hfound | ⟨hnf, _, _⟩
    · exact hfin _ st arr r hr hfound
    · rw [alloc_of_not_found fuel st arr es ec r hr hnf]
      apply ih (grow st) _ t (grow_WF st hwf) (grow_free_tail st hwf t htail)
      rw [grow_cfg]
      dsimp only
      have e : 2 ^ fuel * (st.cfg.blocks_count * 2 * st.cfg.block_size)
          = 2 ^ (fuel + 1) * (st.cfg.blocks_count * st.cfg.block_size) := by
        rw [pow_succ]; ring
      rw [e]; exact hb

/-- Fuel that suffices for a request of `size` bytes on any well-formed arena. -/
theorem enough_fuel (size X : Nat) (hX : 8 ≤ X) (fuel : Nat) (hf : size + 1 ≤ fuel) :
    size + 8 + X ≤ 2 ^ fuel * X := by
  have h1 : fuel < 2 ^ fuel := Nat.lt_two_pow fuel
  have h2 : (size + 2) * X ≤ 2 ^ fuel * X := Nat.mul_le_mul_right X (by omega)
  have h3 : size * 1 ≤ size * X := Nat.mul_le_mul_left size (by omega)
  have h4 : (size + 2) * X = size * X + 2 * X := by ring
  omega

theorem table_bytes_ge (st : Arena) (h : WF st) :
    8 ≤ st.cfg.blocks_count * st.cfg.block_size := by
  have h1 := h.hdr_le
  have h2 := h.bc_pos
  have h3 : 1 * st.cfg.block_size ≤ st.cfg.blocks_count * st.cfg.block_size :=
    Nat.mul_le_mul_right _ h2
  simp only [sizeofBlockHeader] at h1
  omega

theorem alloc_returns_pos (es ec : Nat) (hsz : 0 < es * ec) (st : Arena) (arr : DsmArray)
    (hwf : WF st) (fuel : Nat) (hf : es * ec + 1 ≤ fuel) :
    ∃ res, alloc_dsm_array fuel st arr es ec = some res := by
  apply alloc_terminates_pos es ec hsz fuel st arr st.cfg.blocks_count hwf
  · intro j h1 h2; omega
  · exact enough_fuel (es * ec) _ (table_bytes_ge st hwf) fuel hf

/-! ## Requests of size zero -/

theorem alloc_scan_zero (cfg : DsmConfig) (m : Mem) (fuel : Nat) (v : ScanVars)
    (hfuel : 0 < fuel) (hi : v.i < cfg.blocks_count) :
    alloc_scan cfg m 0 fuel v =
      some { scan_body cfg m v with max_pos := (scan_body cfg m v).i - 1, found := true } := by
  cases fuel with
  | zero => omega
  | succ fuel => simp [alloc_scan, hi]

theorem scan_of_zero_lt (st : Arena) (hlt : st.cfg.first_free < st.cfg.blocks_count) :
    scan_of st 0 =
      some { scan_body st.cfg st.mem (scan_init st.cfg) with
               max_pos := (scan_body st.cfg st.mem (scan_init st.cfg)).i - 1,
               found := true } :=
  alloc_scan_zero st.cfg st.mem st.cfg.blocks_count (scan_init st.cfg) (by omega) hlt

theorem scan_of_ge (st : Arena) (size : Nat)
    (hge : st.cfg.blocks_count ≤ st.cfg.first_free) :
    scan_of st size = some (scan_init st.cfg) := by
  unfold scan_of
  have hi : ¬ (scan_init st.cfg).i < st.cfg.blocks_count := by
    simp only [scan_init]; omega
  cases st.cfg.blocks_count <;> simp [alloc_scan, hi]

/-- A request of size zero with a free block at `first_free` takes that block. -/
theorem alloc_zero_free (st : Arena) (arr : DsmArray) (es ec : Nat) (hsz : es * ec = 0)
    (hwf : WF st) (hlt : st.cfg.first_free < st.cfg.blocks_count)
    (hf : is_free (hdr st.cfg.block_size st.mem st.cfg.first_free) = true) (fuel : Nat) :
    ∃ ff, alloc_dsm_array fuel st arr es ec =
      some ({ cfg := { st.cfg with first_free := ff },
              mem := store64 st.mem (st.cfg.first_free * st.cfg.block_size) 1 },
            { offset := st.cfg.first_free * st.cfg.block_size, elem_count := ec,
              entry_size := es }) := by
  have hb := scan_body_free_start st.cfg st.mem (scan_init st.cfg) hf rfl
  have hs : scan_of st (es * ec) = some
      { i := st.cfg.first_free + 1, min_pos := st.cfg.first_free,
        max_pos := st.cfg.first_free, found := true, collecting_blocks := true,
        offset := st.cfg.first_free * st.cfg.block_size,
        total_length := st.cfg.block_size - sizeofBlockHeader } := by
    rw [hsz, scan_of_zero_lt st hlt, hb]
    simp [scan_init]
  rcases hwf.hi.step hlt with ⟨_, t1⟩ | ⟨hu, _, _⟩
  · rw [alloc_of_found fuel st arr es ec _ hs rfl]
    obtain ⟨ff, hff, _⟩ := alloc_finish_spec st { arr with entry_size := es } (es * ec) ec
      { i := st.cfg.first_free + 1, min_pos := st.cfg.first_free,
        max_pos := st.cfg.first_free, found := true, collecting_blocks := true,
        offset := st.cfg.first_free * st.cfg.block_size,
        total_length := st.cfg.block_size - sizeofBlockHeader }
      t1 (by rw [hsz]; exact Nat.zero_le _)
    refine ⟨ff, ?_⟩
    rw [hff]
    simp [alloc_outcome]
  · rw [hf] at hu; cases hu

/-- A request of size zero with a used run at `first_free` marks block 0. -/
theorem alloc_zero_used (st : Arena) (arr : DsmArray) (es ec : Nat) (hsz : es * ec = 0)
    (hwf : WF st) (hlt : st.cfg.first_free < st.cfg.blocks_count)
    (hu : is_free (hdr st.cfg.block_size st.mem st.cfg.first_free) = false) (fuel : Nat) :
    ∃ ff, alloc_dsm_array fuel st arr es ec =
      some ({ cfg := { st.cfg with first_free := ff },
              mem := store64 st.mem (0 * st.cfg.block_size)
                (st.cfg.first_free
                  + get_length (hdr st.cfg.block_size st.mem st.cfg.first_free) - 1 - 0 + 1) },
            { offset := 0, elem_count := ec, entry_size := es }) := by
  have hb := scan_body_used st.cfg st.mem (scan_init st.cfg) hu
  have hs : scan_of st (es * ec) = some
      { i := st.cfg.first_free + get_length (hdr st.cfg.block_size st.mem st.cfg.first_free),
        min_pos := 0,
        max_pos := st.cfg.first_free
          + get_length (hdr st.cfg.block_size st.mem st.cfg.first_free) - 1,
        found := true, collecting_blocks := false, offset := 0, total_length := 0 } := by
    rw [hsz, scan_of_zero_lt st hlt, hb]
    simp [scan_init]
  rcases hwf.hi.step hlt with ⟨hf, _⟩ | ⟨_, _, t1⟩
  · rw [hf] at hu; cases hu
  · rw [alloc_of_found fuel st arr es ec _ hs rfl]
    obtain ⟨ff, hff, _⟩ := alloc_finish_spec st { arr with entry_size := es } (es * ec) ec
      { i := st.cfg.first_free + get_length (hdr st.cfg.block_size st.mem st.cfg.first_free),
        min_pos := 0,
        max_pos := st.cfg.first_free
          + get_length (hdr st.cfg.block_size st.mem st.cfg.first_free) - 1,
        found := true, collecting_blocks := false, offset := 0, total_length := 0 }
      t1 (by rw [hsz])
    refine ⟨ff, ?_⟩
    rw [hff]
    simp [alloc_outcome]

theorem alloc_zero_total (st : Arena) (arr : DsmArray) (es ec : Nat) (hsz : es * ec = 0)
    (hwf : WF st) (fuel : Nat) (hfuel : 1 ≤ fuel) :
    ∃ st' arr' p k, alloc_dsm_array fuel st arr es ec = some (st', arr') ∧
      AllocOk st es ec st' arr' p k := by
  have h8 := hwf.hdr_le
  simp only [sizeofBlockHeader] at h8
  have hfitlow : ∀ s k1, Fit st.cfg st.mem (es * ec) s k1 →
      st.cfg.first_free ≤ s ∧ s < st.cfg.blocks_count := by
    intro s k1 hfit
    have hb := hfit.2.1 s (le_refl _) (by have := hfit.1; omega)
    exact ⟨hb.1.le, hb.2.1⟩
  have hfree : ∀ (g : Arena) (a : DsmArray) (f : Nat), WF g →
      g.cfg.block_size = st.cfg.block_size →
      g.cfg.first_free < g.cfg.blocks_count →
      is_free (hdr g.cfg.block_size g.mem g.cfg.first_free) = true →
      st.cfg.blocks_count ≤ g.cfg.blocks_count →
      (∀ s k1, Fit st.cfg st.mem (es * ec) s k1 → g.cfg.first_free ≤ s) →
      ∃ st' arr' p k, alloc_dsm_array f g a es ec = some (st', arr') ∧
        AllocOk st es ec st' arr' p k := by
    intro g a f hg hbs hlt hf hbcle hlow
    obtain ⟨ff, hff⟩ := alloc_zero_free g a es ec hsz hg hlt hf f
    refine ⟨_, _, g.cfg.first_free, 1, hff, ?_⟩
    refine ⟨hbs, by rw [hbs], rfl, rfl, ?_, le_refl _, ?_, Or.inl ?_, ?_, hbcle, hlow⟩
    · show hdr st.cfg.block_size (store64 g.mem _ 1) g.cfg.first_free = _
      rw [hbs]; unfold hdr; rw [load64_store64_same]
    · rw [hsz]; simp only [sizeofBlockHeader]; omega
    · rw [hsz]; simp [sizeofBlockHeader]
    · show g.cfg.first_free + 1 ≤ g.cfg.blocks_count
      omega
  by_cases hlt : st.cfg.first_free < st.cfg.blocks_count
  · cases hf : is_free (hdr st.cfg.block_size st.mem st.cfg.first_free) with
    | true =>
      exact hfree st arr fuel hwf rfl hlt hf (le_refl _) (fun s k1 h => (hfitlow s k1 h).1)
    | false =>
      obtain ⟨ff, hff⟩ := alloc_zero_used st arr es ec hsz hwf hlt hf fuel
      rcases hwf.hi.step hlt with ⟨hf1, _⟩ | ⟨_, hl, t1⟩
      · rw [hf1] at hf; cases hf
      · have hle := t1.le
        refine ⟨_, _, 0, st.cfg.first_free
          + get_length (hdr st.cfg.block_size st.mem st.cfg.first_free) - 1 - 0 + 1, hff, ?_⟩
        refine ⟨rfl, by simp, rfl, rfl, ?_, by omega, ?_, Or.inr (by omega), ?_, le_refl _,
          fun s _ _ => Nat.zero_le s⟩
        rotate_left 2
        · show 0 + (st.cfg.first_free
            + get_length (hdr st.cfg.block_size st.mem st.cfg.first_free) - 1 - 0 + 1)
            ≤ st.cfg.blocks_count
          omega
        · show hdr st.cfg.block_size (store64 st.mem _ _) 0 = _
          unfold hdr; rw [load64_store64_same]
        · rw [hsz]; simp only [sizeofBlockHeader]
          have : 1 * st.cfg.block_size ≤
              (st.cfg.first_free + get_length (hdr st.cfg.block_size st.mem st.cfg.first_free)
                - 1 - 0 + 1) * st.cfg.block_size :=
            Nat.mul_le_mul_right _ (by omega)
          omega
  · have hge : st.cfg.blocks_count ≤ st.cfg.first_free := by omega
    have heq : st.cfg.first_free = st.cfg.blocks_count := by have := hwf.hi.le; omega
    have hs := scan_of_ge st (es * ec) hge
    obtain ⟨f, rfl⟩ : ∃ f, fuel = f + 1 := ⟨fuel - 1, by omega⟩
    rw [alloc_of_not_found f st arr es ec _ hs rfl]
    have hbc := hwf.bc_pos
    apply hfree (grow st) _ f (grow_WF st hwf) rfl
    · rw [grow_cfg]; dsimp only; omega
    · show is_free (hdr st.cfg.block_size (grow st).mem st.cfg.first_free) = true
      rw [grow_hdr_new st hwf.hdr_le _ (by omega) (by omega)]
      exact is_free_FREE_HEADER
    · rw [grow_cfg]; dsimp only; omega
    · intro s k1 hfit
      have := hfitlow s k1 hfit
      omega

/-! ## `alloc_dsm_array` returns -/

theorem alloc_outcome_ok (st g : Arena) (r : ScanVars) (ff es ec : Nat)
    (hbs : g.cfg.block_size = st.cfg.block_size)
    (hfound : ScanFound g.cfg g.mem (es * ec) r)
    (hbcle : st.cfg.blocks_count ≤ g.cfg.blocks_count)
    (hlow : ∀ s k1, Fit st.cfg st.mem (es * ec) s k1 → r.min_pos ≤ s) :
    AllocOk st es ec (alloc_outcome g r ff es ec).1 (alloc_outcome g r ff es ec).2
      r.min_pos (r.max_pos - r.min_pos + 1) := by
  have h1 := hfound.tot
  have h2 := hfound.enough
  have h3 := hfound.least
  have h4 := hfound.le
  rw [hbs] at h1 h3
  have h5 := hfound.tr.le
  have h6 := hfound.i_eq
  refine ⟨hbs, ?_, rfl, rfl, ?_, by omega, ?_, Or.inl ?_, ?_, hbcle, hlow⟩
  rotate_left 4
  · show r.min_pos + (r.max_pos - r.min_pos + 1) ≤ g.cfg.blocks_count
    omega
  · show r.offset = _
    rw [hfound.off, hbs]
  · show hdr st.cfg.block_size (store64 g.mem _ _) r.min_pos = _
    rw [hbs]; unfold hdr; rw [load64_store64_same]
  · rw [show r.max_pos - r.min_pos + 1 = r.max_pos + 1 - r.min_pos by omega]
    omega
  · rw [show r.max_pos - r.min_pos + 1 - 1 = r.max_pos - r.min_pos by omega]
    exact h3

/-- On a well-formed arena `alloc_dsm_array` returns for every request once
the fuel exceeds the request size, and the handle denotes a marked run that
holds the request. -/
theorem alloc_total (st : Arena) (arr : DsmArray) (es ec : Nat) (hwf : WF st)
    (fuel : Nat) (hfuel : es * ec + 1 ≤ fuel) :
    ∃ st' arr' p k, alloc_dsm_array fuel st arr es ec = some (st', arr') ∧
      AllocOk st es ec st' arr' p k := by
  by_cases hsz : es * ec = 0
  · exact alloc_zero_total st arr es ec hsz hwf fuel (by omega)
  · have hpos : 0 < es * ec := Nat.pos_of_ne_zero hsz
    obtain ⟨res, hres⟩ := alloc_returns_pos es ec hpos st arr hwf fuel hfuel
    obtain ⟨n, r, ff, _, hfail, _, hfound, _, hout⟩ :=
      alloc_result_pos es ec hpos fuel st arr res hwf hres
    have hbs : (grow_iter n st).cfg.block_size = st.cfg.block_size := by
      rw [grow_iter_cfg]
    have hbcle : st.cfg.blocks_count ≤ (grow_iter n st).cfg.blocks_count := by
      rw [grow_iter_cfg]
      exact Nat.le_mul_of_pos_right _ (Nat.two_pow_pos n)
    have hlow : ∀ s k1, Fit st.cfg st.mem (es * ec) s k1 → r.min_pos ≤ s := by
      intro s k1 hfit
      have hn : n = 0 := by
        by_contra hn
        exact (hfail 0 (by omega)).2 s k1 hfit
      by_contra hlt
      have hfirst := hfound.first s k1 (by omega)
      rw [hn] at hfirst
      exact hfirst hfit
    refine ⟨res.1, res.2, r.min_pos, r.max_pos - r.min_pos + 1, hres, ?_⟩
    rw [hout]
    exact alloc_outcome_ok st (grow_iter n st) r ff es ec hbs hfound hbcle hlow

/-! ## `free_dsm_array` -/

theorem free_mem (st : Arena) (arr : DsmArray) (s : Nat)
    (hbs : sizeofBlockHeader ≤ st.cfg.block_size) (hoff : arr.offset = s * st.cfg.block_size) :
    (free_dsm_array st arr).1.mem =
      init_dsm_table_loop st.cfg.block_size (get_length (hdr st.cfg.block_size st.mem s)) s
        st.mem := by
  have hpos : 0 < st.cfg.block_size := by simp only [sizeofBlockHeader] at hbs; omega
  have hs : arr.offset / st.cfg.block_size = s := by
    rw [hoff]; exact Nat.mul_div_cancel s hpos
  unfold free_dsm_array
  simp only [hs]
  rw [free_loop_eq_init_loop, Nat.add_zero]
  rfl

theorem free_cfg (st : Arena) (arr : DsmArray) (s : Nat)
    (hbs : sizeofBlockHeader ≤ st.cfg.block_size) (hoff : arr.offset = s * st.cfg.block_size) :
    (free_dsm_array st arr).1.cfg =
      { st.cfg with first_free := if s < st.cfg.first_free then s else st.cfg.first_free } := by
  have hpos : 0 < st.cfg.block_size := by simp only [sizeofBlockHeader] at hbs; omega
  have hs : arr.offset / st.cfg.block_size = s := by
    rw [hoff]; exact Nat.mul_div_cancel s hpos
  unfold free_dsm_array
  simp only [hs]

theorem free_hdr_in (st : Arena) (arr : DsmArray) (s : Nat)
    (hbs : sizeofBlockHeader ≤ st.cfg.block_size) (hoff : arr.offset = s * st.cfg.block_size)
    (j : Nat) (h1 : s ≤ j) (h2 : j < s + get_length (hdr st.cfg.block_size st.mem s)) :
    hdr st.cfg.block_size (free_dsm_array st arr).1.mem j = FREE_HEADER := by
  rw [free_mem st arr s hbs hoff]
  exact init_loop_header_in _ hbs _ _ _ j h1 h2

theorem free_hdr_out (st : Arena) (arr : DsmArray) (s : Nat)
    (hbs : sizeofBlockHeader ≤ st.cfg.block_size) (hoff : arr.offset = s * st.cfg.block_size)
    (j : Nat) (h : j < s ∨ s + get_length (hdr st.cfg.block_size st.mem s) ≤ j) :
    hdr st.cfg.block_size (free_dsm_array st arr).1.mem j = hdr st.cfg.block_size st.mem j := by
  rw [free_mem st arr s hbs hoff]
  exact init_loop_header_out _ hbs _ _ _ j h

theorem free_block_size (st : Arena) (arr : DsmArray) :
    (free_dsm_array st arr).1.cfg.block_size = st.cfg.block_size := rfl

theorem free_blocks_count (st : Arena) (arr : DsmArray) :
    (free_dsm_array st arr).1.cfg.blocks_count = st.cfg.blocks_count := rfl

/-- Freeing a live handle keeps the arena well formed. -/
theorem free_WF (st : Arena) (arr : DsmArray) (s : Nat) (hwf : WF st)
    (hlive : Live st arr s) : WF (free_dsm_array st arr).1 := by
  have hbs := hwf.hdr_le
  have hoff := hlive.off
  rcases hlive.hi.step hlive.lt with ⟨hf, _⟩ | ⟨_, hl, t1⟩
  · rw [hlive.used] at hf; cases hf
  · have e1 : ∀ x, x < s → hdr st.cfg.block_size (free_dsm_array st arr).1.mem x
        = hdr st.cfg.block_size st.mem x :=
      fun x hx => free_hdr_out st arr s hbs hoff x (Or.inl hx)
    have e2 : ∀ x, s + get_length (hdr st.cfg.block_size st.mem s) ≤ x →
        hdr st.cfg.block_size (free_dsm_array st arr).1.mem x
          = hdr st.cfg.block_size st.mem x :=
      fun x hx => free_hdr_out st arr s hbs hoff x (Or.inr hx)
    have ta : Tiles (hdr st.cfg.block_size (free_dsm_array st arr).1.mem) 0 s :=
      hlive.lo.congr (fun x _ h2 => e1 x h2)
    have tb : Tiles (hdr st.cfg.block_size (free_dsm_array st arr).1.mem) s
        (s + get_length (hdr st.cfg.block_size st.mem s)) :=
      Tiles.of_free _ s (fun x h1 h2 => by
        rw [free_hdr_in st arr s hbs hoff x h1 h2]; exact is_free_FREE_HEADER)
    have tc : Tiles (hdr st.cfg.block_size (free_dsm_array st arr).1.mem)
        (s + get_length (hdr st.cfg.block_size st.mem s)) st.cfg.blocks_count :=
      t1.congr (fun x h1 _ => e2 x h1)
    refine ⟨hbs, hwf.bc_pos, ?_, ?_⟩
    · rw [free_block_size, free_cfg st arr s hbs hoff]
      dsimp only
      by_cases hs : s < st.cfg.first_free
      · rw [if_pos hs]; exact ta
      · rw [if_neg hs]
        exact hwf.lo.congr (fun x _ h2 => e1 x (by omega))
    · rw [free_block_size, free_cfg st arr s hbs hoff]
      dsimp only
      by_cases hs : s < st.cfg.first_free
      · rw [if_pos hs]; exact tb.trans tc
      · rw [if_neg hs]
        have t2 : Tiles (hdr st.cfg.block_size st.mem) st.cfg.first_free s :=
          hwf.lo.split hlive.lo (by omega)
        exact (t2.congr (fun x _ h2 => e1 x h2)).trans (tb.trans tc)

/-! ## `memcpy` -/

theorem memcpy_outside (m : Mem) (dst : Nat) (buf : List Nat) (x : Nat)
    (h : x < dst ∨ dst + buf.length ≤ x) : memcpy m dst buf x = m x := by
  unfold memcpy
  rw [if_neg]
  omega

theorem memcpy_inside (m : Mem) (dst : Nat) (buf : List Nat) (j : Nat) (h : j < buf.length) :
    memcpy m dst buf (dst + j) = buf.getD j 0 := by
  unfold memcpy
  rw [if_pos (by omega), Nat.add_sub_cancel_left]

theorem read_bytes_length (m : Mem) (src n : Nat) : (read_bytes m src n).length = n := by
  simp [read_bytes]

theorem read_bytes_getD (m : Mem) (src n j : Nat) (h : j < n) :
    (read_bytes m src n).getD j 0 = m (src + j) := by
  simp [read_bytes, List.getD, h]

/-! ## Claim C5: no coalescing on deallocate -/

/-- Claim C5.  For a handle whose run starts at block `s` with run length
`k = get_length (header s)` in an arena whose blocks hold their header,
`free_dsm_array` leaves each of the blocks `s .. s + k - 1` free with
run length 1 and leaves the header of every other block unchanged; freeing
the adjacent run that starts at block `s + k` afterwards leaves every block of
both runs free with run length 1 (no header carries the merged length). -/
theorem free_dsm_array_no_coalescing (st : Arena) (arr : DsmArray) (s : Nat)
    (hbs : sizeofBlockHeader ≤ st.cfg.block_size)
    (hoff : arr.offset = s * st.cfg.block_size) :
    (∀ j, s ≤ j → j < s + get_length (st.header s) →
      is_free ((free_dsm_array st arr).1.header j) = true ∧
      get_length ((free_dsm_array st arr).1.header j) = 1) ∧
    (∀ j, j < s ∨ s + get_length (st.header s) ≤ j →
      (free_dsm_array st arr).1.header j = st.header j) ∧
    (∀ b : DsmArray, b.offset = (s + get_length (st.header s)) * st.cfg.block_size →
      ∀ j, s ≤ j →
        j < s + get_length (st.header s)
          + get_length (st.header (s + get_length (st.header s))) →
        is_free ((free_dsm_array (free_dsm_array st arr).1 b).1.header j) = true ∧
        get_length ((free_dsm_array (free_dsm_array st arr).1 b).1.header j) = 1) := by
  have hin : ∀ (g : Arena) (a : DsmArray) (p j : Nat),
      sizeofBlockHeader ≤ g.cfg.block_size → a.offset = p * g.cfg.block_size →
      p ≤ j → j < p + get_length (g.header p) →
      (free_dsm_array g a).1.header j = FREE_HEADER :=
    fun g a p j h1 h2 h3 h4 => free_hdr_in g a p h1 h2 j h3 h4
  have hout : ∀ (g : Arena) (a : DsmArray) (p j : Nat),
      sizeofBlockHeader ≤ g.cfg.block_size → a.offset = p * g.cfg.block_size →
      j < p ∨ p + get_length (g.header p) ≤ j →
      (free_dsm_array g a).1.header j = g.header j :=
    fun g a p j h1 h2 h3 => free_hdr_out g a p h1 h2 j h3
  refine ⟨?_, ?_, ?_⟩
  · intro j h1 h2
    rw [hin st arr s j hbs hoff h1 h2]
    exact ⟨is_free_FREE_HEADER, get_length_FREE_HEADER⟩
  · intro j h
    exact hout st arr s j hbs hoff h
  · intro b hb j h1 h2
    have hk : (free_dsm_array st arr).1.header (s + get_length (st.header s))
        = st.header (s + get_length (st.header s)) :=
      hout st arr s _ hbs hoff (Or.inr (le_refl _))
    have hfree : (free_dsm_array (free_dsm_array st arr).1 b).1.header j = FREE_HEADER := by
      by_cases hj : j < s + get_length (st.header s)
      · rw [hout (free_dsm_array st arr).1 b (s + get_length (st.header s)) j hbs hb
          (Or.inl hj)]
        exact hin st arr s j hbs hoff h1 hj
      · exact hin (free_dsm_array st arr).1 b (s + get_length (st.header s)) j hbs hb
          (by omega) (by rw [hk]; omega)
    rw [hfree]
    exact ⟨is_free_FREE_HEADER, get_length_FREE_HEADER⟩

/-- Claim C5 at the example of the specification: freeing the three-block run
at block 0 and then the adjacent one-block run at block 3 leaves the four
blocks free, each with run length 1. -/
theorem free_dsm_array_no_coalescing_witness :
    sizeofBlockHeader ≤ arena_3_1.cfg.block_size ∧
    handle_3.offset = 0 * arena_3_1.cfg.block_size ∧
    handle_1.offset = (0 + 3) * arena_3_1.cfg.block_size ∧
    ∀ j, j < 4 →
      is_free ((free_dsm_array (free_dsm_array arena_3_1 handle_3).1 handle_1).1.header j)
        = true ∧
      get_length ((free_dsm_array (free_dsm_array arena_3_1 handle_3).1 handle_1).1.header j)
        = 1 := by
  refine ⟨by decide, by decide, by decide, ?_⟩
  intro j hj
  have h3 : get_length (arena_3_1.header 0) = 3 := by decide
  have h1 : get_length (arena_3_1.header (0 + 3)) = 1 := by decide
  have := (free_dsm_array_no_coalescing arena_3_1 handle_3 0 (by decide) (by decide)).2.2
    handle_1 (by rw [h3]; decide) j (Nat.zero_le j) (by rw [h3, h1]; omega)
  exact this

/-! ## Claim C6: resize preserves the payload -/

/-- Claim C6.  For a live handle of a well-formed arena (table and request
within the 31-bit run-length field) `resize_dsm_array` returns once the fuel
exceeds the request; afterwards the handle has `elem_count = new_elem_count`,
its offset is the start of a block whose header is used and whose run has
capacity at least `entry_size * new_elem_count`, and the first
`min(old_count, new_elem_count) * entry_size` bytes of its payload are the
bytes the payload held before the call. -/
theorem resize_dsm_array_preserves_payload (st : Arena) (arr : DsmArray) (s : Nat)
    (entry_size new_elem_count fuel : Nat) (hwf : WF st) (hlive : Live st arr s)
    (hbc : st.cfg.blocks_count < 2 ^ 31) (hsz : entry_size * new_elem_count < 2 ^ 31)
    (hfuel : entry_size * new_elem_count + 1 ≤ fuel) :
    ∃ st' arr', resize_dsm_array fuel st arr entry_size new_elem_count = some (st', arr') ∧
      arr'.elem_count = new_elem_count ∧
      (∃ p, arr'.offset = p * st'.cfg.block_size ∧ is_free (st'.header p) = false ∧
        entry_size * new_elem_count
          ≤ get_length (st'.header p) * st'.cfg.block_size - sizeofBlockHeader) ∧
      (∀ j, j < min arr.elem_count new_elem_count * entry_size →
        st'.mem (array_data arr' + j) = st.mem (array_data arr + j)) := by
  have hwf1 := free_WF st arr s hwf hlive
  obtain ⟨st2, arr2, p, k, halloc, hok⟩ :=
    alloc_total (free_dsm_array st arr).1 (free_dsm_array st arr).2 entry_size new_elem_count
      hwf1 fuel hfuel
  have h8 := hwf.hdr_le
  simp only [sizeofBlockHeader] at h8
  have hbs2 : st2.cfg.block_size = st.cfg.block_size := hok.bs_eq
  have hoff2 : arr2.offset = p * st.cfg.block_size := hok.off
  have hhdr2 : load64 st2.mem (p * st.cfg.block_size) = k % 2 ^ 64 := hok.hdr_eq
  have hcap2 : entry_size * new_elem_count + 8 ≤ k * st.cfg.block_size := hok.cap
  have hkb : (k - 1) * st.cfg.block_size < entry_size * new_elem_count + 8 ∨
      k ≤ st.cfg.blocks_count := hok.k_bound
  refine ⟨⟨st2.cfg, memcpy st2.mem (array_data arr2)
      (read_bytes st.mem (array_data arr) (arr.elem_count * entry_size))⟩, arr2, ?_, hok.cnt,
    ⟨p, ?_, ?_⟩, ?_⟩
  · unfold resize_dsm_array
    simp only [halloc]
  · show arr2.offset = p * st2.cfg.block_size
    rw [hbs2]; exact hoff2
  · -- the header of the new run survives the copy and is a used header
    have hk : k < 2 ^ 31 := by
      rcases hkb with hb | hb
      · have : (k - 1) * 8 ≤ (k - 1) * st.cfg.block_size := Nat.mul_le_mul_left _ h8
        omega
      · omega
    have hhdr : Arena.header ⟨st2.cfg, memcpy st2.mem (array_data arr2)
        (read_bytes st.mem (array_data arr) (arr.elem_count * entry_size))⟩ p = k := by
      show load64 (memcpy st2.mem _ _) (p * st2.cfg.block_size) = k
      rw [hbs2]
      have e : load64 (memcpy st2.mem (array_data arr2)
          (read_bytes st.mem (array_data arr) (arr.elem_count * entry_size)))
          (p * st.cfg.block_size) = load64 st2.mem (p * st.cfg.block_size) := by
        apply load64_congr
        intro x h1 h2
        apply memcpy_outside
        left
        unfold array_data
        simp only [sizeofBlockHeader]
        omega
      rw [e, hhdr2]
      exact Nat.mod_eq_of_lt (lt_trans hk (by decide))
    rw [hhdr]
    refine ⟨is_free_of_lt k hk, ?_⟩
    rw [get_length_of_lt k hk]
    show entry_size * new_elem_count ≤ k * st2.cfg.block_size - sizeofBlockHeader
    rw [hbs2]
    simp only [sizeofBlockHeader]
    omega
  · intro j hj
    have hlt : j < arr.elem_count * entry_size := by
      have : min arr.elem_count new_elem_count * entry_size ≤ arr.elem_count * entry_size :=
        Nat.mul_le_mul_right _ (Nat.min_le_left _ _)
      omega
    show memcpy st2.mem (array_data arr2) _ (array_data arr2 + j) = _
    rw [memcpy_inside _ _ _ j (by rw [read_bytes_length]; exact hlt),
      read_bytes_getD _ _ _ j hlt]

/-! ## Claim C4: stable offsets under growth -/

/-- Claim C6 at an example: resizing the three-block handle of `arena_3_1`
from 100 to 10 one-byte elements. -/
theorem resize_dsm_array_preserves_payload_witness :
    WF arena_3_1 ∧ Live arena_3_1 handle_3 0 ∧ arena_3_1.cfg.blocks_count < 2 ^ 31 ∧
    1 * 10 < 2 ^ 31 ∧ 1 * 10 + 1 ≤ 11 ∧
    ∃ st' arr', resize_dsm_array 11 arena_3_1 handle_3 1 10 = some (st', arr') ∧
      arr'.elem_count = 10 ∧
      (∃ p, arr'.offset = p * st'.cfg.block_size ∧ is_free (st'.header p) = false ∧
        1 * 10 ≤ get_length (st'.header p) * st'.cfg.block_size - sizeofBlockHeader) ∧
      (∀ j, j < min handle_3.elem_count 10 * 1 →
        st'.mem (array_data arr' + j) = arena_3_1.mem (array_data handle_3 + j)) := by
  have ht : Tiles (hdr arena_3_1.cfg.block_size arena_3_1.mem) 0 arena_3_1.cfg.blocks_count :=
    Tiles.used (by decide) (by decide)
      (Tiles.used (by decide) (by decide) (Tiles.refl _))
  have hwf : WF arena_3_1 := ⟨by decide, by decide, Tiles.refl _, ht⟩
  have hlive : Live arena_3_1 handle_3 0 :=
    ⟨by decide, Tiles.refl _, ht, by decide, by decide, by decide⟩
  exact ⟨hwf, hlive, by decide, by decide, by decide,
    resize_dsm_array_preserves_payload arena_3_1 handle_3 0 1 10 11 hwf hlive
      (by decide) (by decide) (by decide)⟩

/-! ## Claim C7: create or attach -/

/-- Claim C7.  `init_dsm_segment(blocks_count, block_size)`, for a block size
that holds a header, returns true exactly when the recorded
`segment_handle` was 0 or `dsm_attach` returned nothing.  In that case the
configuration has `first_free = 0` and the two arguments, and every header
`0 .. blocks_count - 1` of the created segment is free with run length 1.
When it returns false the configuration is unchanged and the mapped segment
is the attached one, headers untouched. -/
theorem init_dsm_segment_create_or_attach (host : DsmHost) (ret0 : Bool) (st : DsmState)
    (blocks_count block_size : Nat) (hbs : sizeofBlockHeader ≤ block_size) :
    ((init_dsm_segment host ret0 st blocks_count block_size).1 = true ↔
      (st.cfg.segment_handle = 0 ∨ host.dsm_attach st.cfg.segment_handle = none)) ∧
    ((init_dsm_segment host ret0 st blocks_count block_size).1 = true →
      (init_dsm_segment host ret0 st blocks_count block_size).2.cfg.first_free = 0 ∧
      (init_dsm_segment host ret0 st blocks_count block_size).2.cfg.block_size = block_size ∧
      (init_dsm_segment host ret0 st blocks_count block_size).2.cfg.blocks_count
        = blocks_count ∧
      ∃ m, (init_dsm_segment host ret0 st blocks_count block_size).2.segment = some m ∧
        ∀ i, i < blocks_count →
          is_free (hdr block_size m i) = true ∧ get_length (hdr block_size m i) = 1) ∧
    ((init_dsm_segment host ret0 st blocks_count block_size).1 = false →
      (init_dsm_segment host ret0 st blocks_count block_size).2.cfg = st.cfg ∧
      ∃ m, host.dsm_attach st.cfg.segment_handle = some m ∧
        (init_dsm_segment host ret0 st blocks_count block_size).2.segment = some m) := by
  have hcreated : ∀ seg : Mem, ∀ i, i < blocks_count →
      is_free (hdr block_size (init_dsm_table block_size 0 blocks_count seg) i) = true ∧
      get_length (hdr block_size (init_dsm_table block_size 0 blocks_count seg) i) = 1 := by
    intro seg i hi
    have : hdr block_size (init_dsm_table block_size 0 blocks_count seg) i = FREE_HEADER := by
      unfold init_dsm_table
      exact init_loop_header_in block_size hbs _ 0 seg i (Nat.zero_le _) (by omega)
    rw [this]
    exact ⟨is_free_FREE_HEADER, get_length_FREE_HEADER⟩
  by_cases h0 : st.cfg.segment_handle = 0
  · have e : init_dsm_segment host ret0 st blocks_count block_size =
        (true, { cfg := { segment_handle := host.dsm_segment_handle, first_free := 0,
                          block_size := block_size, blocks_count := blocks_count },
                 segment := some (init_dsm_table block_size 0 blocks_count
                   (host.dsm_create (block_size * blocks_count))) }) := by
      simp [init_dsm_segment, h0]
    rw [e]
    refine ⟨⟨fun _ => Or.inl h0, fun _ => rfl⟩, fun _ => ⟨rfl, rfl, rfl, _, rfl, hcreated _⟩, ?_⟩
    intro h; cases h
  · cases ha : host.dsm_attach st.cfg.segment_handle with
    | none =>
      have e : init_dsm_segment host ret0 st blocks_count block_size =
          (true, { cfg := { segment_handle := host.dsm_segment_handle, first_free := 0,
                            block_size := block_size, blocks_count := blocks_count },
                   segment := some (init_dsm_table block_size 0 blocks_count
                     (host.dsm_create (block_size * blocks_count))) }) := by
        simp [init_dsm_segment, h0, ha]
      rw [e]
      refine ⟨⟨fun _ => Or.inr rfl, fun _ => rfl⟩,
        fun _ => ⟨rfl, rfl, rfl, _, rfl, hcreated _⟩, ?_⟩
      intro h; cases h
    | some m =>
      have e : init_dsm_segment host ret0 st blocks_count block_size =
          (false, { cfg := st.cfg, segment := some m }) := by
        simp [init_dsm_segment, h0, ha]
      rw [e]
      refine ⟨⟨fun h => (by cases h), fun h => ?_⟩, fun h => (by cases h),
        fun _ => ⟨rfl, m, rfl, rfl⟩⟩
      rcases h with h | h
      · exact absurd h h0
      · cases h

/-- Claim C7 at an example: a host without a segment, four blocks of 64 bytes. -/
theorem init_dsm_segment_create_or_attach_witness :
    sizeofBlockHeader ≤ 64 ∧
    (init_dsm_segment host_fresh false ⟨cfg_initial, none⟩ 4 64).1 = true ∧
    (init_dsm_segment host_fresh false ⟨cfg_initial, none⟩ 4 64).2.cfg.first_free = 0 ∧
    ∃ m, (init_dsm_segment host_fresh false ⟨cfg_initial, none⟩ 4 64).2.segment = some m ∧
      ∀ i, i < 4 → is_free (hdr 64 m i) = true ∧ get_length (hdr 64 m i) = 1 := by
  have h := init_dsm_segment_create_or_attach host_fresh false ⟨cfg_initial, none⟩ 4 64
    (by decide)
  have ht : (init_dsm_segment host_fresh false ⟨cfg_initial, none⟩ 4 64).1 = true :=
    h.1.2 (Or.inl rfl)
  exact ⟨by decide, ht, (h.2.1 ht).1, (h.2.1 ht).2.2.2⟩

/-! ## Claims C1, C2, C3: where the allocator breaks its contract -/

/-- Claim C1, evaluated on the code.  After allocating `x`, `a`, `h`, freeing
`x`, writing ten bytes 7 through `a` and shrinking `h` from 100 to 10
elements, the view of the live handle `a` (offset 64) holds ten bytes 9:
`resize_dsm_array` copies the old 100 bytes into the new one-block run at
offset 0 and overruns block 1, the run of `a`. -/
theorem round_trip_broken_by_resize :
    round_trip_trace =
      some (List.replicate 10 7, List.replicate 10 9,
            { offset := 64, elem_count := 10, entry_size := 1 },
            { offset := 0, elem_count := 10, entry_size := 1 }) := by
  decide!

/-- Claim C2, evaluated on the code.  With the only block of the table in use
by handle `a` (offset 0) and the hint on it, a request of zero elements
returns without growing, with offset 0 again: block 0 was not free before the
marking step, and its header is rewritten. -/
theorem alloc_dsm_array_zero_size_takes_used_block :
    zero_size_trace =
      some ({ offset := 0, elem_count := 10, entry_size := 4 }, false,
            { offset := 0, elem_count := 0, entry_size := 4 }, 1) := by
  decide!

/-- Claim C3, evaluated on the code.  In the table `[used(1), free]` with the
hint on block 0, a request of zero elements fits without growth; the lowest
free block from the hint is block 1, but the handle returned has offset 0,
the used block of handle `a`, and block 1 stays free. -/
theorem alloc_dsm_array_zero_size_not_first_fit :
    zero_size_first_fit_trace =
      some ({ offset := 0, elem_count := 10, entry_size := 4 },
            { offset := 0, elem_count := 0, entry_size := 4 }, [0, 2],
            [false, true, true]) := by
  decide!

/-- The defect behind the evaluations of C2 and C3, in general: on every
well-formed arena whose block at `first_free` is the start of a used run, a
request of size zero returns a handle with offset 0 and overwrites the header
of block 0, whatever block 0 is. -/
theorem alloc_dsm_array_zero_size_defect (st : Arena) (arr : DsmArray) (es ec fuel : Nat)
    (hsz : es * ec = 0) (hwf : WF st) (hlt : st.cfg.first_free < st.cfg.blocks_count)
    (hu : is_free (st.header st.cfg.first_free) = false) :
    ∃ st' arr', alloc_dsm_array fuel st arr es ec = some (st', arr') ∧ arr'.offset = 0 ∧
      st'.mem = store64 st.mem 0
        (st.cfg.first_free + get_length (st.header st.cfg.first_free)) := by
  obtain ⟨ff, hff⟩ := alloc_zero_used st arr es ec hsz hwf hlt hu fuel
  refine ⟨_, _, hff, rfl, ?_⟩
  rcases hwf.hi.step hlt with ⟨hf, _⟩ | ⟨_, hl, _⟩
  · rw [show hdr st.cfg.block_size st.mem st.cfg.first_free = st.header st.cfg.first_free
      from rfl, hu] at hf
    cases hf
  · show store64 st.mem (0 * st.cfg.block_size)
        (st.cfg.first_free + get_length (hdr st.cfg.block_size st.mem st.cfg.first_free)
          - 1 - 0 + 1)
      = store64 st.mem 0
        (st.cfg.first_free + get_length (hdr st.cfg.block_size st.mem st.cfg.first_free))
    have e : st.cfg.first_free + get_length (hdr st.cfg.block_size st.mem st.cfg.first_free)
          - 1 - 0 + 1
        = st.cfg.first_free + get_length (hdr st.cfg.block_size st.mem st.cfg.first_free) := by
      omega
    rw [Nat.zero_mul, e]

/-! ## What `alloc_dsm_array` guarantees for requests of positive size -/

/-- Soundness and first fit for a request of positive size on a well-formed
arena.  When `alloc_dsm_array` returns, the table was grown `n` times; in the
grown table `g` the handle's offset is `start * block_size`, the `k` blocks
`start .. start + k - 1` were free blocks at or after `first_free` before the
marking step, their capacity reaches the request, `k` is the least number of
blocks from `start` that does, no stretch of free blocks that starts below
`start` reaches it, the header of block `start` now holds `k`, and the
handle carries the requested sizes. -/
theorem alloc_dsm_array_sound_first_fit (st : Arena) (arr : DsmArray) (es ec fuel : Nat)
    (st' : Arena) (arr' : DsmArray) (hwf : WF st) (hsz : 0 < es * ec)
    (h : alloc_dsm_array fuel st arr es ec = some (st', arr')) :
    ∃ n start k, 1 ≤ k ∧
      arr'.offset = start * st.cfg.block_size ∧
      (∀ j, start ≤ j → j < start + k →
        FreeBlock (grow_iter n st).cfg (grow_iter n st).mem j) ∧
      es * ec ≤ k * st.cfg.block_size - sizeofBlockHeader ∧
      (k - 1) * st.cfg.block_size - sizeofBlockHeader < es * ec ∧
      (∀ s k1, s < start → ¬ Fit (grow_iter n st).cfg (grow_iter n st).mem (es * ec) s k1) ∧
      st'.header start = k % 2 ^ 64 ∧
      (k < 2 ^ 31 → is_free (st'.header start) = false ∧ get_length (st'.header start) = k) ∧
      arr'.elem_count = ec ∧ arr'.entry_size = es ∧
      st'.cfg.blocks_count = st.cfg.blocks_count * 2 ^ n := by
  obtain ⟨n, r, ff, _, _, _, hfound, _, hout⟩ :=
    alloc_result_pos es ec hsz fuel st arr (st', arr') hwf h
  have hbs : (grow_iter n st).cfg.block_size = st.cfg.block_size := by rw [grow_iter_cfg]
  have hst : st' = (alloc_outcome (grow_iter n st) r ff es ec).1 := by rw [← hout]
  have harr : arr' = (alloc_outcome (grow_iter n st) r ff es ec).2 := by rw [← hout]
  have h1 := hfound.tot
  have h2 := hfound.enough
  have h3 := hfound.least
  have h4 := hfound.le
  rw [hbs] at h1 h3
  simp only [sizeofBlockHeader] at h1 h3 ⊢
  have hhdr : st'.header r.min_pos = (r.max_pos - r.min_pos + 1) % 2 ^ 64 := by
    rw [hst]
    show load64 (store64 (grow_iter n st).mem _ _) (r.min_pos * (grow_iter n st).cfg.block_size)
      = _
    rw [load64_store64_same]
  refine ⟨n, r.min_pos, r.max_pos - r.min_pos + 1, by omega, ?_, ?_, ?_, ?_, hfound.first,
    hhdr, ?_, ?_, ?_, ?_⟩
  · rw [harr]; show r.offset = _; rw [hfound.off, hbs]
  · intro j j1 j2; exact hfound.free j j1 (by omega)
  · rw [show r.max_pos - r.min_pos + 1 = r.max_pos + 1 - r.min_pos by omega]; omega
  · rw [show r.max_pos - r.min_pos + 1 - 1 = r.max_pos - r.min_pos by omega]; omega
  · intro hk
    rw [hhdr, Nat.mod_eq_of_lt (lt_trans hk (by decide))]
    exact ⟨is_free_of_lt _ hk, get_length_of_lt _ hk⟩
  · rw [harr]; rfl
  · rw [harr]; rfl
  · rw [hst]; show (grow_iter n st).cfg.blocks_count = _; rw [grow_iter_cfg]

/-- The first-fit example of the specification: in the table
`[used(2), free, free, free, used(1)]` with block size 64, a request of 130
bytes returns the handle at offset `2 * 64`, the header of block 2 becomes a
used header of run length 3, and the table is not grown. -/
theorem first_fit_example :
    (alloc_dsm_array 0 arena_first_fit null_array 1 130).map
        (fun r => (r.2, r.1.header 2, r.1.cfg.blocks_count, r.1.header 0, r.1.header 5))
      = some ({ offset := 128, elem_count := 130, entry_size := 1 }, 3, 6, 2, 1) := by
  decide!

/-! ## Claim C8: selection and unknown identifiers -/

theorem hash_search_find_some (tbl : ChildrenTable) (key i : Nat)
    (h : hash_search_find tbl key = some i) :
    ∃ c, tbl[i]? = some c ∧ c.relid = key := by
  induction tbl generalizing i with
  | nil => simp [hash_search_find] at h
  | cons c cs ih =>
    unfold hash_search_find at h
    by_cases hc : c.relid = key
    · rw [if_pos hc] at h
      have : i = 0 := (Option.some.inj h).symm
      subst this
      exact ⟨c, by simp, hc⟩
    · rw [if_neg hc] at h
      cases hf : hash_search_find cs key with
      | none => rw [hf] at h; cases h
      | some j =>
        rw [hf] at h
        have : i = j + 1 := (Option.some.inj h).symm
        subst this
        obtain ⟨c1, h1, h2⟩ := ih j hf
        exact ⟨c1, by simpa using h1, h2⟩

theorem hash_search_find_none (tbl : ChildrenTable) (key : Nat) :
    hash_search_find tbl key = none ↔ key ∉ pool_keys tbl := by
  induction tbl with
  | nil => simp [hash_search_find, pool_keys]
  | cons c cs ih =>
    unfold hash_search_find
    by_cases hc : c.relid = key
    · simp [hc, pool_keys]
    · rw [if_neg hc]
      have hne : ¬ key = c.relid := fun e => hc e.symm
      simp only [Option.map_eq_none', ih, pool_keys, List.map_cons, List.mem_cons, hne,
        false_or]

theorem select_loop_spec (tbl : ChildrenTable) (parts : List Nat) (v : SelectVars) :
    (select_required_plans_loop tbl parts v).result
      = v.result ++ parts.filterMap (hash_search_find tbl) ∧
    (select_required_plans_loop tbl parts v).used
      = v.used + (parts.filterMap (hash_search_find tbl)).length := by
  induction parts generalizing v with
  | nil => simp [select_required_plans_loop]
  | cons part parts ih =>
    unfold select_required_plans_loop
    cases hf : hash_search_find tbl part with
    | none =>
      simp only [List.filterMap_cons, hf]
      exact ih v
    | some child =>
      simp only [List.filterMap_cons, hf]
      obtain ⟨h1, h2⟩ := ih
        { (if v.allocated ≤ v.used then { v with allocated := v.allocated * ALLOC_EXP } else v)
            with result := (if v.allocated ≤ v.used then
                  { v with allocated := v.allocated * ALLOC_EXP } else v).result ++ [child],
                 used := (if v.allocated ≤ v.used then
                  { v with allocated := v.allocated * ALLOC_EXP } else v).used + 1 }
      rw [h1, h2]
      by_cases ha : v.allocated ≤ v.used <;> simp [ha] <;> omega

theorem filterMap_find_keys (tbl : ChildrenTable) (parts : List Nat) :
    (parts.filterMap (hash_search_find tbl)).map (fun ptr => (tbl[ptr]?).map (fun c => c.relid))
      = (parts.filter (fun p => decide (p ∈ pool_keys tbl))).map some := by
  induction parts with
  | nil => rfl
  | cons part parts ih =>
    cases hf : hash_search_find tbl part with
    | none =>
      have hk := (hash_search_find_none tbl part).1 hf
      simp only [List.filterMap_cons, hf, List.filter_cons, hk, decide_False]
      exact ih
    | some i =>
      have hk : part ∈ pool_keys tbl := by
        by_contra hk
        rw [(hash_search_find_none tbl part).2 hk] at hf
        cases hf
      obtain ⟨c, h1, h2⟩ := hash_search_find_some tbl part i hf
      simp only [List.filterMap_cons, hf, List.filter_cons, hk, decide_True, if_true,
        List.map_cons, h1, Option.map_some', h2, ih]

/-- Claim C8.  `select_required_plans` is total; its result lists the pool
entries found by `hash_search` for the input identifiers, in input order:
the keys of the returned candidates are exactly the input identifiers that
are keys of the pool, `*nres` is their number, and an identifier absent from
the pool contributes nothing wherever it stands in the input.  For the pool
`{10, 11, 12}` and the input `[12, 10]` the result is the candidate of 12 then
the candidate of 10. -/
theorem select_required_plans_selects (children_table : ChildrenTable) (parts : List Nat) :
    (select_required_plans children_table parts).1
      = parts.filterMap (hash_search_find children_table) ∧
    (select_required_plans children_table parts).1.map
        (fun ptr => (children_table[ptr]?).map (fun c => c.relid))
      = (parts.filter (fun p => decide (p ∈ pool_keys children_table))).map some ∧
    (select_required_plans children_table parts).2
      = (select_required_plans children_table parts).1.length ∧
    (select_required_plans children_table parts).2
      = (parts.filter (fun p => decide (p ∈ pool_keys children_table))).length ∧
    (∀ l1 l2 x, x ∉ pool_keys children_table →
      select_required_plans children_table (l1 ++ x :: l2)
        = select_required_plans children_table (l1 ++ l2)) ∧
    select_required_plans pool_10_11_12 [12, 10] = ([2, 0], 2) := by
  have hsel : ∀ ps, select_required_plans children_table ps
      = (ps.filterMap (hash_search_find children_table),
         (ps.filterMap (hash_search_find children_table)).length) := by
    intro ps
    obtain ⟨h1, h2⟩ := select_loop_spec children_table ps
      { allocated := INITIAL_ALLOC_NUM, used := 0, result := [] }
    unfold select_required_plans
    simp only [h1, h2, List.nil_append, Nat.zero_add]
  have hkeys := filterMap_find_keys children_table parts
  refine ⟨by rw [hsel], by rw [hsel]; exact hkeys, by rw [hsel], ?_, ?_, by decide⟩
  · rw [hsel]
    have := congrArg List.length hkeys
    simpa using this
  · intro l1 l2 x hx
    rw [hsel, hsel]
    have hn := (hash_search_find_none children_table x).2 hx
    simp [List.filterMap_append, List.filterMap_cons, hn]

/-! ## Claim C10: the reset policy -/

/-- Claim C10 as stated fails on the code, in both directions.  A selected
child whose own `chgParam` is not empty is not reset although the scan node
carries no changed parameters; and a child whose plan depends on no parameter
is reset although the scan node carries the changed parameter 2. -/
theorem reset_policy_counterexample :
    (scan_state_one_active.chgParam = none ∧
      ExecEvent.rescan 0 ∉
        (transform_plans_into_states host_plain scan_state_one_active [0] 1
          world_child_pending).2.log) ∧
    (bms_is_empty scan_state_with_params.chgParam = false ∧
      ExecEvent.rescan 0 ∈
        (transform_plans_into_states host_no_params scan_state_with_params [2] 1
          world_empty).2.log) := by
  decide

theorem child_plan_state_chgParam (host : Executor) (s : RuntimeAppendState) (w : ExecWorld)
    (ptr : Nat) (c : ChildScanCommonData) :
    (child_plan_state host s w ptr c).2.1.chgParam = s.chgParam := by
  unfold child_plan_state
  by_cases h : c.content_type ≠ ChildContentType.CHILD_PLAN_STATE
  · rw [if_pos h]
  · rw [if_neg h]

theorem transform_step_world (host : Executor) (st : RuntimeAppendState × ExecWorld)
    (ptr : Nat) (c : ChildScanCommonData) (h : st.1.children_table[ptr]? = some c) :
    (transform_step host st ptr).2 =
      rescan_child host
        (propagate_params host st.1.chgParam (child_plan_state host st.1 st.2 ptr c).2.2
          (child_plan_state host st.1 st.2 ptr c).1)
        (child_plan_state host st.1 st.2 ptr c).1 := by
  unfold transform_step
  simp only [h]
  rw [child_plan_state_chgParam]

/-- Claim C10, amended.  For the candidate processed by one iteration of
`transform_plans_into_states`, with `ps` its executor state (built now or
reused): `UpdateChangedParamSet(ps, chgParam)` is called exactly when the scan
node's `chgParam` is not `NULL`, and `ExecReScan(ps)` is called exactly when
the child's own `chgParam` is empty after that step; these are the only host
calls after `ExecInitNode`.  So with no changed parameters on the node the
child is reset exactly when its own changed-parameter set is empty. -/
theorem transform_step_reset_policy (host : Executor) (scan_state : RuntimeAppendState)
    (w : ExecWorld) (childptr : Nat) (child : ChildScanCommonData)
    (hchild : scan_state.children_table[childptr]? = some child) :
    ∃ (ps : Nat) (w1 w2 : ExecWorld),
      (ps, w1) = ((child_plan_state host scan_state w childptr child).1,
                  (child_plan_state host scan_state w childptr child).2.2) ∧
      w2 = propagate_params host scan_state.chgParam w1 ps ∧
      w1.log = w.log ++
        (if child.content_type ≠ ChildContentType.CHILD_PLAN_STATE
         then [ExecEvent.init child.content ps] else []) ∧
      w2.log = w1.log ++
        (if scan_state.chgParam.isSome then [ExecEvent.update ps scan_state.chgParam]
         else []) ∧
      (transform_step host (scan_state, w) childptr).2.log = w2.log ++
        (if bms_is_empty (w2.deref ps).chgParam then [ExecEvent.rescan ps] else []) ∧
      (scan_state.chgParam = none →
        (transform_step host (scan_state, w) childptr).2.log = w1.log ++
          (if bms_is_empty (w1.deref ps).chgParam then [ExecEvent.rescan ps] else [])) := by
  have hw := transform_step_world host (scan_state, w) childptr child hchild
  refine ⟨_, _, _, rfl, rfl, ?_, ?_, ?_, ?_⟩
  · unfold child_plan_state
    by_cases h : child.content_type = ChildContentType.CHILD_PLAN_STATE
    · simp [h]
    · simp [h]
  · unfold propagate_params
    by_cases h : scan_state.chgParam.isSome = true
    · simp [h]
    · simp [h]
  · rw [hw]
    show (rescan_child host _ _).log = _
    unfold rescan_child
    by_cases h : bms_is_empty
        ((propagate_params host scan_state.chgParam
          (child_plan_state host scan_state w childptr child).2.2
          (child_plan_state host scan_state w childptr child).1).deref
          (child_plan_state host scan_state w childptr child).1).chgParam = true
    · simp [h]
    · simp [h]
  · intro hnone
    rw [hw]
    show (rescan_child host (propagate_params host scan_state.chgParam _ _) _).log = _
    have hp : propagate_params host scan_state.chgParam
        (child_plan_state host scan_state w childptr child).2.2
        (child_plan_state host scan_state w childptr child).1
        = (child_plan_state host scan_state w childptr child).2.2 := by
      unfold propagate_params
      simp [hnone]
    rw [hp]
    unfold rescan_child
    by_cases h : bms_is_empty
        ((child_plan_state host scan_state w childptr child).2.2.deref
          (child_plan_state host scan_state w childptr child).1).chgParam = true
    · simp [h]
    · simp [h]

/-- Claim C10 (amended) at the state of the counterexample: the node carries
no changed parameters, the child's own set is `{1}`, and no host call is made. -/
theorem transform_step_reset_policy_witness :
    scan_state_one_active.children_table[0]? =
      some { relid := 10, content_type := ChildContentType.CHILD_PLAN_STATE, content := 0,
             original_order := 0 } ∧
    (transform_step host_plain (scan_state_one_active, world_child_pending) 0).2.log = [] := by
  refine ⟨by decide, ?_⟩
  obtain ⟨ps, w1, w2, h1, _, _, _, _, h5⟩ :=
    transform_step_reset_policy host_plain scan_state_one_active world_child_pending 0
      { relid := 10, content_type := ChildContentType.CHILD_PLAN_STATE, content := 0,
        original_order := 0 } (by decide)
  have hps : ps = 0 := congrArg Prod.fst h1
  have hw1 : w1 = world_child_pending := congrArg Prod.snd h1
  rw [h5 rfl, hps, hw1]
  decide

/-! ## Claim C9: a repeated selection reuses the executor states -/

theorem list_set_same {α : Type} (l : List α) (i : Nat) (x : α) (h : l[i]? = some x) :
    l.set i x = l := by
  induction l generalizing i with
  | nil => rfl
  | cons a as ih =>
    cases i with
    | zero =>
      simp only [List.getElem?_cons_zero, Option.some.injEq] at h
      rw [h]; rfl
    | succ i =>
      simp only [List.getElem?_cons_succ] at h
      simp only [List.set_cons_succ, ih i h]

theorem lt_length_of_getElem? {α : Type} (l : List α) (i : Nat) (x : α) (h : l[i]? = some x) :
    i < l.length := by
  by_contra hc
  rw [List.getElem?_eq_none (by omega)] at h
  cases h

theorem propagate_params_facts (host : Executor) (chg : Bitmapset) (w : ExecWorld) (ps : Nat) :
    (propagate_params host chg w ps).heap.length = w.heap.length ∧
    ∃ evs, (propagate_params host chg w ps).log = w.log ++ evs ∧ NoInit evs := by
  unfold propagate_params
  by_cases h : chg.isSome = true
  · rw [if_pos h]
    refine ⟨by simp, [ExecEvent.update ps chg], rfl, ?_⟩
    intro e he plan q
    simp only [List.mem_singleton] at he
    rw [he]; intro hc; cases hc
  · rw [if_neg h]
    exact ⟨rfl, [], by simp, fun e he => by cases he⟩

theorem rescan_child_facts (host : Executor) (w : ExecWorld) (ps : Nat) :
    (rescan_child host w ps).heap.length = w.heap.length ∧
    ∃ evs, (rescan_child host w ps).log = w.log ++ evs ∧ NoInit evs := by
  unfold rescan_child
  by_cases h : bms_is_empty (w.deref ps).chgParam = true
  · rw [if_pos h]
    refine ⟨by simp, [ExecEvent.rescan ps], rfl, ?_⟩
    intro e he plan q
    simp only [List.mem_singleton] at he
    rw [he]; intro hc; cases hc
  · rw [if_neg h]
    exact ⟨rfl, [], by simp, fun e he => by cases he⟩

/-- One iteration on a candidate that already holds an executor state leaves
the scan state as it is, creates no `PlanState` and calls no `ExecInitNode`. -/
theorem transform_step_active (host : Executor) (st : RuntimeAppendState × ExecWorld)
    (ptr : Nat) (c : ChildScanCommonData) (h : st.1.children_table[ptr]? = some c)
    (hs : c.content_type = ChildContentType.CHILD_PLAN_STATE) :
    (transform_step host st ptr).1 = st.1 ∧
    (transform_step host st ptr).2.heap.length = st.2.heap.length ∧
    ∃ evs, (transform_step host st ptr).2.log = st.2.log ++ evs ∧ NoInit evs := by
  have hcps : child_plan_state host st.1 st.2 ptr c = (c.content, st.1, st.2) := by
    unfold child_plan_state
    simp [hs]
  refine ⟨?_, ?_, ?_⟩
  · unfold transform_step
    simp only [h, hcps]
    have hc : ({ c with content := c.content } : ChildScanCommonData) = c := by cases c; rfl
    rw [hc, list_set_same _ _ _ h]
  · rw [transform_step_world host st ptr c h, hcps]
    rw [(rescan_child_facts host _ _).1, (propagate_params_facts host _ _ _).1]
  · rw [transform_step_world host st ptr c h, hcps]
    obtain ⟨e2, h2, n2⟩ := (rescan_child_facts host
      (propagate_params host st.1.chgParam st.2 c.content) c.content).2
    obtain ⟨e1, h1, n1⟩ := (propagate_params_facts host st.1.chgParam st.2 c.content).2
    refine ⟨e1 ++ e2, ?_, ?_⟩
    · rw [h2, h1, List.append_assoc]
    · intro e he
      rcases List.mem_append.1 he with h3 | h3
      · exact n1 e h3
      · exact n2 e h3

/-- The table after one iteration on a candidate that still holds a plan. -/
theorem transform_step_table_prepared (host : Executor) (st : RuntimeAppendState × ExecWorld)
    (ptr : Nat) (c : ChildScanCommonData) (h : st.1.children_table[ptr]? = some c)
    (hs : c.content_type ≠ ChildContentType.CHILD_PLAN_STATE) :
    (transform_step host st ptr).1 =
      { st.1 with
          children_table := st.1.children_table.set ptr
            { c with content := st.2.heap.length,
                     content_type := ChildContentType.CHILD_PLAN_STATE },
          custom_ps := st.1.custom_ps ++ [st.2.heap.length] } := by
  have hlt := lt_length_of_getElem? _ _ _ h
  have hcps : child_plan_state host st.1 st.2 ptr c =
      (st.2.heap.length,
       { st.1 with
           children_table := st.1.children_table.set ptr
             { c with content := st.2.heap.length,
                      content_type := ChildContentType.CHILD_PLAN_STATE },
           custom_ps := st.1.custom_ps ++ [st.2.heap.length] },
       { heap := st.2.heap ++ [host.ExecInitNode c.content],
         log := st.2.log ++ [ExecEvent.init c.content st.2.heap.length] }) := by
    unfold child_plan_state
    simp [hs]
  unfold transform_step
  simp only [h, hcps, List.getElem?_set_self hlt, List.set_set]

/-- The effect of one iteration on the table: keys and length are kept, a
candidate that holds an executor state keeps it, and the candidate processed
holds an executor state afterwards. -/
theorem transform_step_table (host : Executor) (st : RuntimeAppendState × ExecWorld)
    (ptr : Nat) :
    pool_keys (transform_step host st ptr).1.children_table = pool_keys st.1.children_table ∧
    (∀ (q : Nat) (c : ChildScanCommonData), st.1.children_table[q]? = some c →
      c.content_type = ChildContentType.CHILD_PLAN_STATE →
      (transform_step host st ptr).1.children_table[q]? = some c) ∧
    (∀ c : ChildScanCommonData, st.1.children_table[ptr]? = some c →
      ∃ c1, (transform_step host st ptr).1.children_table[ptr]? = some c1 ∧
        c1.content_type = ChildContentType.CHILD_PLAN_STATE) ∧
    (transform_step host st ptr).1.cur_plans = st.1.cur_plans ∧
    (transform_step host st ptr).1.ncur_plans = st.1.ncur_plans ∧
    (transform_step host st ptr).1.chgParam = st.1.chgParam := by
  cases h : st.1.children_table[ptr]? with
  | none =>
    have e : transform_step host st ptr = st := by
      unfold transform_step
      simp only [h]
    rw [e]
    exact ⟨rfl, fun q c hq _ => hq, fun c hc => (by cases hc), rfl, rfl, rfl⟩
  | some c =>
    by_cases hs : c.content_type = ChildContentType.CHILD_PLAN_STATE
    · rw [(transform_step_active host st ptr c h hs).1]
      exact ⟨rfl, fun q c1 hq _ => hq, fun c1 hc =>
        ⟨c, h, hs⟩, rfl, rfl, rfl⟩
    · have hlt := lt_length_of_getElem? _ _ _ h
      rw [transform_step_table_prepared host st ptr c h hs]
      refine ⟨?_, ?_, ?_, rfl, rfl, rfl⟩
      · show pool_keys (st.1.children_table.set ptr _) = _
        unfold pool_keys
        rw [List.map_set]
        apply list_set_same
        rw [List.getElem?_map, h]
        rfl
      · intro q c1 hq hc1
        show (st.1.children_table.set ptr _)[q]? = some c1
        by_cases hpq : ptr = q
        · subst hpq
          rw [h] at hq
          rw [Option.some.inj hq] at hs
          exact absurd hc1 hs
        · rw [List.getElem?_set_ne hpq]; exact hq
      · intro _ _
        refine ⟨{ c with content := st.2.heap.length,
                         content_type := ChildContentType.CHILD_PLAN_STATE }, ?_, rfl⟩
        show (st.1.children_table.set ptr _)[ptr]? = _
        rw [List.getElem?_set_self hlt]

theorem hash_search_find_keys (tbl : ChildrenTable) (key : Nat) :
    hash_search_find tbl key = find_key (pool_keys tbl) key := by
  induction tbl with
  | nil => rfl
  | cons c cs ih =>
    show (if c.relid = key then some 0 else (hash_search_find cs key).map (fun i => i + 1))
      = (if c.relid = key then some 0 else (find_key (pool_keys cs) key).map (fun i => i + 1))
    rw [ih]

theorem select_required_plans_eq (tbl : ChildrenTable) (parts : List Nat) :
    select_required_plans tbl parts
      = (parts.filterMap (hash_search_find tbl),
         (parts.filterMap (hash_search_find tbl)).length) := by
  obtain ⟨h1, h2⟩ := select_loop_spec tbl parts
    { allocated := INITIAL_ALLOC_NUM, used := 0, result := [] }
  unfold select_required_plans
  simp only [h1, h2, List.nil_append, Nat.zero_add]

theorem select_required_plans_congr (tbl tbl1 : ChildrenTable) (parts : List Nat)
    (h : pool_keys tbl1 = pool_keys tbl) :
    select_required_plans tbl1 parts = select_required_plans tbl parts := by
  have e : hash_search_find tbl1 = hash_search_find tbl := by
    funext key
    rw [hash_search_find_keys, hash_search_find_keys, h]
  rw [select_required_plans_eq, select_required_plans_eq, e]

theorem select_required_plans_valid (tbl : ChildrenTable) (parts : List Nat) :
    ∀ p ∈ (select_required_plans tbl parts).1, p < tbl.length := by
  intro p hp
  rw [select_required_plans_eq] at hp
  obtain ⟨key, _, hk⟩ := List.mem_filterMap.1 hp
  obtain ⟨c, hc, _⟩ := hash_search_find_some tbl key p hk
  exact lt_length_of_getElem? _ _ _ hc

theorem pool_keys_length (tbl tbl1 : ChildrenTable) (h : pool_keys tbl1 = pool_keys tbl) :
    tbl1.length = tbl.length := by
  have := congrArg List.length h
  simpa [pool_keys] using this

theorem transform_fold_keeps (host : Executor) (ptrs : List Nat) :
    ∀ st : RuntimeAppendState × ExecWorld,
      pool_keys (ptrs.foldl (transform_step host) st).1.children_table
        = pool_keys st.1.children_table ∧
      (∀ (q : Nat) (c : ChildScanCommonData), st.1.children_table[q]? = some c →
        c.content_type = ChildContentType.CHILD_PLAN_STATE →
        (ptrs.foldl (transform_step host) st).1.children_table[q]? = some c) ∧
      (ptrs.foldl (transform_step host) st).1.cur_plans = st.1.cur_plans ∧
      (ptrs.foldl (transform_step host) st).1.ncur_plans = st.1.ncur_plans := by
  induction ptrs with
  | nil => intro st; exact ⟨rfl, fun q c hq _ => hq, rfl, rfl⟩
  | cons p ps ih =>
    intro st
    obtain ⟨k1, a1, _, c1, n1, _⟩ := transform_step_table host st p
    obtain ⟨k2, a2, c2, n2⟩ := ih (transform_step host st p)
    refine ⟨?_, ?_, ?_, ?_⟩
    · show pool_keys (ps.foldl _ (transform_step host st p)).1.children_table = _
      rw [k2, k1]
    · intro q c hq hc
      exact a2 q c (a1 q c hq hc) hc
    · show (ps.foldl _ (transform_step host st p)).1.cur_plans = _
      rw [c2, c1]
    · show (ps.foldl _ (transform_step host st p)).1.ncur_plans = _
      rw [n2, n1]

/-- After the loop every candidate it processed holds an executor state. -/
theorem transform_fold_activates (host : Executor) (ptrs : List Nat) :
    ∀ st : RuntimeAppendState × ExecWorld,
      (∀ p ∈ ptrs, p < st.1.children_table.length) →
      ∀ p ∈ ptrs, ∃ c, (ptrs.foldl (transform_step host) st).1.children_table[p]? = some c ∧
        c.content_type = ChildContentType.CHILD_PLAN_STATE := by
  induction ptrs with
  | nil => intro st _ p hp; cases hp
  | cons p0 ps ih =>
    intro st hvalid p hp
    obtain ⟨k1, _, s1, _, _, _⟩ := transform_step_table host st p0
    have hlen := pool_keys_length _ _ k1
    rcases List.mem_cons.1 hp with h | h
    · subst h
      have hlt : p < st.1.children_table.length := hvalid p (List.mem_cons_self _ _)
      obtain ⟨c0, hc0⟩ : ∃ c0, st.1.children_table[p]? = some c0 :=
        ⟨st.1.children_table[p], List.getElem?_eq_getElem hlt⟩
      obtain ⟨c1, hc1, hs1⟩ := s1 c0 hc0
      exact ⟨c1, (transform_fold_keeps host ps (transform_step host st p)).2.1 p c1 hc1 hs1, hs1⟩
    · exact ih (transform_step host st p0)
        (fun q hq => by rw [hlen]; exact hvalid q (List.mem_cons_of_mem _ hq)) p h

/-- A loop over candidates that all hold an executor state changes nothing in
the scan state and calls no `ExecInitNode`. -/
theorem transform_fold_all_active (host : Executor) (ptrs : List Nat) :
    ∀ st : RuntimeAppendState × ExecWorld,
      (∀ p ∈ ptrs, ∃ c, st.1.children_table[p]? = some c ∧
        c.content_type = ChildContentType.CHILD_PLAN_STATE) →
      (ptrs.foldl (transform_step host) st).1 = st.1 ∧
      (ptrs.foldl (transform_step host) st).2.heap.length = st.2.heap.length ∧
      ∃ evs, (ptrs.foldl (transform_step host) st).2.log = st.2.log ++ evs ∧ NoInit evs := by
  induction ptrs with
  | nil =>
    intro st _
    exact ⟨rfl, rfl, [], by simp, fun e he => by cases he⟩
  | cons p ps ih =>
    intro st hall
    obtain ⟨c, hc, hs⟩ := hall p (List.mem_cons_self _ _)
    obtain ⟨e1, l1, evs1, g1, n1⟩ := transform_step_active host st p c hc hs
    obtain ⟨e2, l2, evs2, g2, n2⟩ := ih (transform_step host st p)
      (fun q hq => by rw [e1]; exact hall q (List.mem_cons_of_mem _ hq))
    refine ⟨?_, ?_, evs1 ++ evs2, ?_, ?_⟩
    · show (ps.foldl _ (transform_step host st p)).1 = _
      rw [e2, e1]
    · show (ps.foldl _ (transform_step host st p)).2.heap.length = _
      rw [l2, l1]
    · show (ps.foldl _ (transform_step host st p)).2.log = _
      rw [g2, g1, List.append_assoc]
    · intro e he
      rcases List.mem_append.1 he with h | h
      · exact n1 e h
      · exact n2 e h

/-- Claim C9.  Running the selection and `transform_plans_into_states` step
of `rescan_append_common` twice in a row with the same identifier list leaves,
after the second run, the whole scan state as the first run left it: every
candidate holds the same executor-state pointer, `custom_ps` is not
lengthened; the second run creates no `PlanState` and calls no
`ExecInitNode`. -/
theorem rescan_twice_reuses_states (host : Executor) (scan_state : RuntimeAppendState)
    (parts : List Nat) (w : ExecWorld) :
    (rescan_append_common host (rescan_append_common host scan_state parts w).1 parts
        (rescan_append_common host scan_state parts w).2).1
      = (rescan_append_common host scan_state parts w).1 ∧
    (rescan_append_common host (rescan_append_common host scan_state parts w).1 parts
        (rescan_append_common host scan_state parts w).2).1.children_table
      = (rescan_append_common host scan_state parts w).1.children_table ∧
    (rescan_append_common host (rescan_append_common host scan_state parts w).1 parts
        (rescan_append_common host scan_state parts w).2).1.custom_ps
      = (rescan_append_common host scan_state parts w).1.custom_ps ∧
    (rescan_append_common host (rescan_append_common host scan_state parts w).1 parts
        (rescan_append_common host scan_state parts w).2).2.heap.length
      = (rescan_append_common host scan_state parts w).2.heap.length ∧
    ∃ evs,
      (rescan_append_common host (rescan_append_common host scan_state parts w).1 parts
          (rescan_append_common host scan_state parts w).2).2.log
        = (rescan_append_common host scan_state parts w).2.log ++ evs ∧
      NoInit evs := by
  -- the first run
  have hsel := select_required_plans_eq scan_state.children_table parts
  have htake : ((select_required_plans scan_state.children_table parts).1.take
      (select_required_plans scan_state.children_table parts).2)
      = (select_required_plans scan_state.children_table parts).1 := by
    rw [hsel]; exact List.take_length _
  have hr1 : rescan_append_common host scan_state parts w =
      ({ ((select_required_plans scan_state.children_table parts).1.foldl (transform_step host)
            ({ scan_state with
                 cur_plans := (select_required_plans scan_state.children_table parts).1,
                 ncur_plans := (select_required_plans scan_state.children_table parts).2 },
             w)).1 with running_idx := 0 },
       ((select_required_plans scan_state.children_table parts).1.foldl (transform_step host)
            ({ scan_state with
                 cur_plans := (select_required_plans scan_state.children_table parts).1,
                 ncur_plans := (select_required_plans scan_state.children_table parts).2 },
             w)).2) := by
    unfold rescan_append_common transform_plans_into_states
    simp only [htake]
  generalize hs0 : ({ scan_state with
      cur_plans := (select_required_plans scan_state.children_table parts).1,
      ncur_plans := (select_required_plans scan_state.children_table parts).2 }
        : RuntimeAppendState) = s0 at hr1
  have hs0t : s0.children_table = scan_state.children_table := by rw [← hs0]
  have hs0c : s0.cur_plans = (select_required_plans scan_state.children_table parts).1 := by
    rw [← hs0]
  have hs0n : s0.ncur_plans = (select_required_plans scan_state.children_table parts).2 := by
    rw [← hs0]
  obtain ⟨k1, _, c1, n1⟩ := transform_fold_keeps host
    (select_required_plans scan_state.children_table parts).1 (s0, w)
  have hact := transform_fold_activates host
    (select_required_plans scan_state.children_table parts).1 (s0, w)
    (fun p hp => by
      show p < s0.children_table.length
      rw [hs0t]; exact select_required_plans_valid _ _ p hp)
  generalize hf : (select_required_plans scan_state.children_table parts).1.foldl
      (transform_step host) (s0, w) = f at hr1 k1 c1 n1 hact
  -- the second run selects the same candidates
  have hsel2 : select_required_plans f.1.children_table parts
      = select_required_plans scan_state.children_table parts := by
    apply select_required_plans_congr
    rw [k1]; show pool_keys s0.children_table = _; rw [hs0t]
  have hstate : ({ ({ f.1 with running_idx := 0 } : RuntimeAppendState) with
      cur_plans := (select_required_plans scan_state.children_table parts).1,
      ncur_plans := (select_required_plans scan_state.children_table parts).2 }
        : RuntimeAppendState) = { f.1 with running_idx := 0 } := by
    have e1 : f.1.cur_plans = (select_required_plans scan_state.children_table parts).1 := by
      rw [c1]; exact hs0c
    have e2 : f.1.ncur_plans = (select_required_plans scan_state.children_table parts).2 := by
      rw [n1]; exact hs0n
    rw [← e1, ← e2]
  have hr2 : rescan_append_common host { f.1 with running_idx := 0 } parts f.2 =
      ({ ((select_required_plans scan_state.children_table parts).1.foldl (transform_step host)
            ({ f.1 with running_idx := 0 }, f.2)).1 with running_idx := 0 },
       ((select_required_plans scan_state.children_table parts).1.foldl (transform_step host)
            ({ f.1 with running_idx := 0 }, f.2)).2) := by
    unfold rescan_append_common transform_plans_into_states
    simp only
    rw [show select_required_plans f.1.children_table parts
      = select_required_plans scan_state.children_table parts from hsel2]
    simp only [htake, hstate]
  obtain ⟨a1, a2, evs, a3, a4⟩ := transform_fold_all_active host
    (select_required_plans scan_state.children_table parts).1 ({ f.1 with running_idx := 0 }, f.2)
    (fun p hp => hact p hp)
  rw [hr1, hr2]
  simp only [a1]
  exact ⟨trivial, trivial, trivial, a2, evs, a3, a4⟩

/-! ## The copies of `resize_dsm_array` stay inside the segment -/

/-- For a live handle whose element size is `entry_size`, both `memcpy` calls
of `resize_dsm_array` stay inside the mapped segment: the bytes read lie in
the old table, the bytes written lie in the table of the arena returned (for
a shrinking array they may leave the new run, see `round_trip_trace`, but not
the segment). -/
theorem resize_dsm_array_in_bounds (st : Arena) (arr : DsmArray) (s : Nat)
    (entry_size new_elem_count fuel : Nat) (hwf : WF st) (hlive : Live st arr s)
    (hes : arr.entry_size = entry_size)
    (hfuel : entry_size * new_elem_count + 1 ≤ fuel) :
    ∃ st' arr', resize_dsm_array fuel st arr entry_size new_elem_count = some (st', arr') ∧
      array_data arr + arr.elem_count * entry_size
        ≤ st.cfg.blocks_count * st.cfg.block_size ∧
      array_data arr' + arr.elem_count * entry_size
        ≤ st'.cfg.blocks_count * st'.cfg.block_size := by
  have hbs := hwf.hdr_le
  have hwf1 := free_WF st arr s hwf hlive
  obtain ⟨st2, arr2, p, k, halloc, hok⟩ :=
    alloc_total (free_dsm_array st arr).1 (free_dsm_array st arr).2 entry_size new_elem_count
      hwf1 fuel hfuel
  have hbs2 : st2.cfg.block_size = st.cfg.block_size := hok.bs_eq
  have hoff2 : arr2.offset = p * st.cfg.block_size := hok.off
  have hcap2 : entry_size * new_elem_count + 8 ≤ k * st.cfg.block_size := hok.cap
  have hin2 : p + k ≤ st2.cfg.blocks_count := hok.in_table
  have hbc2 : st.cfg.blocks_count ≤ st2.cfg.blocks_count := hok.bc_le
  -- the old run
  have hcap : arr.elem_count * entry_size + 8
      ≤ get_length (hdr st.cfg.block_size st.mem s) * st.cfg.block_size := by
    have := hlive.cap
    rw [hes] at this
    exact this
  have hl : 1 ≤ get_length (hdr st.cfg.block_size st.mem s) ∧
      s + get_length (hdr st.cfg.block_size st.mem s) ≤ st.cfg.blocks_count := by
    rcases hlive.hi.step hlive.lt with ⟨hf, _⟩ | ⟨_, hl, t1⟩
    · rw [hlive.used] at hf; cases hf
    · exact ⟨hl, t1.le⟩
  have hrun : s * st.cfg.block_size
      + get_length (hdr st.cfg.block_size st.mem s) * st.cfg.block_size
      ≤ st.cfg.blocks_count * st.cfg.block_size := by
    rw [← Nat.add_mul]
    exact block_addr_mono _ _ _ hl.2
  have hold : array_data arr + arr.elem_count * entry_size
      ≤ st.cfg.blocks_count * st.cfg.block_size := by
    unfold array_data
    rw [hlive.off]
    simp only [sizeofBlockHeader]
    omega
  refine ⟨⟨st2.cfg, memcpy st2.mem (array_data arr2)
      (read_bytes st.mem (array_data arr) (arr.elem_count * entry_size))⟩, arr2, ?_, hold, ?_⟩
  · unfold resize_dsm_array
    simp only [halloc]
  · show array_data arr2 + arr.elem_count * entry_size
      ≤ st2.cfg.blocks_count * st2.cfg.block_size
    rw [hbs2]
    unfold array_data
    rw [hoff2]
    simp only [sizeofBlockHeader]
    by_cases hgrow : arr.elem_count * entry_size ≤ entry_size * new_elem_count
    · have h1 : p * st.cfg.block_size + k * st.cfg.block_size
          ≤ st2.cfg.blocks_count * st.cfg.block_size := by
        rw [← Nat.add_mul]
        exact block_addr_mono _ _ _ hin2
      omega
    · -- a shrinking array: the freed run itself fits, so the new run starts no later
      have hfit : Fit (free_dsm_array st arr).1.cfg (free_dsm_array st arr).1.mem
          (entry_size * new_elem_count) s (get_length (hdr st.cfg.block_size st.mem s)) := by
        refine ⟨hl.1, ?_, ?_⟩
        · intro j j1 j2
          have hfj : hdr st.cfg.block_size (free_dsm_array st arr).1.mem j = FREE_HEADER :=
            free_hdr_in st arr s hbs hlive.off j j1 j2
          have t0s : Tiles (hdr st.cfg.block_size (free_dsm_array st arr).1.mem) 0 s :=
            hlive.lo.congr (fun x _ h2 => free_hdr_out st arr s hbs hlive.off x (Or.inl h2))
          have tsj : Tiles (hdr st.cfg.block_size (free_dsm_array st arr).1.mem) s
              (s + (j - s)) :=
            Tiles.of_free _ s (fun x x1 x2 => by
              rw [free_hdr_in st arr s hbs hlive.off x x1 (by omega)]
              exact is_free_FREE_HEADER)
          rw [show s + (j - s) = j by omega] at tsj
          have hff : (free_dsm_array st arr).1.cfg.first_free ≤ s := by
            rw [free_cfg st arr s hbs hlive.off]
            dsimp only
            by_cases h : s < st.cfg.first_free
            · rw [if_pos h]
            · rw [if_neg h]; omega
          refine ⟨?_, ?_, ?_⟩
          · exact hwf1.lo.split (t0s.trans tsj) (by omega)
          · show j < st.cfg.blocks_count
            omega
          · show is_free (hdr st.cfg.block_size (free_dsm_array st arr).1.mem j) = true
            rw [hfj]; exact is_free_FREE_HEADER
        · show entry_size * new_elem_count + sizeofBlockHeader
            ≤ get_length (hdr st.cfg.block_size st.mem s) * st.cfg.block_size
          simp only [sizeofBlockHeader]
          omega
      have hps : p ≤ s := hok.lowest s _ hfit
      have h1 := block_addr_mono st.cfg.block_size _ _ hps
      have h2 := block_addr_mono st.cfg.block_size _ _ hbc2
      omega

/-! ## Claims C11 and C12: rehydration -/

theorem pool_keys_append (a b : ChildrenTable) : pool_keys (a ++ b) = pool_keys a ++ pool_keys b := by
  simp [pool_keys]

theorem pool_keys_prepared (oids plans : List Nat) (i : Nat)
    (hlen : plans.length = oids.length) : pool_keys (prepared_pool oids plans i) = oids := by
  induction oids generalizing plans i with
  | nil => cases plans <;> rfl
  | cons o os ih =>
    cases plans with
    | nil => simp at hlen
    | cons p ps =>
      simp only [prepared_pool, pool_keys, List.map_cons]
      have := ih ps (i + 1) (by simpa using hlen)
      unfold pool_keys at this
      rw [this]

/-- The rehydration loop on identifiers that are new to the table and pairwise
distinct appends one prepared entry per (identifier, plan) pair, whether or
not assertions are checked. -/
theorem unpack_loop_distinct (a : Bool) :
    ∀ (oids plans : List Nat) (i : Nat) (tbl : ChildrenTable),
      oids.Nodup → (∀ o ∈ oids, o ∉ pool_keys tbl) →
      unpack_loop a oids plans i tbl = some (tbl ++ prepared_pool oids plans i) := by
  intro oids
  induction oids with
  | nil => intro plans i tbl _ _; cases plans <;> simp [unpack_loop, prepared_pool]
  | cons o os ih =>
    intro plans i tbl hnd hnew
    cases plans with
    | nil => simp [unpack_loop, prepared_pool]
    | cons p ps =>
      have ho : o ∉ pool_keys tbl := hnew o (List.mem_cons_self _ _)
      have hfind : hash_search_find tbl o = none := (hash_search_find_none tbl o).2 ho
      have henter : hash_search_enter tbl o = (tbl.length, false,
          tbl ++ [⟨o, ChildContentType.CHILD_PATH, 0, 0⟩]) := by
        unfold hash_search_enter
        rw [hfind]
      have hfill : fill_child (tbl ++ [⟨o, ChildContentType.CHILD_PATH, 0, 0⟩]) tbl.length p i
          = tbl ++ [⟨o, ChildContentType.CHILD_PLAN, p, i⟩] := by
        unfold fill_child
        simp
      have hnd1 := (List.nodup_cons.1 hnd)
      unfold unpack_loop
      simp only [henter, Bool.and_false, hfill]
      rw [ih ps (i + 1) _ hnd1.2 ?_]
      · simp [prepared_pool]
      · intro x hx hmem
        rw [pool_keys_append] at hmem
        rcases List.mem_append.1 hmem with h | h
        · exact hnew x (List.mem_cons_of_mem _ hx) h
        · simp only [pool_keys, List.map_cons, List.map_nil, List.mem_singleton] at h
          rw [h] at hx
          exact hnd1.1 hx

theorem prepared_pool_getElem (oids plans : List Nat) (i0 : Nat)
    (hlen : plans.length = oids.length) (i : Nat) (hi : i < oids.length) :
    (prepared_pool oids plans i0)[i]? =
      some { relid := oids.getD i 0, content_type := ChildContentType.CHILD_PLAN,
             content := plans.getD i 0, original_order := i0 + i } := by
  induction oids generalizing plans i0 i with
  | nil => simp at hi
  | cons o os ih =>
    cases plans with
    | nil => simp at hlen
    | cons p ps =>
      cases i with
      | zero => simp [prepared_pool]
      | succ i =>
        simp only [prepared_pool, List.getElem?_cons_succ, List.getD_cons_succ]
        rw [ih ps (i0 + 1) (by simpa using hlen) i (by simpa using hi)]
        simp only [Option.some.injEq, ChildScanCommonData.mk.injEq, true_and]
        omega

theorem find_key_nodup (ks : List Nat) (hnd : ks.Nodup) (i : Nat) (hi : i < ks.length) :
    find_key ks (ks.getD i 0) = some i := by
  induction ks generalizing i with
  | nil => simp at hi
  | cons k ks ih =>
    have hnd1 := List.nodup_cons.1 hnd
    cases i with
    | zero => simp [find_key]
    | succ i =>
      have hi1 : i < ks.length := by simpa using hi
      have hmem : ks.getD i 0 ∈ ks := by
        rw [List.getD_eq_getElem _ _ hi1]
        exact List.getElem_mem _
      have hne : ¬ k = ks.getD i 0 := fun e => hnd1.1 (by rw [e]; exact hmem)
      simp only [List.getD_cons_succ, find_key, hne, if_false, ih hnd1.2 i hi1, Option.map_some']

/-- Claim C11.  For a path with owning table `relid` and `n` children whose
partition identifiers are pairwise distinct, paired with `n` sub-plans,
`unpack_runtimeappend_private` applied to the result of
`pack_runtimeappend_private` returns (with or without assertion checking) a
scan state with `relid` the owning table and a pool of exactly `n` entries in
which, for every `i`, the entry found under the identifier of child `i` is
`CHILD_PLAN`, holds sub-plan `i` and has `original_order = i`. -/
theorem unpack_pack_round_trip (assert_checking : Bool) (scan_state : RuntimeAppendState)
    (cscan : CustomScan) (path : RuntimeAppendPath)
    (hn : path.nchildren = path.children.length)
    (hdistinct : (path.children.map (fun c => c.relid)).Nodup)
    (hplans : cscan.custom_plans.length = path.children.length) :
    ∃ s, unpack_runtimeappend_private assert_checking scan_state
          (pack_runtimeappend_private cscan path) = UnpackResult.ok s ∧
      s.relid = path.relid ∧
      s.children_table.length = path.children.length ∧
      ∀ i, i < path.children.length →
        ∃ ptr c, hash_search_find s.children_table ((path.children.map (fun c => c.relid)).getD i 0)
            = some ptr ∧
          s.children_table[ptr]? = some c ∧
          c.content_type = ChildContentType.CHILD_PLAN ∧
          c.content = cscan.custom_plans.getD i 0 ∧
          c.original_order = i := by
  have htake : path.children.take path.nchildren = path.children := by
    rw [hn]; exact List.take_length _
  have hlen : cscan.custom_plans.length = (path.children.map (fun c => c.relid)).length := by
    rw [List.length_map]; exact hplans
  have hloop := unpack_loop_distinct assert_checking (path.children.map (fun c => c.relid))
    cscan.custom_plans 0 [] hdistinct (fun o _ h => by simp [pool_keys] at h)
  rw [List.nil_append] at hloop
  refine ⟨{ scan_state with
      children_table := prepared_pool (path.children.map (fun c => c.relid))
        cscan.custom_plans 0,
      relid := path.relid }, ?_, rfl, ?_, ?_⟩
  · unfold unpack_runtimeappend_private pack_runtimeappend_private
    simp only [htake, List.nil_append, hloop]
  · show (prepared_pool _ _ 0).length = _
    have := congrArg List.length (pool_keys_prepared _ _ 0 hlen)
    simpa [pool_keys] using this
  · intro i hi
    have hi1 : i < (path.children.map (fun c => c.relid)).length := by
      rw [List.length_map]; exact hi
    refine ⟨i, _, ?_, prepared_pool_getElem _ _ 0 hlen i hi1, rfl, rfl, by simp⟩
    show hash_search_find (prepared_pool _ _ 0) _ = some i
    rw [hash_search_find_keys, pool_keys_prepared _ _ 0 hlen]
    exact find_key_nodup _ hdistinct i hi1

/-- Claim C11 at the path over the partitions 10, 11, 12 of table 1 with the
sub-plans 100, 101, 102, in a build that checks assertions. -/
theorem unpack_pack_round_trip_witness :
    ∃ s, unpack_runtimeappend_private true scan_state_zero
          (pack_runtimeappend_private cscan_100_101_102 path_10_11_12) = UnpackResult.ok s ∧
      s.relid = 1 ∧
      s.children_table.length = 3 ∧
      ∀ i, i < 3 →
        ∃ ptr c, hash_search_find s.children_table ([10, 11, 12].getD i 0) = some ptr ∧
          s.children_table[ptr]? = some c ∧
          c.content_type = ChildContentType.CHILD_PLAN ∧
          c.content = [100, 101, 102].getD i 0 ∧
          c.original_order = i :=
  unpack_pack_round_trip true scan_state_zero cscan_100_101_102 path_10_11_12
    (by decide) (by decide) (by decide)

/-- The pool rehydrated from that path is `pool_10_11_12`. -/
theorem unpack_pack_example :
    unpack_runtimeappend_private true scan_state_zero
        (pack_runtimeappend_private cscan_100_101_102 path_10_11_12)
      = UnpackResult.ok { scan_state_zero with children_table := pool_10_11_12, relid := 1 } := by
  decide

/-- Claim C12, evaluated on the code.  In a build without assertion checking
(the `Assert(!child_found)` is compiled out) the identifier list `[10, 10]`
with the plans `[100, 101]` does not abort: rehydration returns a pool of one
entry, in which plan and `original_order` of the first pair are overwritten
by those of the second. -/
theorem unpack_duplicate_overwrites :
    unpack_runtimeappend_private false scan_state_zero cscan_duplicate
      = UnpackResult.ok
          { scan_state_zero with
              children_table := [ { relid := 10, content_type := ChildContentType.CHILD_PLAN,
                                    content := 101, original_order := 1 } ],
              relid := 1 } := by
  decide

/-- With assertion checking the same input stops at the failed assertion. -/
theorem unpack_duplicate_assert :
    unpack_runtimeappend_private true scan_state_zero cscan_duplicate
      = UnpackResult.assert_failed := by
  decide

/-! ## Claim C13: explain restores the plan order -/

theorem cmp_child_le_iff (a b : ChildScanCommonData) :
    cmp_child_scan_common_by_orig_order a b ≤ 0 ↔ a.original_order ≤ b.original_order := by
  unfold cmp_child_scan_common_by_orig_order
  by_cases h1 : a.original_order > b.original_order
  · simp only [h1, if_true]
    constructor
    · intro h; exact absurd h (by decide)
    · intro h; omega
  · simp only [h1, if_false]
    by_cases h2 : a.original_order < b.original_order
    · simp only [h2, if_true]
      constructor
      · intro _; omega
      · intro _; decide
    · simp only [h2, if_false]
      constructor
      · intro _; omega
      · intro _; decide

theorem cmp_child_ptr_le_iff (tbl : ChildrenTable) (a b : Nat) :
    cmp_child_ptr tbl a b ≤ 0 ↔
      (child_deref tbl a).original_order ≤ (child_deref tbl b).original_order :=
  cmp_child_le_iff _ _

/-- Insertion sort meets the promise of `qsort` for the comparator of the
pool. -/
theorem qsort_insertion_sorts (tbl : ChildrenTable) :
    QsortSorts qsort_insertion (cmp_child_ptr tbl) := by
  intro l
  refine ⟨List.perm_insertionSort _ l, ?_⟩
  have htot : IsTotal Nat (fun a b => cmp_child_ptr tbl a b ≤ 0) :=
    ⟨fun a b => by
      simp only [cmp_child_ptr_le_iff]
      exact Nat.le_total _ _⟩
  have htr : IsTrans Nat (fun a b => cmp_child_ptr tbl a b ≤ 0) :=
    ⟨fun a b c => by
      simp only [cmp_child_ptr_le_iff]
      exact Nat.le_trans⟩
  exact List.sorted_insertionSort (fun a b => cmp_child_ptr tbl a b ≤ 0) l

/-- The collecting loop fills the array with the pointers in the order the
table enumerates them. -/
theorem explain_collect_fold (l : List Nat) (v : ExplainVars) :
    (l.foldl explain_collect v).custom_ps = v.custom_ps ++ l ∧
    (l.foldl explain_collect v).used = v.used + l.length := by
  induction l generalizing v with
  | nil => simp
  | cons c l ih =>
    simp only [List.foldl_cons]
    obtain ⟨h1, h2⟩ := ih (explain_collect v c)
    rw [h1, h2]
    by_cases ha : v.allocated ≤ v.used <;> simp [explain_collect, ha] <;> omega

/-- The initialising loop: one fresh `PlanState` per element of the sorted
array, in array order. -/
theorem explain_init_fold (host : Executor) (tbl : ChildrenTable) (l : List Nat)
    (node : RuntimeAppendState) (w : ExecWorld) :
    l.foldl (explain_init host tbl) (node, w) =
      ({ node with custom_ps := node.custom_ps ++ List.range' w.heap.length l.length },
       { heap := w.heap ++ l.map (fun p => host.ExecInitNode (child_deref tbl p).content),
         log := w.log ++ List.zipWith ExecEvent.init
           (l.map (fun p => (child_deref tbl p).content))
           (List.range' w.heap.length l.length) }) := by
  induction l generalizing node w with
  | nil => simp
  | cons c l ih =>
    simp only [List.foldl_cons, explain_init]
    rw [ih]
    simp [List.range'_succ, Nat.add_comm]

theorem range_map_child_deref (tbl : ChildrenTable) :
    (List.range tbl.length).map (child_deref tbl) = tbl := by
  apply List.ext_getElem
  · simp
  · intro i h1 h2
    simp only [List.getElem_map, List.getElem_range, child_deref]
    exact List.getD_eq_getElem _ _ h2

theorem range_map_getD (l : List Nat) : (List.range l.length).map (fun i => l.getD i 0) = l := by
  apply List.ext_getElem
  · simp
  · intro i h1 h2
    simp only [List.getElem_map, List.getElem_range]
    exact List.getD_eq_getElem _ _ h2

theorem prepared_pool_orders (oids plans : List Nat) (i0 : Nat)
    (hlen : plans.length = oids.length) :
    (prepared_pool oids plans i0).map (fun c => c.original_order)
      = List.range' i0 oids.length := by
  induction oids generalizing plans i0 with
  | nil => cases plans <;> rfl
  | cons o os ih =>
    cases plans with
    | nil => simp at hlen
    | cons p ps =>
      simp only [prepared_pool, List.map_cons, List.length_cons, List.range'_succ]
      rw [ih ps (i0 + 1) (by simpa using hlen)]

theorem prepared_pool_content (oids plans : List Nat) (i0 : Nat)
    (hlen : plans.length = oids.length) (c : ChildScanCommonData)
    (hc : c ∈ prepared_pool oids plans i0) :
    c.content = plans.getD (c.original_order - i0) 0 := by
  induction oids generalizing plans i0 with
  | nil => cases plans <;> simp [prepared_pool] at hc
  | cons o os ih =>
    cases plans with
    | nil => simp at hlen
    | cons p ps =>
      simp only [prepared_pool, List.mem_cons] at hc
      rcases hc with h | h
      · rw [h]; simp
      · have h1 := ih ps (i0 + 1) (by simpa using hlen) h
        have h2 : i0 + 1 ≤ c.original_order := by
          have hm : c.original_order ∈ (prepared_pool os ps (i0 + 1)).map
              (fun c => c.original_order) := List.mem_map_of_mem _ h
          rw [prepared_pool_orders os ps (i0 + 1) (by simpa using hlen)] at hm
          exact (List.mem_range'_1.1 hm).1
        rw [h1]
        have : c.original_order - i0 = (c.original_order - (i0 + 1)) + 1 := by omega
        rw [this, List.getD_cons_succ]

/-- Sorting the pointers of any enumeration of a prepared pool by the
comparator puts the entry with `original_order = i` at place `i`. -/
theorem sorted_pool_order (oids plans : List Nat) (hlen : plans.length = oids.length)
    (tbl : ChildrenTable) (hperm : tbl.Perm (prepared_pool oids plans 0))
    (sorted : List Nat) (hp : sorted.Perm (List.range tbl.length))
    (hs : sorted.Pairwise (fun a b => cmp_child_ptr tbl a b ≤ 0)) :
    sorted.map (fun p => (child_deref tbl p).original_order) = List.range oids.length ∧
    sorted.map (fun p => (child_deref tbl p).content) = plans := by
  have horders : sorted.map (fun p => (child_deref tbl p).original_order)
      = List.range oids.length := by
    apply List.eq_of_perm_of_sorted (r := fun a b : Nat => a ≤ b)
    · have h1 : (sorted.map (fun p => (child_deref tbl p).original_order)).Perm
          ((List.range tbl.length).map (fun p => (child_deref tbl p).original_order)) :=
        hp.map _
      have h2 : (List.range tbl.length).map (fun p => (child_deref tbl p).original_order)
          = tbl.map (fun c => c.original_order) := by
        conv_rhs => rw [← range_map_child_deref tbl]
        rw [List.map_map]
        rfl
      rw [h2] at h1
      have h3 := hperm.map (fun c => c.original_order)
      rw [prepared_pool_orders oids plans 0 hlen] at h3
      rw [List.range_eq_range']
      exact h1.trans h3
    · rw [List.Sorted, List.pairwise_map]
      exact hs.imp (fun h => (cmp_child_ptr_le_iff tbl _ _).1 h)
    · rw [List.Sorted, List.range_eq_range']
      exact (List.pairwise_lt_range' 0 oids.length).imp (fun h => Nat.le_of_lt h)
  refine ⟨horders, ?_⟩
  have hcont : sorted.map (fun p => (child_deref tbl p).content)
      = (sorted.map (fun p => (child_deref tbl p).original_order)).map
          (fun i => plans.getD i 0) := by
    rw [List.map_map]
    apply List.map_congr_left
    intro p hpm
    have hlt : p < tbl.length := List.mem_range.1 (hp.subset hpm)
    have hmem : child_deref tbl p ∈ tbl := by
      unfold child_deref
      rw [List.getD_eq_getElem _ _ hlt]
      exact List.getElem_mem _
    have := prepared_pool_content oids plans 0 hlen _ (hperm.subset hmem)
    simpa using this
  rw [hcont, horders, ← hlen]
  exact range_map_getD plans

theorem unpack_distinct (a : Bool) (s0 : RuntimeAppendState) (cscan : CustomScan)
    (relid : Nat) (oids : List Nat) (hpriv : cscan.custom_private = [[[relid], oids]])
    (hd : oids.Nodup) :
    unpack_runtimeappend_private a s0 cscan = UnpackResult.ok
      { s0 with children_table := prepared_pool oids cscan.custom_plans 0, relid := relid } := by
  have hloop := unpack_loop_distinct a oids cscan.custom_plans 0 [] hd
    (fun o _ h => by simp [pool_keys] at h)
  rw [List.nil_append] at hloop
  unfold unpack_runtimeappend_private
  simp only [hpriv, hloop]

/-- Claim C13.  Let a pool be rehydrated from a serialized node whose
identifiers are pairwise distinct and paired with as many plans, and let
`children_table` enumerate that pool in any order.  With a `qsort` that
sorts by the comparator, `explain_append_common` with `analyze = false`
appends to `custom_ps` one fresh executor state per pool entry; the `i`-th of
them is `ExecInitNode` of plan `i`, which is the plan of the entry whose
`original_order` is `i`.  With `analyze = true` node and executor are left
as they were. -/
theorem explain_append_common_order (host : Executor) (assert_checking : Bool)
    (scan_state : RuntimeAppendState) (cscan : CustomScan) (relid : Nat) (oids : List Nat)
    (hpriv : cscan.custom_private = [[[relid], oids]]) (hdistinct : oids.Nodup)
    (hplans : cscan.custom_plans.length = oids.length) :
    ∃ s, unpack_runtimeappend_private assert_checking scan_state cscan = UnpackResult.ok s ∧
      ∀ children_table : ChildrenTable, children_table.Perm s.children_table →
      ∀ qsort, QsortSorts qsort (cmp_child_ptr children_table) →
      ∀ (node : RuntimeAppendState) (w : ExecWorld),
        explain_append_common host qsort node children_table false w =
          ({ node with
               custom_ps := node.custom_ps ++ List.range' w.heap.length oids.length },
           { heap := w.heap ++ cscan.custom_plans.map host.ExecInitNode,
             log := w.log ++ List.zipWith ExecEvent.init cscan.custom_plans
               (List.range' w.heap.length oids.length) }) ∧
        (∀ i, i < oids.length →
          ∃ c ∈ children_table, c.original_order = i ∧
            c.content = cscan.custom_plans.getD i 0) ∧
        explain_append_common host qsort node children_table true w = (node, w) := by
  refine ⟨_, unpack_distinct assert_checking scan_state cscan relid oids hpriv hdistinct, ?_⟩
  intro tbl hperm qsort hq node w
  have hperm1 : tbl.Perm (prepared_pool oids cscan.custom_plans 0) := hperm
  have hcol := explain_collect_fold (List.range tbl.length)
    { allocated := INITIAL_ALLOC_NUM, used := 0, custom_ps := [] }
  simp only [List.nil_append, Nat.zero_add, List.length_range] at hcol
  obtain ⟨hq1, hq2⟩ := hq (List.range tbl.length)
  obtain ⟨ho, hc⟩ := sorted_pool_order oids cscan.custom_plans hplans tbl hperm1 _ hq1 hq2
  have hlen : (qsort (cmp_child_ptr tbl) (List.range tbl.length)).length = oids.length := by
    have := congrArg List.length ho
    simpa using this
  refine ⟨?_, ?_, ?_⟩
  · unfold explain_append_common
    simp only [Bool.not_false, if_true, hcol.1, hcol.2]
    rw [List.take_of_length_le (by simp), explain_init_fold, hlen, hc]
    have : (qsort (cmp_child_ptr tbl) (List.range tbl.length)).map
        (fun p => host.ExecInitNode (child_deref tbl p).content)
        = cscan.custom_plans.map host.ExecInitNode := by
      rw [← hc, List.map_map]
      rfl
    rw [this]
  · intro i hi
    have hmem : i ∈ (prepared_pool oids cscan.custom_plans 0).map
        (fun c => c.original_order) := by
      rw [prepared_pool_orders _ _ 0 hplans]
      exact List.mem_range'_1.2 ⟨Nat.zero_le _, by omega⟩
    obtain ⟨c, hcm, hco⟩ := List.mem_map.1 hmem
    refine ⟨c, hperm1.symm.subset hcm, hco, ?_⟩
    have := prepared_pool_content oids cscan.custom_plans 0 hplans c hcm
    rw [this, hco]
    rfl
  · rfl

/-- Claim C13 at the pool of the identifiers 10, 11, 12 with the plans 100,
101, 102, enumerated in the order 12, 10, 11 and sorted by insertion sort:
the states are built for the plans 100, 101, 102 in this order. -/
theorem explain_append_common_order_witness :
    explain_append_common host_plain qsort_insertion scan_state_zero pool_12_10_11 false
        world_empty =
      ({ scan_state_zero with custom_ps := [0, 1, 2] },
       { heap := [100, 101, 102].map host_plain.ExecInitNode,
         log := [ExecEvent.init 100 0, ExecEvent.init 101 1, ExecEvent.init 102 2] }) := by
  obtain ⟨s, hs, h⟩ := explain_append_common_order host_plain true scan_state_zero
    { custom_plans := [100, 101, 102], custom_private := [[[1], [10, 11, 12]]] } 1 [10, 11, 12]
    rfl (by decide) rfl
  have hs1 : s.children_table = pool_10_11_12 := by
    have : unpack_runtimeappend_private true scan_state_zero
        { custom_plans := [100, 101, 102], custom_private := [[[1], [10, 11, 12]]] }
        = UnpackResult.ok { scan_state_zero with children_table := pool_10_11_12, relid := 1 } := by
      decide
    rw [hs] at this
    injection this with this
    rw [this]
  have hperm : pool_12_10_11.Perm s.children_table := by
    rw [hs1]
    decide
  exact (h pool_12_10_11 hperm qsort_insertion (qsort_insertion_sorts _) scan_state_zero
    world_empty).1

/-! ## Claims C14 and C15: the pool across rescans -/

theorem Evolves.same (h : Nat) (c : ChildScanCommonData) : Evolves h c c := Or.inl rfl

theorem Evolves.chain {h1 h2 : Nat} {c c1 c2 : ChildScanCommonData} (hle : h1 ≤ h2)
    (e1 : Evolves h1 c c1) (e2 : Evolves h2 c1 c2) : Evolves h2 c c2 := by
  rcases e1 with e1 | ⟨n1, k1, o1, t1, b1⟩
  · rw [e1] at e2; exact e2
  · rcases e2 with e2 | ⟨n2, _⟩
    · rw [e2]; exact Or.inr ⟨n1, k1, o1, t1, by omega⟩
    · exact absurd t1 n2

theorem PoolEvolves.same_pool (h : Nat) (tbl : ChildrenTable) : PoolEvolves h tbl tbl :=
  ⟨rfl, fun _ c hq => ⟨c, hq, Evolves.same h c⟩⟩

theorem PoolEvolves.chain_pool {h1 h2 : Nat} {t t1 t2 : ChildrenTable} (hle : h1 ≤ h2)
    (e1 : PoolEvolves h1 t t1) (e2 : PoolEvolves h2 t1 t2) : PoolEvolves h2 t t2 := by
  refine ⟨e2.1.trans e1.1, ?_⟩
  intro q c hq
  obtain ⟨c1, hq1, ev1⟩ := e1.2 q c hq
  obtain ⟨c2, hq2, ev2⟩ := e2.2 q c1 hq1
  exact ⟨c2, hq2, Evolves.chain hle ev1 ev2⟩

/-- One iteration of `transform_plans_into_states`: the executor loses no
state and the pool evolves. -/
theorem transform_step_evolves (host : Executor) (st : RuntimeAppendState × ExecWorld)
    (ptr : Nat) :
    st.2.heap.length ≤ (transform_step host st ptr).2.heap.length ∧
    PoolEvolves (transform_step host st ptr).2.heap.length st.1.children_table
      (transform_step host st ptr).1.children_table := by
  cases h : st.1.children_table[ptr]? with
  | none =>
    have e : transform_step host st ptr = st := by
      unfold transform_step
      simp only [h]
    rw [e]
    exact ⟨Nat.le_refl _, PoolEvolves.same_pool _ _⟩
  | some c =>
    by_cases hs : c.content_type = ChildContentType.CHILD_PLAN_STATE
    · obtain ⟨e1, e2, _⟩ := transform_step_active host st ptr c h hs
      rw [e1, e2]
      exact ⟨Nat.le_refl _, PoolEvolves.same_pool _ _⟩
    · have hlt := lt_length_of_getElem? _ _ _ h
      have hheap : (transform_step host st ptr).2.heap.length = st.2.heap.length + 1 := by
        rw [transform_step_world host st ptr c h]
        rw [(rescan_child_facts host _ _).1, (propagate_params_facts host _ _ _).1]
        unfold child_plan_state
        simp [hs]
      rw [transform_step_table_prepared host st ptr c h hs, hheap]
      refine ⟨by omega, by simp, ?_⟩
      intro q c0 hq
      by_cases hpq : ptr = q
      · subst hpq
        rw [h] at hq
        rw [← Option.some.inj hq]
        refine ⟨_, List.getElem?_set_self hlt, Or.inr ⟨hs, rfl, rfl, rfl, ?_⟩⟩
        show st.2.heap.length < st.2.heap.length + 1
        omega
      · exact ⟨c0, by
          show (st.1.children_table.set ptr _)[q]? = some c0
          rw [List.getElem?_set_ne hpq]; exact hq, Evolves.same _ _⟩

theorem transform_fold_evolves (host : Executor) (ptrs : List Nat) :
    ∀ st : RuntimeAppendState × ExecWorld,
      st.2.heap.length ≤ (ptrs.foldl (transform_step host) st).2.heap.length ∧
      PoolEvolves (ptrs.foldl (transform_step host) st).2.heap.length st.1.children_table
        (ptrs.foldl (transform_step host) st).1.children_table := by
  induction ptrs with
  | nil => intro st; exact ⟨Nat.le_refl _, PoolEvolves.same_pool _ _⟩
  | cons p ps ih =>
    intro st
    obtain ⟨l1, e1⟩ := transform_step_evolves host st p
    obtain ⟨l2, e2⟩ := ih (transform_step host st p)
    exact ⟨Nat.le_trans l1 l2, PoolEvolves.chain_pool l2 e1 e2⟩

/-- One rescan: the executor loses no state and the pool evolves. -/
theorem rescan_evolves (host : Executor) (s : RuntimeAppendState) (parts : List Nat)
    (w : ExecWorld) :
    w.heap.length ≤ (rescan_append_common host s parts w).2.heap.length ∧
    PoolEvolves (rescan_append_common host s parts w).2.heap.length s.children_table
      (rescan_append_common host s parts w).1.children_table := by
  exact transform_fold_evolves host
    ((select_required_plans s.children_table parts).1.take
      (select_required_plans s.children_table parts).2)
    ({ s with cur_plans := (select_required_plans s.children_table parts).1,
              ncur_plans := (select_required_plans s.children_table parts).2 }, w)

theorem rescans_evolves (host : Executor) (steps : List (List Nat × Bitmapset)) :
    ∀ st : RuntimeAppendState × ExecWorld,
      st.2.heap.length ≤ (rescans host steps st).2.heap.length ∧
      PoolEvolves (rescans host steps st).2.heap.length st.1.children_table
        (rescans host steps st).1.children_table := by
  induction steps with
  | nil => intro st; exact ⟨Nat.le_refl _, PoolEvolves.same_pool _ _⟩
  | cons s ss ih =>
    intro st
    obtain ⟨l1, e1⟩ := rescan_evolves host { st.1 with chgParam := s.2 } s.1 st.2
    obtain ⟨l2, e2⟩ := ih (rescan_append_common host { st.1 with chgParam := s.2 } s.1 st.2)
    exact ⟨Nat.le_trans l1 l2, PoolEvolves.chain_pool l2 e1 e2⟩

theorem PoolEvolves.order {h : Nat} {t t1 : ChildrenTable} (e : PoolEvolves h t t1) (p : Nat) :
    (child_deref t1 p).original_order = (child_deref t p).original_order := by
  unfold child_deref
  by_cases hp : p < t.length
  · obtain ⟨c1, hq1, ev⟩ := e.2 p t[p] (List.getElem?_eq_getElem hp)
    have hp1 : p < t1.length := by rw [e.1]; exact hp
    rw [List.getD_eq_getElem _ _ hp, List.getD_eq_getElem _ _ hp1]
    rw [List.getElem?_eq_getElem hp1] at hq1
    rw [Option.some.inj hq1]
    rcases ev with ev | ⟨_, _, o, _⟩
    · rw [ev]
    · exact o
  · have hp1 : ¬ p < t1.length := by rw [e.1]; exact hp
    rw [List.getD_eq_default _ _ (by omega), List.getD_eq_default _ _ (by omega)]

theorem map_filterMap_find (g : Nat → Option Nat) (f : Nat → Nat) (l : List Nat) :
    (l.filterMap g).map f = l.filterMap (fun x => (g x).map f) := by
  induction l with
  | nil => rfl
  | cons a l ih =>
    cases hf : g a <;> simp [List.filterMap_cons, hf, ih]

/-- Claim C14 as stated fails.  On the pool of 10, 11, 12 (order indexes 0, 1,
2) a rescan with the identifier list `[12, 10]` records the candidate of 12
before the candidate of 10: the order indexes along `cur_plans` are 2, 0. -/
theorem cur_plans_not_by_order_index :
    cur_plans_orders (rescan_append_common host_plain scan_state_10_11_12 [12, 10]
      world_empty).1 = [2, 0] ∧
    ¬ (cur_plans_orders (rescan_append_common host_plain scan_state_10_11_12 [12, 10]
      world_empty).1).Pairwise (fun a b => a ≤ b) := by
  constructor
  · decide
  · have : cur_plans_orders (rescan_append_common host_plain scan_state_10_11_12 [12, 10]
      world_empty).1 = [2, 0] := by decide
    rw [this]
    decide

/-- Claim C14, amended.  The active list recorded by `rescan_append_common`
holds the candidates of those identifiers of the list that are keys of the
pool, in the order of the identifier list; so its order indexes are those of
the identifiers in list order, and it is ordered by increasing
`original_order` exactly when the identifier list is. -/
theorem rescan_cur_plans_in_list_order (host : Executor) (scan_state : RuntimeAppendState)
    (parts : List Nat) (w : ExecWorld) :
    (rescan_append_common host scan_state parts w).1.cur_plans
      = parts.filterMap (hash_search_find scan_state.children_table) ∧
    (rescan_append_common host scan_state parts w).1.ncur_plans
      = (rescan_append_common host scan_state parts w).1.cur_plans.length ∧
    cur_plans_orders (rescan_append_common host scan_state parts w).1
      = parts.filterMap (order_of scan_state.children_table) ∧
    ((cur_plans_orders (rescan_append_common host scan_state parts w).1).Pairwise
        (fun a b => a ≤ b) ↔
      (parts.filterMap (order_of scan_state.children_table)).Pairwise (fun a b => a ≤ b)) := by
  have hev := (rescan_evolves host scan_state parts w).2
  have hcur : (rescan_append_common host scan_state parts w).1.cur_plans
      = parts.filterMap (hash_search_find scan_state.children_table) := by
    unfold rescan_append_common transform_plans_into_states
    simp only [(transform_fold_keeps host _ _).2.2.1, select_required_plans_eq]
  have hn : (rescan_append_common host scan_state parts w).1.ncur_plans
      = (parts.filterMap (hash_search_find scan_state.children_table)).length := by
    unfold rescan_append_common transform_plans_into_states
    simp only [(transform_fold_keeps host _ _).2.2.2, select_required_plans_eq]
  have hord : cur_plans_orders (rescan_append_common host scan_state parts w).1
      = parts.filterMap (order_of scan_state.children_table) := by
    unfold cur_plans_orders
    rw [hcur, hn, List.take_length]
    have : (fun p => (child_deref (rescan_append_common host scan_state parts w).1.children_table
        p).original_order) = fun p => (child_deref scan_state.children_table p).original_order := by
      funext p
      exact hev.order p
    rw [this]
    exact map_filterMap_find _ _ parts
  exact ⟨hcur, by rw [hn, hcur], hord, by rw [hord]⟩

theorem PoolEvolves.map_eq {h : Nat} {t t1 : ChildrenTable} (e : PoolEvolves h t t1)
    (f : ChildScanCommonData → Nat)
    (hf : ∀ c c1, Evolves h c c1 → f c1 = f c) : t1.map f = t.map f := by
  apply List.ext_getElem?
  intro q
  rw [List.getElem?_map, List.getElem?_map]
  by_cases hq : q < t.length
  · obtain ⟨c1, hq1, ev⟩ := e.2 q t[q] (List.getElem?_eq_getElem hq)
    rw [hq1, List.getElem?_eq_getElem hq]
    simp only [Option.map_some']
    rw [hf _ _ ev]
  · have hq1 : ¬ q < t1.length := by rw [e.1]; exact hq
    rw [List.getElem?_eq_none (by omega), List.getElem?_eq_none (by omega)]

theorem Evolves.relid_eq {h : Nat} {c c1 : ChildScanCommonData} (e : Evolves h c c1) :
    c1.relid = c.relid := by
  rcases e with e | ⟨_, k, _⟩
  · rw [e]
  · exact k

theorem Evolves.order_eq {h : Nat} {c c1 : ChildScanCommonData} (e : Evolves h c c1) :
    c1.original_order = c.original_order := by
  rcases e with e | ⟨_, _, o, _⟩
  · rw [e]
  · exact o

/-- Claim C15.  Start from a pool whose entries all hold a plan and apply any
sequence of rescans (each with its identifier list and its changed
parameters).  In the state reached, every candidate has the key and the
`original_order` it started with and is either still `CHILD_PLAN` with its
plan or `CHILD_PLAN_STATE` with the pointer of an executor state that
exists; a candidate that is `CHILD_PLAN_STATE` is the same entry, with the
same pointer, after every further sequence of rescans, selected or not.  For
the pool of 10, 11, 12 and the rescans `[12, 10]` then `[10]` the candidate
of 12 holds its state and the active list is the candidate of 10 alone. -/
theorem rescans_lifecycle (host : Executor) (scan_state : RuntimeAppendState) (w : ExecWorld)
    (hprepared : ∀ c ∈ scan_state.children_table,
      c.content_type = ChildContentType.CHILD_PLAN)
    (steps : List (List Nat × Bitmapset)) :
    pool_keys (rescans host steps (scan_state, w)).1.children_table
      = pool_keys scan_state.children_table ∧
    (rescans host steps (scan_state, w)).1.children_table.map (fun c => c.original_order)
      = scan_state.children_table.map (fun c => c.original_order) ∧
    (∀ (q : Nat) (c : ChildScanCommonData), scan_state.children_table[q]? = some c →
      ∃ c1, (rescans host steps (scan_state, w)).1.children_table[q]? = some c1 ∧
        ((c1.content_type = ChildContentType.CHILD_PLAN ∧ c1.content = c.content) ∨
         (c1.content_type = ChildContentType.CHILD_PLAN_STATE ∧
          c1.content < (rescans host steps (scan_state, w)).2.heap.length))) ∧
    (∀ (q : Nat) (c1 : ChildScanCommonData),
      (rescans host steps (scan_state, w)).1.children_table[q]? = some c1 →
      c1.content_type = ChildContentType.CHILD_PLAN_STATE →
      ∀ later, (rescans host later (rescans host steps (scan_state, w))).1.children_table[q]?
        = some c1) ∧
    ((rescans host_plain [([12, 10], none), ([10], none)]
        (scan_state_10_11_12, world_empty)).1.children_table[2]?
      = some { relid := 12, content_type := ChildContentType.CHILD_PLAN_STATE, content := 0,
               original_order := 2 } ∧
     (rescans host_plain [([12, 10], none), ([10], none)]
        (scan_state_10_11_12, world_empty)).1.cur_plans = [0] ∧
     (rescans host_plain [([12, 10], none), ([10], none)]
        (scan_state_10_11_12, world_empty)).1.ncur_plans = 1) := by
  have hev := (rescans_evolves host steps (scan_state, w)).2
  refine ⟨?_, ?_, ?_, ?_, by decide, by decide, by decide⟩
  · exact hev.map_eq (fun c => c.relid) (fun _ _ e => e.relid_eq)
  · exact hev.map_eq (fun c => c.original_order) (fun _ _ e => e.order_eq)
  · intro q c hq
    obtain ⟨c1, hq1, ev⟩ := hev.2 q c hq
    refine ⟨c1, hq1, ?_⟩
    rcases ev with ev | ⟨_, _, _, t, b⟩
    · left
      rw [ev]
      have hlt := lt_length_of_getElem? _ _ _ hq
      have hmem : c ∈ scan_state.children_table := by
        rw [List.getElem?_eq_getElem hlt] at hq
        rw [← Option.some.inj hq]
        exact List.getElem_mem _
      exact ⟨hprepared c hmem, rfl⟩
    · exact Or.inr ⟨t, b⟩
  · intro q c1 hq1 ht later
    obtain ⟨c2, hq2, ev⟩ :=
      (rescans_evolves host later (rescans host steps (scan_state, w))).2.2 q c1 hq1
    rcases ev with ev | ⟨n, _⟩
    · rw [hq2, ev]
    · exact absurd ht n

/-- Claim C15 at the pool of 10, 11, 12 and the rescans `[12, 10]` then
`[10]`: the keys are still 10, 11, 12. -/
theorem rescans_lifecycle_witness :
    (∀ c ∈ scan_state_10_11_12.children_table,
      c.content_type = ChildContentType.CHILD_PLAN) ∧
    pool_keys (rescans host_plain [([12, 10], none), ([10], none)]
        (scan_state_10_11_12, world_empty)).1.children_table = [10, 11, 12] :=
  ⟨by decide,
   (rescans_lifecycle host_plain scan_state_10_11_12 world_empty (by decide)
      [([12, 10], none), ([10], none)]).1⟩

/-! ## Claim C16: tuple production -/

theorem exec_loop_spec (proj : Option Nat → ProjOut) :
    ∀ (fuel : Nat) (st : AppendExecState), ExecInv proj st →
      st.input.length + 2 ≤ fuel + (if st.ps_TupFromTlist then 0 else 1) →
      ∃ ret st1, exec_loop fetch_from_input fuel st = some (ret, st1) ∧
        st1.ncur_plans = st.ncur_plans ∧ st1.node_rescans = st.node_rescans ∧
        st1.input.length ≤ st.input.length ∧ ExecInv proj st1 ∧
        ((ret = none ∧ rows_ahead proj st = [] ∧ st1.log = st.log ++ trace_ahead proj st) ∨
         (∃ out, ret = some out ∧ rows_ahead proj st = out :: rows_ahead proj st1 ∧
            st1.log ++ trace_ahead proj st1 = st.log ++ trace_ahead proj st)) := by
  intro fuel
  induction fuel with
  | zero =>
    intro st _ hf
    exfalso
    by_cases h : st.ps_TupFromTlist = true
    · simp [h] at hf
    · simp [h] at hf
  | succ fuel ih =>
    intro st hinv hf
    obtain ⟨ncur, slot, tft, pinfo, input, pend, nr, log⟩ := st
    obtain ⟨hp, ht, hfalse⟩ := hinv
    simp only at hp ht hfalse hf
    subst hp
    cases tft with
    | true =>
      have hsome := ht rfl
      cases pend with
      | none => simp at hsome
      | some l =>
        cases l with
        | cons o rest =>
          refine ⟨some o, (⟨ncur, slot, true, some proj, input, some rest, nr, log ++ [ExecTrace.project slot (some o) ExprDoneCond.ExprMultipleResult]⟩ : AppendExecState),
            ?_, rfl, rfl, Nat.le_refl _, ⟨rfl, fun _ => rfl, fun h => (by cases h)⟩, Or.inr ⟨o, rfl, ?_, ?_⟩⟩
          · simp [exec_loop, exec_project_step, ExecProject]
          · simp [rows_ahead]
          · simp [trace_ahead]
        | nil =>
          simp only [if_true, Nat.add_zero] at hf
          obtain ⟨ret, st1, h1, h2, h3, h4, h5, h6⟩ := ih
            (⟨ncur, slot, false, some proj, input, none, nr, log ++ [ExecTrace.project slot none ExprDoneCond.ExprEndResult]⟩ : AppendExecState)
            ⟨rfl, fun h => (by cases h), fun _ => rfl⟩ (by simp; omega)
          refine ⟨ret, st1, ?_, h2, h3, h4, h5, ?_⟩
          · simp [exec_loop, exec_project_step, ExecProject]
            exact h1
          · simpa [rows_ahead, trace_ahead] using h6
    | false =>
      have hnone := hfalse rfl
      subst hnone
      cases input with
      | nil =>
        refine ⟨none, (⟨ncur, none, false, some proj, [], none, nr, log ++ [ExecTrace.fetch none]⟩ : AppendExecState),
            ?_, rfl, rfl, Nat.le_refl _, ⟨rfl, fun h => (by cases h), fun _ => rfl⟩,
            Or.inl ⟨rfl, ?_, ?_⟩⟩
        · simp [exec_loop, fetch_from_input]
        · simp [rows_ahead]
        · simp [trace_ahead]
      | cons r rs =>
        cases hpr : proj (some r) with
        | single o =>
          refine ⟨some o, (⟨ncur, some r, false, some proj, rs, none, nr, log ++ [ExecTrace.fetch (some r)] ++ [ExecTrace.project (some r) (some o) ExprDoneCond.ExprSingleResult]⟩ : AppendExecState),
            ?_, rfl, rfl, by simp, ⟨rfl, fun h => (by cases h), fun _ => rfl⟩,
            Or.inr ⟨o, rfl, ?_, ?_⟩⟩
          · simp [exec_loop, fetch_from_input, exec_project_step, ExecProject, hpr]
          · simp [rows_ahead, hpr, ProjOut.outputs]
          · simp [trace_ahead, row_trace, hpr]
        | multiple os =>
          cases os with
          | cons o rest =>
            refine ⟨some o, (⟨ncur, some r, true, some proj, rs, some rest, nr, log ++ [ExecTrace.fetch (some r)] ++ [ExecTrace.project (some r) (some o) ExprDoneCond.ExprMultipleResult]⟩ : AppendExecState),
              ?_, rfl, rfl, by simp, ⟨rfl, fun _ => rfl, fun h => (by cases h)⟩,
              Or.inr ⟨o, rfl, ?_, ?_⟩⟩
            · simp [exec_loop, fetch_from_input, exec_project_step, ExecProject, hpr]
            · simp [rows_ahead, hpr, ProjOut.outputs]
            · simp [trace_ahead, row_trace, hpr]
          | nil =>
            simp only [List.length_cons] at hf
            obtain ⟨ret, st1, h1, h2, h3, h4, h5, h6⟩ := ih
              (⟨ncur, some r, false, some proj, rs, none, nr, log ++ [ExecTrace.fetch (some r)] ++ [ExecTrace.project (some r) none ExprDoneCond.ExprEndResult]⟩ : AppendExecState)
              ⟨rfl, fun h => (by cases h), fun _ => rfl⟩ (by simp at hf ⊢; omega)
            refine ⟨ret, st1, ?_, h2, h3, ?_, h5, ?_⟩
            · simp [exec_loop, fetch_from_input, exec_project_step, ExecProject, hpr]
              simpa using h1
            · simp only [List.length_cons]
              exact Nat.le_succ_of_le h4
            · simpa [rows_ahead, trace_ahead, row_trace, hpr, ProjOut.outputs] using h6

/-- One call of `exec_append_common` on a node with projection. -/
theorem exec_call_spec (proj : Option Nat → ProjOut) (fuel : Nat) (st : AppendExecState)
    (hinv : ExecInv proj st) (hf : st.input.length + 2 ≤ fuel) :
    ∃ ret st1, exec_append_common fetch_from_input fuel st = some (ret, st1) ∧
      st1.ncur_plans = st.ncur_plans ∧
      st1.input.length ≤ st.input.length ∧ ExecInv proj st1 ∧
      ((ret = none ∧ rows_ahead proj st = [] ∧ st1.log = st.log ++ trace_ahead proj st) ∨
       (∃ out, ret = some out ∧ rows_ahead proj st = out :: rows_ahead proj st1 ∧
          st1.log ++ trace_ahead proj st1 = st.log ++ trace_ahead proj st)) := by
  unfold exec_append_common
  by_cases hn : st.ncur_plans = 0
  · obtain ⟨ret, st1, h1, h2, _, h4, h5, h6⟩ := exec_loop_spec proj fuel
      { st with node_rescans := st.node_rescans + 1 } hinv (by
        show st.input.length + 2 ≤ fuel + (if st.ps_TupFromTlist then 0 else 1)
        omega)
    refine ⟨ret, st1, ?_, h2, h4, h5, h6⟩
    rw [if_pos hn]
    exact h1
  · obtain ⟨ret, st1, h1, h2, _, h4, h5, h6⟩ := exec_loop_spec proj fuel st hinv (by omega)
    refine ⟨ret, st1, ?_, h2, h4, h5, h6⟩
    rw [if_neg hn]
    exact h1

/-- Successive calls on a node with projection return the rows ahead and
make the host calls ahead. -/
theorem exec_until_end_spec (proj : Option Nat → ProjOut) (fuel : Nat) :
    ∀ (calls : Nat) (st : AppendExecState), ExecInv proj st → st.input.length + 2 ≤ fuel →
      (rows_ahead proj st).length < calls →
      ∃ st2, exec_until_end fetch_from_input fuel calls st = some (rows_ahead proj st, st2) ∧
        st2.log = st.log ++ trace_ahead proj st := by
  intro calls
  induction calls with
  | zero => intro st _ _ hc; omega
  | succ calls ih =>
    intro st hinv hf hc
    obtain ⟨ret, st1, h1, _, h3, h4, h5⟩ := exec_call_spec proj fuel st hinv hf
    rcases h5 with ⟨hr, hrows, hlog⟩ | ⟨out, hr, hrows, hlog⟩
    · subst hr
      refine ⟨st1, ?_, hlog⟩
      simp only [exec_until_end, h1, hrows]
    · subst hr
      rw [hrows] at hc
      obtain ⟨st2, h6, h7⟩ := ih st1 h4 (by omega) (by simpa using hc)
      refine ⟨st2, ?_, by rw [h7, hlog]⟩
      simp only [exec_until_end, h1, h6, hrows]

/-- One call on a node without projection returns what the callback put in
the slot. -/
theorem exec_call_no_projection (fuel : Nat) (st : AppendExecState)
    (hp : st.ps_ProjInfo.isNone = true) (ht : st.ps_TupFromTlist = false) :
    ∃ st1, exec_append_common fetch_from_input (fuel + 1) st = some (st.input.head?, st1) ∧
      st1.slot = st.input.head? ∧ st1.input = st.input.tail ∧
      st1.ps_TupFromTlist = false ∧ st1.ps_ProjInfo.isNone = true ∧
      st1.log = st.log ++ [ExecTrace.fetch st.input.head?] := by
  obtain ⟨ncur, slot, tft, pinfo, input, pend, nr, log⟩ := st
  simp only at hp ht
  subst ht
  cases pinfo with
  | some p => simp at hp
  | none =>
    by_cases hn : ncur = 0 <;> cases input <;>
      simp [exec_append_common, exec_loop, fetch_from_input, exec_project_step, hn]

theorem exec_until_end_no_projection (fuel : Nat) :
    ∀ (calls : Nat) (st : AppendExecState), st.ps_ProjInfo.isNone = true →
      st.ps_TupFromTlist = false → st.input.length < calls →
      ∃ st2, exec_until_end fetch_from_input (fuel + 1) calls st = some (st.input, st2) ∧
        st2.log = st.log ++ st.input.map (fun row => ExecTrace.fetch (some row))
          ++ [ExecTrace.fetch none] := by
  intro calls
  induction calls with
  | zero => intro st _ _ hc; omega
  | succ calls ih =>
    intro st hp ht hc
    obtain ⟨st1, h1, _, hin, ht1, hp1, hlog⟩ := exec_call_no_projection fuel st hp ht
    cases hi : st.input with
    | nil =>
      rw [hi] at h1 hlog
      simp only [List.head?_nil] at h1 hlog
      exact ⟨st1, by simp only [exec_until_end, h1], by rw [hlog]; simp⟩
    | cons r rs =>
      rw [hi] at h1 hlog hin hc
      simp only [List.head?_cons, List.tail_cons] at h1 hlog hin
      obtain ⟨st2, h6, h7⟩ := ih st1 hp1 ht1 (by rw [hin]; simpa using hc)
      refine ⟨st2, ?_, ?_⟩
      · simp only [exec_until_end, h1, h6, hin]
      · rw [h7, hlog, hin]
        simp

/-- Claim C16.  Let the advance callback deliver the rows `rows` and then an
empty slot, starting after `begin_append_common`.  With a projection that
maps each row to a finite sequence of output rows, every call of
`exec_append_common` returns (with `rows.length + 2` iterations allowed), and
the rows returned by successive calls up to the first `NULL` are the
concatenation, in input order, of the outputs of each input row; the host is
called, for each input row in turn, first by the callback and then by
`ExecProject` until that row's outputs are exhausted, so a new input row is
requested only then.  With no projection each call returns the row the
callback delivered: the rows returned are `rows`. -/
theorem exec_append_common_stream (proj : Option Nat → ProjOut) (rows : List Nat)
    (ncur_plans fuel calls : Nat) (hfuel : rows.length + 2 ≤ fuel)
    (hcalls : rows.length +
      ((rows.map (fun row => (proj (some row)).outputs)).flatten).length < calls) :
    (∃ st, exec_until_end fetch_from_input fuel calls (exec_begin ncur_plans (some proj) rows)
        = some ((rows.map (fun row => (proj (some row)).outputs)).flatten, st) ∧
      st.log = (rows.map (row_trace proj)).flatten ++ [ExecTrace.fetch none]) ∧
    (∃ st, exec_until_end fetch_from_input fuel calls (exec_begin ncur_plans none rows)
        = some (rows, st) ∧
      st.log = rows.map (fun row => ExecTrace.fetch (some row)) ++ [ExecTrace.fetch none]) ∧
    (∀ st : AppendExecState, st.ps_ProjInfo.isNone = true → st.ps_TupFromTlist = false →
      ∃ st1, exec_append_common fetch_from_input fuel st = some (st.input.head?, st1) ∧
        st1.slot = st.input.head? ∧ st1.input = st.input.tail ∧
        st1.ps_TupFromTlist = false) := by
  refine ⟨?_, ?_, ?_⟩
  · obtain ⟨st2, h1, h2⟩ := exec_until_end_spec proj fuel calls
      (exec_begin ncur_plans (some proj) rows) ⟨rfl, fun h => (by cases h), fun _ => rfl⟩
      hfuel (by
        have : rows_ahead proj (exec_begin ncur_plans (some proj) rows)
            = (rows.map (fun row => (proj (some row)).outputs)).flatten := by
          simp [rows_ahead, exec_begin]
        rw [this]; omega)
    refine ⟨st2, ?_, ?_⟩
    · rw [h1]
      simp [rows_ahead, exec_begin]
    · rw [h2]
      simp [trace_ahead, exec_begin]
  · obtain ⟨f, hf⟩ : ∃ f, fuel = f + 1 := ⟨fuel - 1, by omega⟩
    subst hf
    obtain ⟨st2, h1, h2⟩ := exec_until_end_no_projection f calls
      (exec_begin ncur_plans none rows) rfl rfl (by
        show rows.length < calls
        omega)
    exact ⟨st2, h1, by rw [h2]; simp [exec_begin]⟩
  · intro st hp ht
    obtain ⟨f, hf⟩ : ∃ f, fuel = f + 1 := ⟨fuel - 1, by omega⟩
    subst hf
    obtain ⟨st1, h1, h2, h3, h4, _⟩ := exec_call_no_projection f st hp ht
    exact ⟨st1, h1, h2, h3, h4⟩

/-- Claim C16 at the input rows 1, 2, 3 under `proj_example` (row 1 gives no
output, row 2 the rows 20 and 21, row 3 the row 103). -/
theorem exec_append_common_stream_witness :
    ∃ st, exec_until_end fetch_from_input 5 7 (exec_begin 1 (some proj_example) [1, 2, 3])
        = some ([20, 21, 103], st) ∧
      st.log =
        [ExecTrace.fetch (some 1),
         ExecTrace.project (some 1) none ExprDoneCond.ExprEndResult,
         ExecTrace.fetch (some 2),
         ExecTrace.project (some 2) (some 20) ExprDoneCond.ExprMultipleResult,
         ExecTrace.project (some 2) (some 21) ExprDoneCond.ExprMultipleResult,
         ExecTrace.project (some 2) none ExprDoneCond.ExprEndResult,
         ExecTrace.fetch (some 3),
         ExecTrace.project (some 3) (some 103) ExprDoneCond.ExprSingleResult,
         ExecTrace.fetch none] :=
  (exec_append_common_stream proj_example [1, 2, 3] 1 5 7 (by decide) (by decide)).1

/-! ## Claim C18: the writes of `resize_dsm_array` -/

/-- Claim C18, evaluated on the code.  Shrinking the 100-byte array `h`
(blocks 2-3) to 10 elements moves it to the one-block run at block 0 (bytes
0-63 with its header) and copies the old 100 bytes there: the copy runs on
through block 1, outside both the freed old run and the new run, and replaces
the header of the run of `a` (1: used, one block) by payload bytes. -/
theorem resize_dsm_array_writes_outside_new_run :
    resize_overrun_trace =
      some ({ offset := 64, elem_count := 10, entry_size := 1 },
            { offset := 0, elem_count := 10, entry_size := 1 },
            [1, 1, 0x0909090909090909], true) := by
  decide!

/-! ## Claim C17: the hint after an allocation -/

theorem Reached.start_le {h : Nat → Nat} {a j : Nat} (r : Reached h a j) : a ≤ j := by
  induction r with
  | start => exact le_refl _
  | free _ _ ih => omega
  | used _ _ ih => omega

/-- What the hook does, for all flags: it returns early exactly when `newval`
equals the conjunction of the four flags; otherwise it stores `newval` in the
three node flags and sends one notice. -/
theorem enable_hook_effect (newval : Bool) (s : EnableFlags) :
    (enable_hook_returns_early newval s = true →
      pg_pathman_enable_assign_hook newval s = s) ∧
    (enable_hook_returns_early newval s = false →
      (pg_pathman_enable_assign_hook newval s).pg_pathman_enable_runtimeappend = newval ∧
      (pg_pathman_enable_assign_hook newval s).pg_pathman_enable_runtime_merge_append
        = newval ∧
      (pg_pathman_enable_assign_hook newval s).pg_pathman_enable_partition_filter = newval ∧
      (pg_pathman_enable_assign_hook newval s).notices = s.notices ++ [newval]) := by
  constructor
  · intro h
    simp [pg_pathman_enable_assign_hook, h]
  · intro h
    simp [pg_pathman_enable_assign_hook, h]

/-- Switching on never leaves a node flag off: with `newval = true` the early
return is taken only when all flags are set. -/
theorem enable_hook_switch_on (s : EnableFlags) :
    (pg_pathman_enable_assign_hook true s).pg_pathman_enable_runtimeappend = true ∧
    (pg_pathman_enable_assign_hook true s).pg_pathman_enable_runtime_merge_append = true ∧
    (pg_pathman_enable_assign_hook true s).pg_pathman_enable_partition_filter = true := by
  obtain ⟨e, ra, rma, pf, n⟩ := s
  cases e <;> cases ra <;> cases rma <;> cases pf <;>
    simp [pg_pathman_enable_assign_hook, enable_hook_returns_early]

/-- Claim C21, evaluated on the code.  With RuntimeMergeAppend disabled and
the other flags set, `pg_pathman_enable_assign_hook(false)` takes the early
return although two node flags differ from `newval`: the conjunction of the
flags is already false.  The flags are left as they were, RuntimeAppend and
PartitionFilter stay enabled, and no notice is sent. -/
theorem enable_hook_early_return_leaves_flags :
    enable_hook_returns_early false flags_merge_append_off = true ∧
    pg_pathman_enable_assign_hook false flags_merge_append_off = flags_merge_append_off ∧
    (pg_pathman_enable_assign_hook false flags_merge_append_off).pg_pathman_enable_runtimeappend
      = true ∧
    (pg_pathman_enable_assign_hook false
      flags_merge_append_off).pg_pathman_enable_partition_filter = true := by
  decide

end Pathman
